import Mathlib

/-!
# MQ2DanNet: the node core (`src/MQ2DanNet/MQ2DanNet.cpp`)

A shallow embedding of `MQ2DanNet::Node`: the state of the consumer thread (command registry,
dispatch queue, response keys, observer maps, observation cache, query state) with the command
handlers and the periodic publish pass that run on it, and the turns of the actor loop (pipe
messages and zyre events, peer and group directories); with it the helpers `CreateArray` and
`ParseArray` and the group counts of the data type `DanNet`. Theorems about them follow.

Conventions of the embedding:

* `std::map` / `std::set` are association lists / lists kept in ascending key order; iteration is
  list order, `crbegin()` is the last element.
* The singleton `Node::get()` is an explicit `Node` value passed through every operation.
* `std::function<bool(std::stringstream&&)>` is a value of a handler type `H`; the generic
  operations are parametric in `H`, the closures of this program are the type `Callback`.
* What the node hands to the actor pipe, to zyre or to the host application is appended to
  `Node.effects`.
* The host application, zyre and the Archive library are the record `Env`.
* Values of type `unsigned __int64` are natural numbers; arithmetic on them wraps at `2 ^ 64`.
-/

namespace MQ2DanNet

/-! ## Containers -/

/-- The `Compare` parameter of `std::map` and `std::set`: the strict order of the keys. -/
class Compare (κ : Type) where
  /-- The call `comp(a, b)`. -/
  lt : κ → κ → Bool

/-- Models `std::less<unsigned int>` and `std::less<unsigned char>`. -/
instance instCompareNat : Compare Nat := ⟨fun a b => decide (a < b)⟩

/-- Models `std::string::compare(...) < 0` on the characters: the first difference decides, a proper
beginning is smaller. -/
def string_less : List Char → List Char → Bool
  | [], [] => false
  | [], _ :: _ => true
  | _ :: _, [] => false
  | a :: as, b :: bs =>
    if a.toNat < b.toNat then true
    else if b.toNat < a.toNat then false
    else string_less as bs

/-- Models `std::less<std::string>`. -/
instance instCompareString : Compare String := ⟨fun a b => string_less a.toList b.toList⟩

namespace StdMap

/-- Models `std::map::find(k)`, giving the mapped value. -/
def find {κ α : Type} [DecidableEq κ] (k : κ) : List (κ × α) → Option α
  | [] => none
  | (a, b) :: m => if a = k then some b else find k m

/-- Models the assignment `m[k] = v` on a `std::map`: overwrite the entry of `k`, or insert it at its place in the
key order. -/
def assign {κ α : Type} [Compare κ] [DecidableEq κ] (k : κ) (v : α) :
    List (κ × α) → List (κ × α)
  | [] => [(k, v)]
  | (a, b) :: m =>
    if a = k then (k, v) :: m
    else if Compare.lt k a then (k, v) :: (a, b) :: m
    else (a, b) :: assign k v m

/-- Models `std::map::erase(k)`. -/
def erase {κ α : Type} [DecidableEq κ] (k : κ) : List (κ × α) → List (κ × α)
  | [] => []
  | (a, b) :: m => if a = k then erase k m else (a, b) :: erase k m

end StdMap

namespace StdSet

/-- Models `std::set::insert(k)`: no effect when `k` is present, else `k` enters at its place in the
order. -/
def insert {κ : Type} [Compare κ] [DecidableEq κ] (k : κ) : List κ → List κ
  | [] => [k]
  | a :: s =>
    if a = k then a :: s
    else if Compare.lt k a then k :: a :: s
    else a :: insert k s

/-- Models `std::set::erase(k)`. -/
def erase {κ : Type} [DecidableEq κ] (k : κ) : List κ → List κ
  | [] => []
  | a :: s => if a = k then erase k s else a :: erase k s

end StdSet

/-! ## Data model -/

/-- The bytes held by a `std::stringstream`. -/
abbrev Payload := List Nat

/-- Models `Node::Observation`. -/
structure Observation where
  output : String
  data : String
  received : Nat
deriving DecidableEq, Repr

/-- Models `Observation()`. -/
def Observation.init : Observation := ⟨"", "NULL", 0⟩

/-- Models `Observation(const std::string& output)`. -/
def Observation.ofOutput (output : String) : Observation := ⟨output, "NULL", 0⟩

/-- Models `Node::Query`; `Query(const std::string& query)` is `⟨query, 0, 0⟩`. -/
structure Query where
  query : String
  benchmark : Nat
  last : Nat
deriving DecidableEq, Repr

/-- Models `Node::Observed`. -/
structure Observed where
  query : String
  name : String
deriving DecidableEq, Repr

/-- Models `Node::ObservedCompare::operator()`. -/
def ObservedCompare (lhs rhs : Observed) : Bool :=
  if lhs.query ≠ rhs.query then Compare.lt lhs.query rhs.query
  else Compare.lt lhs.name rhs.name

instance instCompareObserved : Compare Observed := ⟨ObservedCompare⟩

/-- What the node hands to the outside. From the consumer thread: the messages `join`,
`leave`, `publish` and `respond` send down the actor pipe (`JOIN`, `LEAVE`, `SHOUT`, `WHISPER`)
and the calls into the host application; `WriteChatf` keeps the string arguments of the call,
not the colour codes of its format. From the actor thread: the calls into the zyre library, and
`reply` for an answer written back on the pipe, whose content comes from zyre. -/
inductive Effect
  | JOIN (group : String)
  | LEAVE (group : String)
  | SHOUT (group cmd : String) (args : Payload)
  | WHISPER (name cmd : String) (args : Payload)
  | WriteChatf (args : List String)
  | EzCommand (command : String)
  | zyre_join (group : String)
  | zyre_leave (group : String)
  | zyre_shout (group : String) (msg : List Payload)
  | zyre_whisper (uuid : String) (msg : List Payload)
  | zyre_set_expired_timeout (szKeepalive : String)
  | zyre_stop
  | reply (command : String)
deriving DecidableEq, Repr

/-- The members of `class Node`, for handlers of type `H`. `_actor` tells whether the actor
pointer is non-null. A join or leave callback is the truth value it returns for a peer name and
a group. -/
structure Node (H : Type) where
  _node_name : String
  _actor : Bool
  _join_callbacks : List (String → String → Bool)
  _leave_callbacks : List (String → String → Bool)
  _connected_peers : List (String × String)
  _peer_groups : List (String × List String)
  _own_groups : List String
  _command_map : List (String × H)
  _command_queue : List (String × Payload)
  _response_keys : List Nat
  _observer_map : List (Nat × Query)
  _observed_map : List (Observed × String)
  _observed_data : List (String × Observation)
  _current_query : String
  _query_result : Observation
  _debugging : Bool
  _command_echo : Bool
  _observe_delay : Nat
  effects : List Effect

/-- Models the constructor `Node::Node()`, whose body is empty: every container empty,
`_query_result` default-constructed. -/
def Node.fresh (H : Type) : Node H :=
  { _node_name := "", _actor := false, _join_callbacks := [], _leave_callbacks := [],
    _connected_peers := [], _peer_groups := [], _own_groups := [], _command_map := [],
    _command_queue := [], _response_keys := [], _observer_map := [], _observed_map := [],
    _observed_data := [], _current_query := "", _query_result := Observation.init,
    _debugging := false, _command_echo := false, _observe_delay := 0, effects := [] }

/-- The collaborators of the node core that are not in this repository's sources.

* `get` / `put`: `Archive<std::stringstream>` extraction and insertion of one `std::string`
  (`archive.h`); `get` is `none` where the extraction throws `std::runtime_error`, `put s p` is
  the stream `p` with `s` written after it.
* `ParseMacroData`, `gMacroBlock`, `FindMQ2DataVariable`: the host's macro evaluator;
  `VarToString output data` is what `ToString` renders for the variable `output` after
  `FromString` was given `data`.
* `MQGetTickCount64`: the clock value read during the operation.
* `rbegin_response_keys`, `rbegin_observer_map`: the value `*crbegin()` yields on the empty
  container, which the language leaves undefined.
* `peer_uuid`: the answer of `Node::peer_uuid`, which asks zyre for its peers; `IsNumber`: the
  host's test of a numeric string. -/
structure Env where
  get : Payload → Option (String × Payload)
  put : String → Payload → Payload
  ParseMacroData : String → String
  gMacroBlock : Bool
  FindMQ2DataVariable : String → Bool
  VarToString : String → String → String
  MQGetTickCount64 : Nat
  rbegin_response_keys : Nat
  rbegin_observer_map : Nat
  peer_uuid : String → String
  IsNumber : String → Bool

/-! ## Command registry and response keys -/

/-- Models `Node::register_command(name, callback)`. -/
def register_command {H : Type} (name : String) (callback : H) (n : Node H) : Node H :=
  { n with _command_map := StdMap.assign name callback n._command_map }

/-- Models `Node::unregister_command(name)`. -/
def unregister_command {H : Type} (name : String) (n : Node H) : Node H :=
  { n with _command_map := StdMap.erase name n._command_map }

/-- The `unsigned char next_val = *(_response_keys.crbegin()) + 1` of `register_response`. On
an empty `_response_keys` the read is undefined in the source; the value given here for that
case, from `env.rbegin_response_keys`, is not a behaviour of the program. -/
def next_val {H : Type} (env : Env) (n : Node H) : Nat :=
  (n._response_keys.getLast?.getD env.rbegin_response_keys + 1) % 256

/-- Models `Node::register_response(callback)`: the returned key and the node afterwards. -/
def register_response {H : Type} (env : Env) (callback : H) (n : Node H) : String × Node H :=
  let key := "response_" ++ toString (next_val env n)
  (key, register_command key callback
    { n with _response_keys := StdSet.insert (next_val env n) n._response_keys })

/-- The node after `k` successive calls of `register_response(callback)`. -/
def register_responses {H : Type} (env : Env) (callback : H) : Nat → Node H → Node H
  | 0, n => n
  | k + 1, n => register_responses env callback k (register_response env callback n).2

/-! ## Observers (subject side) -/

/-- Models `Node::init_string`: lower-case copy. -/
def init_string (szStr : String) : String := String.mk (szStr.toList.map Char.toLower)

/-- Models `Node::observer_group(key)`. -/
def observer_group {H : Type} (n : Node H) (key : Nat) : String :=
  n._node_name ++ "_" ++ init_string (toString key)

/-- The `for` loop of `register_observer` / `unregister_observer`: the first entry, in key
order, whose query is `query`. -/
def find_observer (query : String) : List (Nat × Query) → Option Nat
  | [] => none
  | (key, q) :: m => if q.query = query then some key else find_observer query m

/-- Models `Node::register_observer(name, query)`: the returned group name and the node
afterwards. `position` is an `unsigned int`. On an empty `_observer_map` the read of
`crbegin()->first` is undefined in the source; the key given here for that case, from
`env.rbegin_observer_map`, is not a behaviour of the program. -/
def register_observer {H : Type} (env : Env) (_name query : String) (n : Node H) :
    String × Node H :=
  match find_observer query n._observer_map with
  | some key => (observer_group n key, n)
  | none =>
    let position :=
      ((n._observer_map.getLast?.map Prod.fst).getD env.rbegin_observer_map + 1) % 2 ^ 32
    (observer_group n position,
      { n with _observer_map := StdMap.assign position ⟨query, 0, 0⟩ n._observer_map })

/-- Models `Node::unregister_observer(query)`. -/
def unregister_observer {H : Type} (query : String) (n : Node H) : Node H :=
  match find_observer query n._observer_map with
  | some key => { n with _observer_map := StdMap.erase key n._observer_map }
  | none => n

/-! ## Messages to the actor -/

/-- Models `Node::join(group)`. -/
def join {H : Type} (group : String) (n : Node H) : Node H :=
  if n._actor then { n with effects := n.effects ++ [Effect.JOIN group] } else n

/-- Models `Node::leave(group)`. -/
def leave {H : Type} (group : String) (n : Node H) : Node H :=
  if n._actor then { n with effects := n.effects ++ [Effect.LEAVE group] } else n

/-- Models `Node::publish(group, cmd, args)`. -/
def publish {H : Type} (group cmd : String) (args : Payload) (n : Node H) : Node H :=
  if n._actor then { n with effects := n.effects ++ [Effect.SHOUT group cmd args] } else n

/-- Models `Node::respond(name, cmd, args)`. -/
def respond {H : Type} (name cmd : String) (args : Payload) (n : Node H) : Node H :=
  if n._actor then { n with effects := n.effects ++ [Effect.WHISPER name cmd args] } else n

/-! ## Observations (watcher side) -/

/-- Models `Node::observe(group, name, query)`. -/
def observe {H : Type} (group name query : String) (n : Node H) : Node H :=
  let n1 := join group n
  { n1 with _observed_map := StdMap.assign ⟨query, name⟩ group n1._observed_map }

/-- The `std::find_if` and `erase(map_it)` of `forget(group)`: drop the first entry, in key
order, that maps to `group`. -/
def erase_group (group : String) : List (Observed × String) → List (Observed × String)
  | [] => []
  | (k, v) :: m => if v = group then m else (k, v) :: erase_group group m

/-- Models `Node::forget(group)`. -/
def forget {H : Type} (group : String) (n : Node H) : Node H :=
  leave group
    { n with _observed_map := erase_group group n._observed_map,
             _observed_data := StdMap.erase group n._observed_data }

/-- Models `Node::forget(name, query)`. -/
def forget_query {H : Type} (name query : String) (n : Node H) : Node H :=
  match StdMap.find (⟨query, name⟩ : Observed) n._observed_map with
  | some group =>
    leave group
      { n with _observed_data := StdMap.erase group n._observed_data,
               _observed_map := StdMap.erase (⟨query, name⟩ : Observed) n._observed_map }
  | none => n

/-- Models `Node::update(group, data, output)`, run while the clock reads `now`. -/
def update {H : Type} (now : Nat) (group data output : String) (n : Node H) : Node H :=
  match StdMap.find group n._observed_data with
  | some _ => { n with _observed_data := StdMap.assign group ⟨output, data, now⟩ n._observed_data }
  | none => { n with _observed_data := StdMap.assign group ⟨output, data, now⟩ n._observed_data }

/-- Models `Node::read(group)`. -/
def read {H : Type} (group : String) (n : Node H) : Observation :=
  match StdMap.find group n._observed_data with
  | some obs => obs
  | none => Observation.init

/-- Models `Node::read(name, query)`. -/
def read_query {H : Type} (name query : String) (n : Node H) : Observation :=
  match StdMap.find (⟨query, name⟩ : Observed) n._observed_map with
  | some group => read group n
  | none => Observation.init

/-- Models `Node::can_read(name, query)`. -/
def can_read {H : Type} (name query : String) (n : Node H) : Bool :=
  (StdMap.find (⟨query, name⟩ : Observed) n._observed_map).isSome

/-! ## Query state -/

/-- Models the `std::regex_replace` of `trim_query` and `Execute::callback`: every dollar,
backslash, opening brace in a row loses its backslash. -/
def unescape : List Char → List Char
  | [] => []
  | [c] => [c]
  | [c, d] => [c, d]
  | c :: d :: e :: rest =>
    if c = '$' ∧ d = '\x5c' ∧ e = '\x7b' then '$' :: '\x7b' :: unescape rest
    else c :: unescape (d :: e :: rest)

/-- Models `Node::trim_query(query)`. The test on `find_first_of` holds when the first
character is a dollar or an opening brace. The source has steps that the language leaves
undefined: `front()` and `back()` on an empty string, and the `erase` of two characters from
a string of one. On a query that reaches such a step (`trim_query_defined` is false) the value
given here, which reads no character there and erases to the end of the string, is not a
behaviour of the program. -/
def trim_query (query : String) : String :=
  let q0 := unescape query.toList
  let q1 := if q0.head? = some '\x22' then q0.drop 1 else q0
  let q2 := if q1.getLast? = some '\x22' then q1.dropLast else q1
  let q3 := if q2.head? = some '$' ∨ q2.head? = some '\x7b' then q2.drop 2 else q2
  let q4 := if q3.getLast? = some '\x7d' then q3.dropLast else q3
  String.mk q4

/-- Every step of `Node::trim_query(query)` is defined: the string is not empty when
`front()` is called, not empty at either call of `back()`, and at least two characters long
when two characters are erased. -/
def trim_query_defined (query : String) : Bool :=
  let q0 := unescape query.toList
  let q1 := if q0.head? = some '\x22' then q0.drop 1 else q0
  let q2 := if q1.getLast? = some '\x22' then q1.dropLast else q1
  let q3 := if q2.head? = some '$' ∨ q2.head? = some '\x7b' then q2.drop 2 else q2
  !q0.isEmpty && !q1.isEmpty
    && (if q2.head? = some '$' ∨ q2.head? = some '\x7b' then decide (2 ≤ q2.length) else true)
    && !q3.isEmpty

/-- Models `Node::query(output, query)`: the returned observation and the node afterwards. -/
def query {H : Type} (output query : String) (n : Node H) : Observation × Node H :=
  let final_query := trim_query query
  let n1 :=
    if final_query.isEmpty ∨ final_query ≠ n._current_query then
      { n with _current_query := final_query, _query_result := Observation.ofOutput output }
    else n
  (n1._query_result, n1)

/-- Models `Node::query_result(obs)`. -/
def query_result {H : Type} (obs : Observation) (n : Node H) : Node H :=
  { n with _query_result := obs }

/-- Models `Node::parse_query(query)`. -/
def parse_query (env : Env) (query : String) : String :=
  env.ParseMacroData ("$\x7b" ++ query ++ "\x7d")

/-- Models `Node::parse_response(output, data)` followed by the rendering its callers make of the
returned `MQ2TYPEVAR`: `none` when `Result.Type` is null, else the text `ToString` gives. -/
def parse_response (env : Env) (output data : String) : Option String :=
  if ¬ output.isEmpty ∧ env.gMacroBlock then
    if env.FindMQ2DataVariable output then some (env.VarToString output data) else none
  else some data

/-- The `szBuf` the handlers fill from `parse_response`: `"NULL"` for a null type. -/
def response_text (env : Env) (output data : String) : String :=
  (parse_response env output data).getD "NULL"

/-! ## Dispatch queue -/

/-- Models `Node::queue_command(command, args)`. -/
def queue_command {H : Type} (command : String) (args : Payload) (n : Node H) : Node H :=
  { n with _command_queue := n._command_queue ++ [(command, args)] }

/-- Models `Node::do_next()` for handlers run by `invoke`, together with the handler call it made (the
handler and the stream moved into it), if any. -/
def do_next_call {H : Type} (invoke : H → Payload → Node H → Bool × Node H) (n : Node H) :
    Option (H × Payload) × Node H :=
  match n._command_queue with
  | [] => (none, n)
  | command_pair :: rest =>
    let n1 := { n with _command_queue := rest }
    match StdMap.find command_pair.1 n1._command_map with
    | none => (none, n1)
    | some callback =>
      let r := invoke callback command_pair.2 n1
      (some (callback, command_pair.2),
        if r.1 then { r.2 with _command_map := StdMap.erase command_pair.1 r.2._command_map }
        else r.2)

/-- Models `Node::do_next()`. -/
def do_next {H : Type} (invoke : H → Payload → Node H → Bool × Node H) (n : Node H) : Node H :=
  (do_next_call invoke n).2

/-- The node after `k` ticks of `do_next`. -/
def do_nexts {H : Type} (invoke : H → Payload → Node H → Bool × Node H) : Nat → Node H → Node H
  | 0, n => n
  | k + 1, n => do_nexts invoke k (do_next invoke n)

/-! ## Commands

Diagnostics (`DebugSpewAlways`, `MacroError`, and the `WriteChatf` calls made only under
`debugging()`) change nothing in the node and are left out. -/

/-- The closures that this program stores in `_command_map`: the `callback` of the five
`COMMAND` classes, the lambda `f` of `Query::pack`, and the lambda `f` of `Observe::pack` with
its captures `final_query` and `output`. -/
inductive Callback
  | Echo
  | Execute
  | Query
  | Observe
  | Update
  | Query_response
  | Observe_response (final_query output : String)
deriving DecidableEq, Repr

/-- Models `ar >> a >> b >> c` inside a `try`: `none` when one of the extractions throws. -/
def extract3 (env : Env) (args : Payload) : Option (String × String × String) :=
  match env.get args with
  | none => none
  | some (a, r1) =>
    match env.get r1 with
    | none => none
    | some (b, r2) =>
      match env.get r2 with
      | none => none
      | some (c, _) => some (a, b, c)

/-- Models `ar >> a >> b >> c >> d` inside a `try`: `none` when one of the extractions throws. -/
def extract4 (env : Env) (args : Payload) : Option (String × String × String × String) :=
  match env.get args with
  | none => none
  | some (a, r1) =>
    match env.get r1 with
    | none => none
    | some (b, r2) =>
      match env.get r2 with
      | none => none
      | some (c, r3) =>
        match env.get r3 with
        | none => none
        | some (d, _) => some (a, b, c, d)

/-- Models `Echo::callback`. -/
def Echo_callback {H : Type} (env : Env) (args : Payload) (n : Node H) : Bool × Node H :=
  match extract3 env args with
  | some (from_, group, text) =>
    (false, { n with effects := n.effects ++
      [Effect.WriteChatf (if group.isEmpty then [from_, text] else [from_, group, text])] })
  | none => (false, n)

/-- Models `Execute::callback`; the host command run by `EzCommand` is recorded, not interpreted. -/
def Execute_callback {H : Type} (env : Env) (args : Payload) (n : Node H) : Bool × Node H :=
  match extract3 env args with
  | some (from_, group, command) =>
    let final_command := String.mk (unescape command.toList)
    let n1 :=
      if n._command_echo then
        { n with effects := n.effects ++
          [Effect.WriteChatf
            (if group.isEmpty then [from_, final_command] else [from_, group, final_command])] }
      else n
    (false, { n1 with effects := n1.effects ++ [Effect.EzCommand final_command] })
  | none => (false, n)

/-- Models `Query::callback`. -/
def Query_callback {H : Type} (env : Env) (args : Payload) (n : Node H) : Bool × Node H :=
  match extract4 env args with
  | some (from_, _group, key, request) =>
    (false, respond from_ key (env.put (parse_query env request) []) n)
  | none => (false, n)

/-- Models `Update::callback`. -/
def Update_callback {H : Type} (env : Env) (args : Payload) (n : Node H) : Bool × Node H :=
  match extract3 env args with
  | some (_from, group, data) =>
    let output := (read group n).output
    if output.isEmpty ∨ env.FindMQ2DataVariable output then
      (false, update env.MQGetTickCount64 group (response_text env output data) output n)
    else (false, forget group n)
  | none => (false, n)

/-- Models `Observe::callback`. -/
def Observe_callback {H : Type} (env : Env) (args : Payload) (n : Node H) : Bool × Node H :=
  match extract4 env args with
  | some (from_, _group, key, query) =>
    let r := register_observer env from_ query n
    (false, respond from_ key (env.put (parse_query env query) (env.put r.1 [])) r.2)
  | none => (false, n)

/-- The lambda `f` of `Query::pack`. -/
def Query_response {H : Type} (env : Env) (args : Payload) (n : Node H) : Bool × Node H :=
  match extract3 env args with
  | some (_from, _group, data) =>
    let output := n._query_result.output
    (true, query_result ⟨output, response_text env output data, env.MQGetTickCount64⟩ n)
  | none => (true, n)

/-- The lambda `f` of `Observe::pack`, for its captures `final_query` and `output`. -/
def Observe_response {H : Type} (env : Env) (final_query output : String) (args : Payload)
    (n : Node H) : Bool × Node H :=
  match extract4 env args with
  | some (from_, _group, new_group, data) =>
    if ¬ new_group.isEmpty then
      let n1 := observe new_group from_ final_query n
      let n2 := update env.MQGetTickCount64 new_group "NULL" output n1
      let self_send := env.put data (env.put new_group (env.put n2._node_name []))
      (true, (Update_callback env self_send n2).2)
    else (true, n)
  | none => (true, n)

/-- The call `command_it->second(std::move(command_pair.second))` of `do_next` for the closures
of this program. -/
def invoke (env : Env) : Callback → Payload → Node Callback → Bool × Node Callback
  | Callback.Echo, args, n => Echo_callback env args n
  | Callback.Execute, args, n => Execute_callback env args n
  | Callback.Query, args, n => Query_callback env args n
  | Callback.Observe, args, n => Observe_callback env args n
  | Callback.Update, args, n => Update_callback env args n
  | Callback.Query_response, args, n => Query_response env args n
  | Callback.Observe_response final_query output, args, n =>
    Observe_response env final_query output args n

/-- Models `Echo::pack` and `Execute::pack`: the message alone. -/
def Echo_pack (env : Env) (_recipient message : String) : Payload := env.put message []

/-- Models `Query::pack(recipient, request)`: the stream to send and the node afterwards. -/
def Query_pack (env : Env) (_recipient request : String) (n : Node Callback) :
    Payload × Node Callback :=
  let r := register_response env Callback.Query_response n
  (env.put request (env.put r.1 []), r.2)

/-- Models `Observe::pack(recipient, query, output)`: the stream to send and the node afterwards. -/
def Observe_pack (env : Env) (recipient query output : String) (n : Node Callback) :
    Payload × Node Callback :=
  let final_query := trim_query query
  if recipient = n._node_name then
    let r := register_observer env recipient final_query n
    let n1 := observe r.1 recipient final_query r.2
    let n2 := update env.MQGetTickCount64 r.1 "NULL" output n1
    let self_send :=
      env.put (parse_query env final_query) (env.put r.1 (env.put n2._node_name []))
    ([], (Update_callback env self_send n2).2)
  else
    let r := register_response env (Callback.Observe_response final_query output) n
    (env.put final_query (env.put r.1 []), r.2)

/-- The five `register_command` calls of `InitializePlugin`. -/
def InitializePlugin (n : Node Callback) : Node Callback :=
  register_command "Update" Callback.Update
    (register_command "Observe" Callback.Observe
      (register_command "Query" Callback.Query
        (register_command "Execute" Callback.Execute
          (register_command "Echo" Callback.Echo n))))

/-- An `Env` to evaluate the definitions on: a string is stored as its length followed by its
character codes, an extraction fails on a stream shorter than the length it announces. -/
def Env.sample : Env :=
  { get := fun p =>
      match p with
      | [] => none
      | len :: rest =>
        if len ≤ rest.length then some (String.mk ((rest.take len).map Char.ofNat), rest.drop len)
        else none
    put := fun s p => p ++ s.length :: s.toList.map Char.toNat
    ParseMacroData := fun s => s
    gMacroBlock := false
    FindMQ2DataVariable := fun _ => false
    VarToString := fun _ data => data
    MQGetTickCount64 := 1000
    rbegin_response_keys := 7
    rbegin_observer_map := 0
    peer_uuid := fun _ => ""
    IsNumber := fun s => s.toList.all Char.isDigit && !s.toList.isEmpty }

/-- A node to evaluate the definitions on: `alice`, actor running, the five commands entered. -/
def Node.sample : Node Callback :=
  InitializePlugin { Node.fresh Callback with _node_name := "alice", _actor := true }

/-- A well-formed stream to evaluate the definitions on: `bob`, the empty group, `hi`. -/
def Payload.sample : Payload :=
  Env.sample.put "hi" (Env.sample.put "" (Env.sample.put "bob" []))

/-! ## Periodic publishing

`OnPulse` calls `Node::publish<Update>()`, the one instance of the template in the program. The
clock is read once when the loop reaches an entry (`tick`) and once more after the shout
(`after`); both readings are given per entry key. Values of type `unsigned __int64` are
natural numbers below `2 ^ 64` and the arithmetic on them wraps. -/

/-- Subtraction of `unsigned __int64` values. -/
def sub64 (a b : Nat) : Nat := (a % 2 ^ 64 + 2 ^ 64 - b % 2 ^ 64) % 2 ^ 64

/-- Multiplication of `unsigned __int64` values. -/
def mul64 (a b : Nat) : Nat := (a * b) % 2 ^ 64

/-- Addition of `unsigned __int64` values. -/
def add64 (a b : Nat) : Nat := (a + b) % 2 ^ 64

/-- How many low bits a value loses when it is stored in the 53-bit significand of a double:
halve until it fits, at most `fuel` times. -/
def double_shift : Nat → Nat → Nat
  | 0, _ => 0
  | fuel + 1, x => if x < 2 ^ 53 then 0 else 1 + double_shift fuel (x / 2)

/-- The conversion of an `unsigned __int64` to `double`, as the integer the double stands for:
exact below `2 ^ 53`, else rounded to the nearest value with 53 significant bits, ties to the
even significand. -/
def to_double (x : Nat) : Nat :=
  let shift := double_shift 11 x
  if shift = 0 then x
  else
    let q := x / 2 ^ shift
    let r := x % 2 ^ shift
    let half := 2 ^ (shift - 1)
    if r < half then q * 2 ^ shift
    else if r = half ∧ q % 2 = 0 then q * 2 ^ shift
    else (q + 1) * 2 ^ shift

/-- The benchmark stored by `publish<T>` after a shout that took `proc_time`: the measured
time itself on a zero benchmark, else
`static_cast<unsigned __int64>(0.5 * (benchmark + proc_time))`, where the sum wraps, becomes a
double, is halved exactly and is truncated. -/
def new_benchmark (benchmark proc_time : Nat) : Nat :=
  if benchmark = 0 then proc_time else to_double (add64 benchmark proc_time) / 2

/-- The test of the `if` in `publish<T>`:
`tick - last >= std::max<unsigned __int64>(10 * benchmark, observe_delay())`. -/
def publish_due (tick observe_delay : Nat) (q : Query) : Bool :=
  decide (max (mul64 10 q.benchmark) observe_delay ≤ sub64 tick q.last)

/-- What the body of the `if` in `publish<T>` stores in the entry. -/
def publish_store (tick after : Nat) (q : Query) : Query :=
  { q with benchmark := new_benchmark q.benchmark (sub64 after tick), last := tick }

/-- The entry after the loop of `publish<T>` has passed it. -/
def publish_entry (tick after : Nat → Nat) (observe_delay : Nat) (e : Nat × Query) :
    Nat × Query :=
  if publish_due (tick e.1) observe_delay e.2 then
    (e.1, publish_store (tick e.1) (after e.1) e.2)
  else e

/-- Models `Update::pack(recipient, query)`: the stream to send and the node afterwards. -/
def Update_pack {H : Type} (env : Env) (recipient query : String) (n : Node H) :
    Payload × Node H :=
  let result := parse_query env query
  if recipient ∈ n._own_groups then
    (env.put result [],
      (Update_callback env (env.put result (env.put recipient (env.put n._node_name []))) n).2)
  else (env.put result [], n)

/-- Models `Node::shout<Update>(group, query)`. -/
def shout_Update {H : Type} (env : Env) (group query : String) (n : Node H) : Node H :=
  publish group "Update" (Update_pack env group query n).1 (Update_pack env group query n).2

/-- The loop of `Node::publish<Update>()` over the entries of `_observer_map` in key order:
the entries as the loop leaves them, the keys it shouted for, and the node afterwards. The
shout does not touch `_observer_map`. -/
def publish_loop {H : Type} (env : Env) (tick after : Nat → Nat) :
    List (Nat × Query) → Node H → List (Nat × Query) × List Nat × Node H
  | [], n => ([], [], n)
  | (key, q) :: rest, n =>
    if publish_due (tick key) n._observe_delay q then
      let n1 := shout_Update env (observer_group n key) q.query n
      let r := publish_loop env tick after rest n1
      ((key, publish_store (tick key) (after key) q) :: r.1, key :: r.2.1, r.2.2)
    else
      let r := publish_loop env tick after rest n
      ((key, q) :: r.1, r.2.1, r.2.2)

/-- Models `Node::publish<Update>()`: the node afterwards, and the keys of the entries that
were shouted for. -/
def publish_Update {H : Type} (env : Env) (tick after : Nat → Nat) (n : Node H) :
    Node H × List Nat :=
  let r := publish_loop env tick after n._observer_map n
  ({ r.2.2 with _observer_map := r.1 }, r.2.1)

/-- The `SHOUT` messages among the effects. -/
def shouts (es : List Effect) : List Effect :=
  es.filter (fun e => match e with
    | Effect.SHOUT _ _ _ => true
    | _ => false)

/-- The state of one entry after a run of publish passes, each given by the two clock
readings the entry sees in it. -/
def publish_entry_run (observe_delay : Nat) : List (Nat × Nat) → Query → Query
  | [], q => q
  | (tick, after) :: passes, q =>
    publish_entry_run observe_delay passes
      (publish_entry (fun _ => tick) (fun _ => after) observe_delay (0, q)).2

/-! ## The actor

One turn of the loop of `Node::node_actor` handles either a message from the pipe or a zyre
event. A `zmsg_t` is the list of its frames, first frame first; strings are taken without NUL
characters, so a string frame holds the character codes of the string. -/

/-- A `zmsg_t`. -/
abbrev Zmsg := List Payload

/-- The frame `zmsg_pushstr` and `zmsg_addstr` make of a string. -/
def zstr (s : String) : Payload := s.toList.map Char.toNat

/-- The string `zmsg_popstr` makes of a frame. -/
def popstr (frame : Payload) : String := String.mk (frame.map Char.ofNat)

/-- A `zyre_event_t` as the actor reads it: a null type, peer name, uuid or group is the empty
string, a null message is `none`. -/
structure ZyreEvent where
  event_type : String
  peer_name : String
  peer_uuid : String
  group : String
  msg : Option Zmsg

/-- Models `Node::peer_address(name)`. -/
def peer_address {H : Type} (name : String) (n : Node H) : String :=
  match StdMap.find name n._connected_peers with
  | some uuid => uuid
  | none => ""

/-- Models `Node::get_peer_groups(peer)`. -/
def get_peer_groups {H : Type} (peer : String) (n : Node H) : List String :=
  n._peer_groups.foldl
    (fun groups group => if peer ∈ group.2 then StdSet.insert group.1 groups else groups) []

/-- The loop `for (auto group : node->_peer_groups) group.second.erase(name);` of the `EXIT`
branch. The loop variable `group` is declared `auto`, not `auto&`: it is a copy of the map
entry, the erase acts on the copy, and the copy is dropped at the end of each turn. -/
def erase_from_copies (name : String) (peer_groups : List (String × List String)) :
    List (String × List String) :=
  peer_groups.foldl
    (fun groups group =>
      let _group : String × List String := (group.1, StdSet.erase name group.2)
      groups)
    peer_groups

/-- The loops over `_join_callbacks` and `_leave_callbacks`: a callback that returns true is
erased. -/
def run_callbacks (name group : String) (callbacks : List (String → String → Bool)) :
    List (String → String → Bool) :=
  callbacks.filter (fun callback => ! callback name group)

/-- The branch of `node_actor` for a zyre event: the message it sends to the pipe of the
actor, if any, and the node afterwards. -/
def node_actor_event {H : Type} (ev : ZyreEvent) (n : Node H) : Option Zmsg × Node H :=
  let name := init_string ev.peer_name
  if ev.event_type.isEmpty then (none, n)
  else if name.isEmpty then (none, n)
  else if ev.event_type = "ENTER" then
    let uuid := init_string ev.peer_uuid
    if uuid.isEmpty then (none, n)
    else (none, { n with _connected_peers := StdMap.assign name uuid n._connected_peers })
  else if ev.event_type = "EXIT" then
    (none, { n with _connected_peers := StdMap.erase name n._connected_peers,
                    _peer_groups := erase_from_copies name n._peer_groups })
  else if ev.event_type = "JOIN" then
    let group := init_string ev.group
    if group.isEmpty then (none, n)
    else
      let peers := (StdMap.find group n._peer_groups).getD []
      (none, { n with _join_callbacks := run_callbacks name group n._join_callbacks,
                      _peer_groups :=
                        StdMap.assign group (StdSet.insert name peers) n._peer_groups })
  else if ev.event_type = "LEAVE" then
    let group := init_string ev.group
    if group.isEmpty then (none, n)
    else
      let n1 := { n with _leave_callbacks := run_callbacks name group n._leave_callbacks }
      match StdMap.find group n1._peer_groups with
      | some peers =>
        if (StdSet.erase name peers).isEmpty then
          (none, { n1 with _peer_groups := StdMap.erase group n1._peer_groups })
        else
          (none, { n1 with _peer_groups :=
                            StdMap.assign group (StdSet.erase name peers) n1._peer_groups })
      | none => (none, n1)
  else if ev.event_type = "WHISPER" then
    match ev.msg with
    | none => (none, n)
    | some message => (some (message ++ [zstr name]), n)
  else if ev.event_type = "SHOUT" then
    let group := init_string ev.group
    if group.isEmpty then (none, n)
    else
      match ev.msg with
      | none => (none, n)
      | some message => (some (message ++ [zstr name, zstr group]), n)
  else (none, n)

/-- The code of `node_actor` after its loop: `_own_groups` is cleared and zyre is stopped (the
leaves of the groups that zyre itself lists are not recorded). -/
def node_actor_stop {H : Type} (n : Node H) : Node H :=
  { n with _own_groups := [], effects := n.effects ++ [Effect.zyre_stop] }

/-- The last branch of the command chain of `node_actor`, for a command that is none of the
words of the actor: the body frame, the name and the group are popped, and the command is
queued with the stream that holds name, group and then the bytes of the body. A frame that is
missing gives the empty string or no bytes. -/
def node_actor_forward {H : Type} (env : Env) (command : String) (msg : Zmsg) (n : Node H) :
    Node H :=
  let body := msg.head?.getD []
  let name := ((msg.drop 1).head?.map popstr).getD ""
  let group := ((msg.drop 2).head?.map popstr).getD ""
  queue_command command (env.put group (env.put name []) ++ body) n

/-- The branch of `node_actor` for a message from the pipe. A message without frames has no
command to compare and is taken to change nothing. -/
def node_actor_command {H : Type} (env : Env) (message : Zmsg) (n : Node H) : Node H :=
  match message with
  | [] => n
  | frame :: msg =>
    let command := popstr frame
    if command = "$TERM" then node_actor_stop n
    else if command = "JOIN" then
      match msg with
      | [] => n
      | group :: _ =>
        { n with _own_groups := StdSet.insert (popstr group) n._own_groups,
                 effects := n.effects ++ [Effect.zyre_join (popstr group)] }
    else if command = "LEAVE" then
      match msg with
      | [] => n
      | group :: _ =>
        { n with _own_groups := StdSet.erase (popstr group) n._own_groups,
                 effects := n.effects ++ [Effect.zyre_leave (popstr group)] }
    else if command = "SHOUT" then
      match msg with
      | [] => n
      | group :: rest =>
        { n with effects := n.effects ++ [Effect.zyre_shout (popstr group) rest] }
    else if command = "WHISPER" then
      match msg with
      | [] => n
      | name :: rest =>
        if (env.peer_uuid (popstr name)).isEmpty then n
        else { n with effects :=
                        n.effects ++ [Effect.zyre_whisper (env.peer_uuid (popstr name)) rest] }
    else if command = "PEER" ∨ command = "PEERS" ∨ command = "PEER_GROUPS"
        ∨ command = "OWN_GROUPS" ∨ command = "PEERS_BY_GROUP" ∨ command = "PEER_ADDRESS"
        ∨ command = "PING" then
      { n with effects := n.effects ++ [Effect.reply command] }
    else if command = "KEEPALIVE" then
      match msg with
      | [] => n
      | szKeepalive :: _ =>
        if env.IsNumber (popstr szKeepalive) then
          { n with effects :=
                     n.effects ++ [Effect.zyre_set_expired_timeout (popstr szKeepalive)] }
        else n
    else node_actor_forward env command msg n

/-- What one turn of the loop of `node_actor` takes in: a message from the pipe, or a zyre
event. -/
inductive Turn
  | pipe (message : Zmsg)
  | event (ev : ZyreEvent)

/-- One turn of the loop of `node_actor`. A message that the branch of an event sends to the
pipe waits there; it is the `pipe` message of a later turn. -/
def node_actor_turn {H : Type} (env : Env) (turn : Turn) (n : Node H) : Node H :=
  match turn with
  | Turn.pipe message => node_actor_command env message n
  | Turn.event ev => (node_actor_event ev n).2

/-- The node after the turns of the loop of `node_actor`, in list order. -/
def node_actor_turns {H : Type} (env : Env) : List Turn → Node H → Node H
  | [], n => n
  | turn :: turns, n => node_actor_turns env turns (node_actor_turn env turn n)

/-- The callbacks that the branch of `node_actor` for a zyre event calls, in call order: each
join callback once on a `JOIN`, each leave callback once on a `LEAVE`, when the event has a
type, a peer name and a group; no other branch calls a callback. -/
def node_actor_event_calls {H : Type} (ev : ZyreEvent) (n : Node H) :
    List (String → String → Bool) :=
  let name := init_string ev.peer_name
  if ev.event_type.isEmpty then []
  else if name.isEmpty then []
  else if ev.event_type = "JOIN" then
    if (init_string ev.group).isEmpty then [] else n._join_callbacks
  else if ev.event_type = "LEAVE" then
    if (init_string ev.group).isEmpty then [] else n._leave_callbacks
  else []

/-- The laws of the Archive library that the streams of this program rely on: inserting a
string appends its encoding to the stream, and extracting reads back the string that was
encoded first and leaves the rest. -/
def Env.Codec (env : Env) : Prop :=
  (∀ (s : String) (p : Payload), env.put s p = p ++ env.put s [])
  ∧ (∀ (s : String) (rest : Payload), env.get (env.put s [] ++ rest) = some (s, rest))

/-! ## Arrays of names -/

/-- Models `CreateArray(members)`; `front_delimiter` is the answer of
`Node::get().front_delimiter()`. -/
def CreateArray (front_delimiter : Bool) (members : List String) : String :=
  if !members.isEmpty then
    let delimiter := "|"
    let accum :=
      members.foldl (fun s p => s ++ (if s.isEmpty then "" else delimiter) ++ p) ""
    if front_delimiter then delimiter ++ accum else accum ++ delimiter
  else ""

/-- Models `std::getline(token_stream, token, delim)` on the characters left in the stream: the
token and the characters left afterwards. At the end of the stream nothing is extracted and the
call fails; else the token is what stands before the first delimiter, or all that is left, and
the delimiter is consumed with it. -/
def getline (delim : Char) (stream : List Char) : Option (List Char × List Char) :=
  match stream with
  | [] => none
  | _ :: _ =>
    some (stream.takeWhile (fun c => decide (c ≠ delim)),
      (stream.dropWhile (fun c => decide (c ≠ delim))).drop 1)

/-- The loop `while (std::getline(token_stream, token, '|')) tokens.emplace(token);` of
`ParseArray`, for at most `turns` turns. A turn that goes on consumes at least one character
of the stream. -/
def ParseArray_loop : Nat → List Char → List String → List String
  | 0, _, tokens => tokens
  | turns + 1, stream, tokens =>
    match getline '|' stream with
    | none => tokens
    | some (token, rest) =>
      ParseArray_loop turns rest (StdSet.insert (String.mk token) tokens)

/-- Models `ParseArray(arr)`. The loop ends within `arr.length + 1` turns. -/
def ParseArray (arr : String) : List String :=
  StdSet.erase "" (ParseArray_loop (arr.length + 1) arr.toList [])

/-! ## The data type `DanNet` -/

/-- Models `Node::get_own_groups()`. -/
def get_own_groups {H : Type} (n : Node H) : List String := n._own_groups

/-- Models `Node::get_all_groups()`. -/
def get_all_groups {H : Type} (n : Node H) : List String :=
  n._own_groups.foldl (fun groups group => StdSet.insert group groups)
    (n._peer_groups.foldl (fun groups key_val => StdSet.insert key_val.1 groups) [])

/-- The data members of `class MQ2DanNetType` that `GetMember` keeps between calls. -/
structure MQ2DanNetType where
  _peer : String
  _peers : List String
  _groups : List String
  _joined : List String
deriving DecidableEq, Repr

/-- The two members of `enum Members` that count groups. -/
inductive Members
  | GroupCount
  | JoinedCount
deriving DecidableEq, Repr

/-- Models `MQ2DanNetType::GetMember` for the cases `GroupCount` and `JoinedCount` of its
`switch`: the `Dest.DWord` it stores when it returns true, which it does in both cases with
`Dest.Type = pIntType`, and the object afterwards. `size()` is cut to the 32 bits of a
`DWORD`. -/
def GetMember {H : Type} (member : Members) (n : Node H) (t : MQ2DanNetType) :
    Option Nat × MQ2DanNetType :=
  let t1 := { t with _peer := "" }
  match member with
  | Members.GroupCount =>
    let t2 := { t1 with _groups := get_all_groups n }
    (some (t2._groups.length % 2 ^ 32), t2)
  | Members.JoinedCount =>
    let t2 := { t1 with _joined := get_own_groups n }
    (some (t2._groups.length % 2 ^ 32), t2)

/-! ## Auxiliary definitions for the statements -/

/-- The set `s` is not empty, `crbegin()` reads `m`, and `m` is its greatest element. -/
def LastMax (s : List Nat) (m : Nat) : Prop :=
  s.getLast? = some m ∧ ∀ x ∈ s, x ≤ m

/-- The node after `queue_command` was called for each entry of `cs`, in list order. -/
def queue_commands {H : Type} (cs : List (String × Payload)) (n : Node H) : Node H :=
  cs.foldl (fun m c => queue_command c.1 c.2 m) n

/-- The extraction a closure makes from its stream throws: three strings for `Echo`, `Execute`,
`Update` and the lambda of `Query::pack`, four for `Query`, `Observe` and the lambda of
`Observe::pack`. -/
def deserialize_fails (env : Env) (cb : Callback) (args : Payload) : Prop :=
  match cb with
  | Callback.Echo => extract3 env args = none
  | Callback.Execute => extract3 env args = none
  | Callback.Update => extract3 env args = none
  | Callback.Query_response => extract3 env args = none
  | Callback.Query => extract4 env args = none
  | Callback.Observe => extract4 env args = none
  | Callback.Observe_response _ _ => extract4 env args = none

/-- The closure is one of the two response lambdas (`Query::pack`, `Observe::pack`). -/
def is_response : Callback → Bool
  | Callback.Query_response => true
  | Callback.Observe_response _ _ => true
  | _ => false

/-- The laws `std::map` asks of its `Compare`: a strict total order of the keys. -/
def Compare.Lawful (κ : Type) [Compare κ] : Prop :=
  (∀ a : κ, Compare.lt a a = false)
  ∧ (∀ a b c : κ, Compare.lt a b = true → Compare.lt b c = true → Compare.lt a c = true)
  ∧ (∀ a b : κ, a ≠ b → Compare.lt a b = false → Compare.lt b a = true)

/-- The list is a `std::map`: its keys ascend strictly. -/
def StdMap.Sorted {κ α : Type} [Compare κ] (m : List (κ × α)) : Prop :=
  (m.map Prod.fst).Pairwise (fun a b => Compare.lt a b = true)

/-- The key that `_observer_map.crbegin()->first` reads in `register_observer`. -/
def crbegin_key (env : Env) (m : List (Nat × Query)) : Nat :=
  (m.getLast?.map Prod.fst).getD env.rbegin_observer_map

/-- The group names that successive calls `register_observer(name, query)` return, one call
for each pair of `calls` in list order, and the node afterwards. -/
def register_observers {H : Type} (env : Env) :
    List (String × String) → Node H → List String × Node H
  | [], n => ([], n)
  | call :: calls, n =>
    let r := register_observer env call.1 call.2 n
    let rs := register_observers env calls r.2
    (r.1 :: rs.1, rs.2)

/-- A call of `register_observer(name, query)` or of `unregister_observer(query)`. -/
inductive ObserverCall
  | register (name query : String)
  | unregister (query : String)

/-- The node after the calls, in list order. -/
def observer_calls {H : Type} (env : Env) : List ObserverCall → Node H → Node H
  | [], n => n
  | ObserverCall.register name query :: calls, n =>
    observer_calls env calls (register_observer env name query n).2
  | ObserverCall.unregister query :: calls, n =>
    observer_calls env calls (unregister_observer query n)

/-- The list is a `std::set`: its elements ascend strictly. -/
def StdSet.Sorted {κ : Type} [Compare κ] (s : List κ) : Prop :=
  s.Pairwise (fun a b => Compare.lt a b = true)

/-- Every call of the run is defined: each `register_observer` finds the observer map
non-empty, so none reads `crbegin()` of an empty map. -/
def observer_calls_defined {H : Type} (env : Env) : List ObserverCall → Node H → Bool
  | [], _ => true
  | ObserverCall.register name query :: calls, n =>
    !n._observer_map.isEmpty
      && observer_calls_defined env calls (register_observer env name query n).2
  | ObserverCall.unregister query :: calls, n =>
    observer_calls_defined env calls (unregister_observer query n)

/-- No two entries of the observer map hold the same query string. -/
def DistinctQueries (m : List (Nat × Query)) : Prop :=
  (m.map (fun e => e.2.query)).Nodup

/-! # Theorems -/

/-! ## Container lemmas -/

theorem StdMap.find_assign_self {κ α : Type} [Compare κ] [DecidableEq κ] (k : κ) (v : α) (m : List (κ × α)) :
    StdMap.find k (StdMap.assign k v m) = some v := by
  induction m with
  | nil => simp [StdMap.assign, StdMap.find]
  | cons e m ih =>
    obtain ⟨a, b⟩ := e
    by_cases h1 : a = k
    · simp [StdMap.assign, StdMap.find, h1]
    · by_cases h2 : Compare.lt k a = true
      · simp [StdMap.assign, StdMap.find, h1, h2]
      · simp [StdMap.assign, StdMap.find, h1, h2, ih]

theorem StdMap.find_assign_ne {κ α : Type} [Compare κ] [DecidableEq κ] (k j : κ) (v : α) (m : List (κ × α)) (hj : j ≠ k) :
    StdMap.find j (StdMap.assign k v m) = StdMap.find j m := by
  have hkj : ¬ k = j := fun h => hj h.symm
  induction m with
  | nil => simp [StdMap.assign, StdMap.find, hkj]
  | cons e m ih =>
    obtain ⟨a, b⟩ := e
    by_cases h1 : a = k
    · simp [StdMap.assign, StdMap.find, h1, hkj]
    · by_cases h2 : Compare.lt k a = true
      · simp [StdMap.assign, StdMap.find, h1, h2, hkj]
      · by_cases h4 : a = j
        · subst h4
          simp [StdMap.assign, StdMap.find, h1, h2]
        · simp [StdMap.assign, StdMap.find, h1, h2, h4, ih]

theorem StdMap.find_erase_self {κ α : Type} [DecidableEq κ] (k : κ) (m : List (κ × α)) :
    StdMap.find k (StdMap.erase k m) = none := by
  induction m with
  | nil => simp [StdMap.erase, StdMap.find]
  | cons e m ih =>
    obtain ⟨a, b⟩ := e
    by_cases h1 : a = k
    · simp [StdMap.erase, h1, ih]
    · simp [StdMap.erase, StdMap.find, h1, ih]

theorem StdMap.find_erase_ne {κ α : Type} [DecidableEq κ] (k j : κ) (m : List (κ × α))
    (hj : j ≠ k) : StdMap.find j (StdMap.erase k m) = StdMap.find j m := by
  induction m with
  | nil => simp [StdMap.erase, StdMap.find]
  | cons e m ih =>
    obtain ⟨a, b⟩ := e
    by_cases h1 : a = k
    · have h3 : ¬ k = j := fun h => hj h.symm
      simp [StdMap.erase, StdMap.find, h1, h3, ih]
    · by_cases h4 : a = j
      · subst h4
        simp [StdMap.erase, StdMap.find, h1]
      · simp [StdMap.erase, StdMap.find, h1, h4, ih]

/-! ## Observers: registering twice -/

theorem find_observer_assign (query : String) (position : Nat) (m : List (Nat × Query))
    (hm : find_observer query m = none) :
    find_observer query (StdMap.assign position ⟨query, 0, 0⟩ m) = some position := by
  induction m with
  | nil => simp [StdMap.assign, find_observer]
  | cons e m ih =>
    obtain ⟨a, q⟩ := e
    by_cases hq : q.query = query
    · simp [find_observer, hq] at hm
    · have hm1 : find_observer query m = none := by simpa [find_observer, hq] using hm
      by_cases h1 : a = position
      · simp [StdMap.assign, find_observer, h1]
      · by_cases h2 : Compare.lt position a = true
        · simp [StdMap.assign, find_observer, h1, h2]
        · simp [StdMap.assign, find_observer, h1, h2, hq, ih hm1]

/-- C1. On a node whose observer map is not empty, `register_observer(S, Q)` called twice in a
row returns the same group name both times, and the second call leaves the observer map (and
the rest of the node) as the first call left it. -/
theorem register_observer_twice {H : Type} (env : Env) (S Q : String) (n : Node H)
    (_hne : n._observer_map ≠ []) :
    (register_observer env S Q (register_observer env S Q n).2).1
        = (register_observer env S Q n).1
      ∧ (register_observer env S Q (register_observer env S Q n).2).2._observer_map
        = (register_observer env S Q n).2._observer_map
      ∧ (register_observer env S Q (register_observer env S Q n).2).2
        = (register_observer env S Q n).2 := by
  cases hf : find_observer Q n._observer_map with
  | some key => simp [register_observer, hf]
  | none =>
    have h2 := find_observer_assign Q
      (((n._observer_map.getLast?.map Prod.fst).getD env.rbegin_observer_map + 1) % 2 ^ 32)
      n._observer_map hf
    simp only [register_observer, hf, h2, observer_group, and_self]

theorem register_observer_twice_witness :
    ((register_observer Env.sample "bob" "Me.Name"
        (register_observer Env.sample "bob" "Me.Name"
          { Node.fresh Callback with _observer_map := [(4, ⟨"Me.Level", 0, 0⟩)] }).2).1
      = (register_observer Env.sample "bob" "Me.Name"
          { Node.fresh Callback with _observer_map := [(4, ⟨"Me.Level", 0, 0⟩)] }).1
    ∧ (register_observer Env.sample "bob" "Me.Name"
        (register_observer Env.sample "bob" "Me.Name"
          { Node.fresh Callback with _observer_map := [(4, ⟨"Me.Level", 0, 0⟩)] }).2).2._observer_map
      = (register_observer Env.sample "bob" "Me.Name"
          { Node.fresh Callback with _observer_map := [(4, ⟨"Me.Level", 0, 0⟩)] }).2._observer_map)
    ∧ (register_observer Env.sample "bob" "Me.Name"
          { Node.fresh Callback with _observer_map := [(4, ⟨"Me.Level", 0, 0⟩)] }).1 = "_5" :=
  ⟨⟨(register_observer_twice Env.sample "bob" "Me.Name"
      { Node.fresh Callback with _observer_map := [(4, ⟨"Me.Level", 0, 0⟩)] } (by decide)).1,
    (register_observer_twice Env.sample "bob" "Me.Name"
      { Node.fresh Callback with _observer_map := [(4, ⟨"Me.Level", 0, 0⟩)] } (by decide)).2.1⟩,
    by decide⟩

/-! ## Response keys -/

theorem compare_nat (a b : Nat) : Compare.lt a b = true ↔ a < b := by
  simp [Compare.lt]

theorem StdSet.insert_of_lt {k a : Nat} (s : List Nat) (h : k < a) :
    StdSet.insert k (a :: s) = k :: a :: s := by
  have h1 : ¬ a = k := by omega
  simp [StdSet.insert, h1, (compare_nat k a).2 h]

theorem StdSet.insert_of_gt {k a : Nat} (s : List Nat) (h : a < k) :
    StdSet.insert k (a :: s) = a :: StdSet.insert k s := by
  have h1 : ¬ a = k := by omega
  have h2 : ¬ Compare.lt k a = true := fun c => by
    have := (compare_nat k a).1 c
    omega
  simp [StdSet.insert, h1, h2]

theorem StdSet.insert_ne_nil (k : Nat) (s : List Nat) : StdSet.insert k s ≠ [] := by
  cases s with
  | nil => simp [StdSet.insert]
  | cons a s =>
    unfold StdSet.insert
    split
    · simp
    · split <;> simp

theorem LastMax.insert_le {s : List Nat} {m k : Nat} (h : LastMax s m) (hk : k ≤ m) :
    LastMax (StdSet.insert k s) m := by
  induction s with
  | nil => simp [LastMax] at h
  | cons a s ih =>
    obtain ⟨hl, hb⟩ := h
    rcases Nat.lt_trichotomy k a with h2 | h2 | h2
    · rw [StdSet.insert_of_lt s h2]
      refine ⟨by simpa [List.getLast?_cons_cons] using hl, ?_⟩
      intro x hx
      rw [List.mem_cons] at hx
      rcases hx with hx | hx
      · omega
      · exact hb x hx
    · have hins : StdSet.insert k (a :: s) = a :: s := by simp [StdSet.insert, h2]
      rw [hins]
      exact ⟨hl, hb⟩
    · rw [StdSet.insert_of_gt s h2]
      cases s with
      | nil =>
        have ha : a = m := by simpa using hl
        omega
      | cons b t =>
        have hl1 : (b :: t).getLast? = some m := by
          simpa [List.getLast?_cons_cons] using hl
        have hb1 : ∀ x ∈ b :: t, x ≤ m := fun x hx => hb x (List.mem_cons_of_mem a hx)
        have ih1 := ih ⟨hl1, hb1⟩
        obtain ⟨c, u, hcu⟩ := List.exists_cons_of_ne_nil (StdSet.insert_ne_nil k (b :: t))
        refine ⟨?_, ?_⟩
        · rw [hcu, List.getLast?_cons_cons, ← hcu]
          exact ih1.1
        · intro x hx
          rw [List.mem_cons] at hx
          rcases hx with hx | hx
          · exact hb x (by simp [hx])
          · exact ih1.2 x hx

theorem LastMax.insert_gt {s : List Nat} {k : Nat} (h : ∀ x ∈ s, x < k) :
    LastMax (StdSet.insert k s) k := by
  induction s with
  | nil => simp [StdSet.insert, LastMax]
  | cons a s ih =>
    have ha : a < k := h a (by simp)
    have ih1 := ih (fun x hx => h x (List.mem_cons_of_mem a hx))
    obtain ⟨c, u, hcu⟩ := List.exists_cons_of_ne_nil (StdSet.insert_ne_nil k s)
    rw [StdSet.insert_of_gt s ha]
    refine ⟨?_, ?_⟩
    · rw [hcu, List.getLast?_cons_cons, ← hcu]
      exact ih1.1
    · intro x hx
      rw [List.mem_cons] at hx
      rcases hx with hx | hx
      · omega
      · exact ih1.2 x hx

theorem register_response_keys {H : Type} (env : Env) (h : H) (n : Node H) :
    (register_response env h n).2._response_keys
      = StdSet.insert (next_val env n) n._response_keys := rfl

theorem register_response_key {H : Type} (env : Env) (h : H) (n : Node H) :
    (register_response env h n).1 = "response_" ++ toString (next_val env n) := rfl

theorem next_val_of_lastMax {H : Type} (env : Env) (n : Node H) (m : Nat)
    (hm : LastMax n._response_keys m) : next_val env n = (m + 1) % 256 := by
  simp [next_val, hm.1]

/-- One call moves the greatest key from `m` to `m + 1`, and keeps it once it is 255. -/
theorem register_response_lastMax {H : Type} (env : Env) (h : H) (n : Node H) (m : Nat)
    (hm : LastMax n._response_keys m) (hle : m ≤ 255) :
    LastMax (register_response env h n).2._response_keys (min (m + 1) 255) := by
  rw [register_response_keys, next_val_of_lastMax env n m hm]
  by_cases h255 : m = 255
  · subst h255
    exact hm.insert_le (by omega)
  · have e1 : (m + 1) % 256 = m + 1 := Nat.mod_eq_of_lt (by omega)
    have e2 : min (m + 1) 255 = m + 1 := by omega
    rw [e1, e2]
    exact LastMax.insert_gt (fun x hx => Nat.lt_succ_of_le (hm.2 x hx))

theorem register_responses_lastMax {H : Type} (env : Env) (h : H) (k : Nat) :
    ∀ (n : Node H) (m : Nat), LastMax n._response_keys m → m ≤ 255 →
      LastMax (register_responses env h k n)._response_keys (min (m + k) 255) := by
  induction k with
  | zero =>
    intro n m hm hle
    have e : min (m + 0) 255 = m := by omega
    rw [e]
    exact hm
  | succ k ih =>
    intro n m hm hle
    have h1 := register_response_lastMax env h n m hm hle
    have h2 := ih (register_response env h n).2 (min (m + 1) 255) h1 (by omega)
    have e : min (min (m + 1) 255 + k) 255 = min (m + (k + 1)) 255 := by omega
    rw [e] at h2
    exact h2

/-- On a freshly constructed node the first call leaves one key, the successor of whatever the
read of the empty set gave. -/
theorem register_response_fresh_lastMax {H : Type} (env : Env) (h : H) :
    LastMax (register_response env h (Node.fresh H)).2._response_keys
      ((env.rbegin_response_keys + 1) % 256) := by
  simp [register_response_keys, next_val, Node.fresh, StdSet.insert, LastMax]

/-- From a freshly constructed node, the call number `k + 2` returns `response_0` as soon as
the greatest key has reached 255. -/
theorem register_response_fresh_saturated {H : Type} (env : Env) (h : H) (k : Nat)
    (hk : 255 ≤ (env.rbegin_response_keys + 1) % 256 + k) :
    (register_response env h (register_responses env h (k + 1) (Node.fresh H))).1
      = "response_0" := by
  have h1 := register_responses_lastMax env h k _ _
    (register_response_fresh_lastMax env h) (by omega)
  have e : min ((env.rbegin_response_keys + 1) % 256 + k) 255 = 255 := by omega
  rw [e] at h1
  have h2 : register_responses env h (k + 1) (Node.fresh H)
      = register_responses env h k (register_response env h (Node.fresh H)).2 := rfl
  rw [register_response_key, h2, next_val_of_lastMax env _ 255 h1]
  rfl

/-- C2 (the code against the claim). On a freshly constructed node the first call of
`register_response` reads the greatest key of an empty set. Unless the first key, the successor
of what that read gave, is 0 or 1, the calls number 255 and 256 both return `response_0`: the
first 256 keys are not pairwise distinct. -/
theorem register_response_fresh_repeats {H : Type} (env : Env) (h : H)
    (hfirst : 2 ≤ (env.rbegin_response_keys + 1) % 256) :
    (register_response env h (register_responses env h 254 (Node.fresh H))).1 = "response_0"
    ∧ (register_response env h (register_responses env h 255 (Node.fresh H))).1
      = "response_0" :=
  ⟨register_response_fresh_saturated env h 253 (by omega),
    register_response_fresh_saturated env h 254 (by omega)⟩

theorem register_response_fresh_repeats_witness :
    (register_response Env.sample Callback.Query_response (Node.fresh Callback)).1
      = "response_8"
    ∧ (register_response Env.sample Callback.Query_response
        (register_responses Env.sample Callback.Query_response 254 (Node.fresh Callback))).1
      = "response_0"
    ∧ (register_response Env.sample Callback.Query_response
        (register_responses Env.sample Callback.Query_response 255 (Node.fresh Callback))).1
      = "response_0" :=
  ⟨by decide,
    register_response_fresh_repeats Env.sample Callback.Query_response (by decide)⟩

/-- C3 (the code against the claim). Whatever the read of the empty set gives on the first
call and whatever handler is registered, the calls number 257 and 258 made on a freshly
constructed node return the same key, `response_0`: once 255 has been handed out the greatest
element of `_response_keys` stays 255 and every later call returns 0 again. -/
theorem register_response_stuck_at_zero {H : Type} (env : Env) (h : H) :
    (register_response env h (register_responses env h 256 (Node.fresh H))).1 = "response_0"
    ∧ (register_response env h (register_responses env h 257 (Node.fresh H))).1
      = "response_0" :=
  ⟨register_response_fresh_saturated env h 255 (by omega),
    register_response_fresh_saturated env h 256 (by omega)⟩

/-- On a non-empty key set the next key does not depend on what a read of the empty set would
give. -/
theorem next_val_of_nonempty {H : Type} (env env2 : Env) (n : Node H)
    (hne : n._response_keys ≠ []) : next_val env2 n = next_val env n := by
  unfold next_val
  cases hl : n._response_keys.getLast? with
  | none => exact absurd (List.getLast?_eq_none_iff.mp hl) hne
  | some x => rfl

theorem register_response_of_nonempty {H : Type} (env env2 : Env) (h : H) (n : Node H)
    (hne : n._response_keys ≠ []) : register_response env2 h n = register_response env h n := by
  unfold register_response
  rw [next_val_of_nonempty env env2 n hne]

/-- C4. For every handler `h` and every node whose `_response_keys` is not empty, so that
the read of `crbegin()` is defined, `register_response(h)` returns `response_` followed by the
decimal form of a byte value; right after the call the command registry maps that name to
`h`, and every other name is mapped as before. Nothing in the result depends on what a read
of an empty key set would give. -/
theorem register_response_registers {H : Type} (env : Env) (h : H) (n : Node H)
    (hne : n._response_keys ≠ []) :
    (∃ b : Nat, b < 256 ∧ (register_response env h n).1 = "response_" ++ toString b)
    ∧ StdMap.find (register_response env h n).1 (register_response env h n).2._command_map
        = some h
    ∧ (∀ name : String, name ≠ (register_response env h n).1 →
        StdMap.find name (register_response env h n).2._command_map
          = StdMap.find name n._command_map)
    ∧ ∀ env2 : Env, register_response env2 h n = register_response env h n := by
  refine ⟨⟨next_val env n, Nat.mod_lt _ (by decide), rfl⟩, ?_, ?_, ?_⟩
  · exact StdMap.find_assign_self _ _ _
  · intro name hname
    exact StdMap.find_assign_ne _ _ _ _ hname
  · intro env2
    exact register_response_of_nonempty env env2 h n hne

theorem register_response_registers_witness :
    ({ Node.sample with _response_keys := [7] } : Node Callback)._response_keys ≠ []
    ∧ (register_response Env.sample Callback.Query_response
        { Node.sample with _response_keys := [7] }).1 = "response_8"
    ∧ StdMap.find "response_8"
        (register_response Env.sample Callback.Query_response
          { Node.sample with _response_keys := [7] }).2._command_map
      = some Callback.Query_response
    ∧ StdMap.find "Echo"
        (register_response Env.sample Callback.Query_response
          { Node.sample with _response_keys := [7] }).2._command_map
      = StdMap.find "Echo"
          ({ Node.sample with _response_keys := [7] } : Node Callback)._command_map :=
  ⟨by decide, by decide,
    (register_response_registers Env.sample Callback.Query_response
      { Node.sample with _response_keys := [7] } (by decide)).2.1,
    (register_response_registers Env.sample Callback.Query_response
      { Node.sample with _response_keys := [7] } (by decide)).2.2.1 "Echo" (by decide)⟩

/-! ## Observation cache -/

/-- C5. For every group `g`: when the observation cache has no entry for `g`, `read(g)` is the
default observation, whose `received` is 0 and whose `data` is `"NULL"`; and after
`update(g, d, o)` run at clock value `t` (any `t`, so also every `t > 0`), `read(g)` is exactly
`Observation{output = o, data = d, received = t}`, whatever the cache held for `g` before. -/
theorem read_after_update {H : Type} (n : Node H) (g d o : String) (t : Nat) :
    (StdMap.find g n._observed_data = none →
        read g n = Observation.init ∧ (read g n).received = 0 ∧ (read g n).data = "NULL")
    ∧ read g (update t g d o n) = ⟨o, d, t⟩ := by
  constructor
  · intro hg
    simp [read, hg, Observation.init]
  · have h : StdMap.find g (update t g d o n)._observed_data = some ⟨o, d, t⟩ := by
      unfold update
      split <;> exact StdMap.find_assign_self _ _ _
    simp [read, h]

theorem read_after_update_witness :
    (read "bob_1" (Node.fresh Callback) = Observation.init
      ∧ (read "bob_1" (Node.fresh Callback)).received = 0
      ∧ (read "bob_1" (Node.fresh Callback)).data = "NULL")
    ∧ read "bob_1" (update 1000 "bob_1" "65" "level" (Node.fresh Callback))
      = ⟨"level", "65", 1000⟩ :=
  ⟨(read_after_update (Node.fresh Callback) "bob_1" "65" "level" 1000).1 (by decide),
    by decide⟩

/-! ## Dispatch queue -/

theorem do_next_call_nil {H : Type} (invoke : H → Payload → Node H → Bool × Node H)
    (n : Node H) (hq : n._command_queue = []) : do_next_call invoke n = (none, n) := by
  simp [do_next_call, hq]

theorem do_next_call_unregistered {H : Type} (invoke : H → Payload → Node H → Bool × Node H)
    (n : Node H) (name : String) (args : Payload) (rest : List (String × Payload))
    (hq : n._command_queue = (name, args) :: rest)
    (hf : StdMap.find name n._command_map = none) :
    do_next_call invoke n = (none, { n with _command_queue := rest }) := by
  simp [do_next_call, hq, hf]

theorem do_next_call_registered {H : Type} (invoke : H → Payload → Node H → Bool × Node H)
    (n : Node H) (name : String) (args : Payload) (rest : List (String × Payload)) (h : H)
    (hq : n._command_queue = (name, args) :: rest)
    (hf : StdMap.find name n._command_map = some h) :
    do_next_call invoke n
      = (some (h, args),
          if (invoke h args { n with _command_queue := rest }).1 then
            { (invoke h args { n with _command_queue := rest }).2 with
              _command_map := StdMap.erase name
                (invoke h args { n with _command_queue := rest }).2._command_map }
          else (invoke h args { n with _command_queue := rest }).2) := by
  simp [do_next_call, hq, hf]

/-- What `do_next` reports as its handler call: the handler registered for the name of the
front entry, with the stream of that entry. -/
theorem do_next_call_front {H : Type} (invoke : H → Payload → Node H → Bool × Node H)
    (n : Node H) (c : String × Payload) (rest : List (String × Payload))
    (hq : n._command_queue = c :: rest) :
    (do_next_call invoke n).1 = (StdMap.find c.1 n._command_map).map (fun h => (h, c.2)) := by
  cases hf : StdMap.find c.1 n._command_map with
  | none => simp [do_next_call, hq, hf]
  | some h => simp [do_next_call, hq, hf]

/-- With handlers that leave the queue alone, one `do_next` drops the front entry. -/
theorem do_next_queue {H : Type} (invoke : H → Payload → Node H → Bool × Node H)
    (hinv : ∀ h p m, (invoke h p m).2._command_queue = m._command_queue) (n : Node H) :
    (do_next invoke n)._command_queue = n._command_queue.tail := by
  cases hq : n._command_queue with
  | nil => simp [do_next, do_next_call, hq]
  | cons c rest =>
    cases hf : StdMap.find c.1 n._command_map with
    | none => simp [do_next, do_next_call, hq, hf]
    | some h =>
      have h1 := hinv h c.2 { n with _command_queue := rest }
      simp only [do_next, do_next_call, hq, hf, List.tail_cons]
      split
      · simpa using h1
      · simpa using h1

theorem do_nexts_queue {H : Type} (invoke : H → Payload → Node H → Bool × Node H)
    (hinv : ∀ h p m, (invoke h p m).2._command_queue = m._command_queue) (k : Nat) :
    ∀ n : Node H, (do_nexts invoke k n)._command_queue = n._command_queue.drop k := by
  induction k with
  | zero => intro n; simp [do_nexts]
  | succ k ih =>
    intro n
    rw [do_nexts, ih, do_next_queue invoke hinv, List.drop_tail]

theorem queue_commands_queue {H : Type} (cs : List (String × Payload)) :
    ∀ n : Node H, (queue_commands cs n)._command_queue = n._command_queue ++ cs := by
  induction cs with
  | nil => intro n; simp [queue_commands]
  | cons c cs ih =>
    intro n
    have h1 : queue_commands (c :: cs) n = queue_commands cs (queue_command c.1 c.2 n) := rfl
    rw [h1, ih]
    simp [queue_command]

/-- C7. One-shot semantics of `do_next`: when the front entry names a registered command whose
handler leaves the registry as it found it, the name is absent from the registry after
`do_next` exactly when the handler returned true; when the handler returned false the registry
after `do_next` is the registry before it; in both cases every other name is mapped as
before. -/
theorem do_next_one_shot {H : Type} (invoke : H → Payload → Node H → Bool × Node H)
    (n : Node H) (name : String) (args : Payload) (rest : List (String × Payload)) (h : H)
    (hq : n._command_queue = (name, args) :: rest)
    (hf : StdMap.find name n._command_map = some h)
    (hreg : (invoke h args { n with _command_queue := rest }).2._command_map = n._command_map) :
    (StdMap.find name (do_next invoke n)._command_map = none
        ↔ (invoke h args { n with _command_queue := rest }).1 = true)
    ∧ ((invoke h args { n with _command_queue := rest }).1 = false →
        (do_next invoke n)._command_map = n._command_map)
    ∧ ∀ other : String, other ≠ name →
        StdMap.find other (do_next invoke n)._command_map
          = StdMap.find other n._command_map := by
  rw [do_next, do_next_call_registered invoke n name args rest h hq hf]
  cases hr : (invoke h args { n with _command_queue := rest }).1 with
  | true =>
    refine ⟨?_, ?_, ?_⟩
    · simp [StdMap.find_erase_self]
    · intro hc; cases hc
    · intro other hother
      simp [StdMap.find_erase_ne _ _ _ hother, hreg]
  | false =>
    refine ⟨?_, ?_, ?_⟩
    · simp [hreg, hf]
    · intro _; simpa using hreg
    · intro other _; simp [hreg]

/-- C8. When the front entry names a command that is not in the registry, `do_next` calls no
handler and changes nothing but the queue, which loses that entry: the registry, the observer
maps, the observation cache and the query state are as before. -/
theorem do_next_discards_unregistered {H : Type}
    (invoke : H → Payload → Node H → Bool × Node H) (n : Node H) (name : String)
    (args : Payload) (rest : List (String × Payload))
    (hq : n._command_queue = (name, args) :: rest)
    (hf : StdMap.find name n._command_map = none) :
    (do_next_call invoke n).1 = none
    ∧ do_next invoke n = { n with _command_queue := rest }
    ∧ (do_next invoke n)._command_queue = rest
    ∧ (do_next invoke n)._command_map = n._command_map
    ∧ (do_next invoke n)._observer_map = n._observer_map
    ∧ (do_next invoke n)._observed_map = n._observed_map
    ∧ (do_next invoke n)._observed_data = n._observed_data
    ∧ (do_next invoke n)._current_query = n._current_query
    ∧ (do_next invoke n)._query_result = n._query_result := by
  simp [do_next, do_next_call_unregistered invoke n name args rest hq hf]

/-! ## The closures of the program leave the registry and the queue alone -/

theorem join_frame {H : Type} (g : String) (n : Node H) :
    (join g n)._command_map = n._command_map
      ∧ (join g n)._command_queue = n._command_queue := by
  unfold join; split <;> exact ⟨rfl, rfl⟩

theorem leave_frame {H : Type} (g : String) (n : Node H) :
    (leave g n)._command_map = n._command_map
      ∧ (leave g n)._command_queue = n._command_queue := by
  unfold leave; split <;> exact ⟨rfl, rfl⟩

theorem respond_frame {H : Type} (name cmd : String) (args : Payload) (n : Node H) :
    (respond name cmd args n)._command_map = n._command_map
      ∧ (respond name cmd args n)._command_queue = n._command_queue := by
  unfold respond; split <;> exact ⟨rfl, rfl⟩

theorem observe_frame {H : Type} (g name q : String) (n : Node H) :
    (observe g name q n)._command_map = n._command_map
      ∧ (observe g name q n)._command_queue = n._command_queue :=
  join_frame g n

theorem update_frame {H : Type} (t : Nat) (g d o : String) (n : Node H) :
    (update t g d o n)._command_map = n._command_map
      ∧ (update t g d o n)._command_queue = n._command_queue := by
  unfold update; split <;> exact ⟨rfl, rfl⟩

theorem forget_frame {H : Type} (g : String) (n : Node H) :
    (forget g n)._command_map = n._command_map
      ∧ (forget g n)._command_queue = n._command_queue :=
  leave_frame g _

theorem register_observer_frame {H : Type} (env : Env) (name q : String) (n : Node H) :
    (register_observer env name q n).2._command_map = n._command_map
      ∧ (register_observer env name q n).2._command_queue = n._command_queue := by
  unfold register_observer; split <;> exact ⟨rfl, rfl⟩

theorem Update_callback_frame {H : Type} (env : Env) (args : Payload) (n : Node H) :
    (Update_callback env args n).2._command_map = n._command_map
      ∧ (Update_callback env args n).2._command_queue = n._command_queue := by
  cases h : extract3 env args with
  | none => simp [Update_callback, h]
  | some v =>
    obtain ⟨a, g, d⟩ := v
    simp only [Update_callback, h]
    split
    · exact update_frame _ _ _ _ _
    · exact forget_frame _ _

theorem Observe_response_frame {H : Type} (env : Env) (fq out : String) (args : Payload)
    (n : Node H) :
    (Observe_response env fq out args n).2._command_map = n._command_map
      ∧ (Observe_response env fq out args n).2._command_queue = n._command_queue := by
  cases h : extract4 env args with
  | none => simp [Observe_response, h]
  | some v =>
    obtain ⟨a, g, ng, d⟩ := v
    simp only [Observe_response, h]
    split
    · have h1 := Update_callback_frame env
        (env.put d (env.put ng (env.put (update env.MQGetTickCount64 ng "NULL" out
          (observe ng a fq n))._node_name [])))
        (update env.MQGetTickCount64 ng "NULL" out (observe ng a fq n))
      have h2 := update_frame env.MQGetTickCount64 ng "NULL" out (observe ng a fq n)
      have h3 := observe_frame ng a fq n
      exact ⟨h1.1.trans (h2.1.trans h3.1), h1.2.trans (h2.2.trans h3.2)⟩
    · exact ⟨rfl, rfl⟩

/-- No closure of the program touches the registry or the queue. -/
theorem invoke_frame (env : Env) (cb : Callback) (args : Payload) (n : Node Callback) :
    (invoke env cb args n).2._command_map = n._command_map
      ∧ (invoke env cb args n).2._command_queue = n._command_queue := by
  cases cb with
  | Echo =>
    cases h : extract3 env args with
    | none => simp [invoke, Echo_callback, h]
    | some v => simp [invoke, Echo_callback, h]
  | Execute =>
    cases h : extract3 env args with
    | none => simp [invoke, Execute_callback, h]
    | some v =>
      simp only [invoke, Execute_callback, h]
      split <;> exact ⟨rfl, rfl⟩
  | Query =>
    cases h : extract4 env args with
    | none => simp [invoke, Query_callback, h]
    | some v =>
      simp only [invoke, Query_callback, h]
      exact respond_frame _ _ _ _
  | Observe =>
    cases h : extract4 env args with
    | none => simp [invoke, Observe_callback, h]
    | some v =>
      obtain ⟨a, g, k, q⟩ := v
      simp only [invoke, Observe_callback, h]
      have h1 := respond_frame a k
        (env.put (parse_query env q) (env.put (register_observer env a q n).1 []))
        (register_observer env a q n).2
      have h2 := register_observer_frame env a q n
      exact ⟨h1.1.trans h2.1, h1.2.trans h2.2⟩
  | Update => exact Update_callback_frame env args n
  | Query_response =>
    cases h : extract3 env args with
    | none => simp [invoke, Query_response, h]
    | some v => simp [invoke, Query_response, h, query_result]
  | Observe_response fq out => exact Observe_response_frame env fq out args n

/-- The two response lambdas return true on every stream, the five commands return false. -/
theorem invoke_result (env : Env) (cb : Callback) (args : Payload) (n : Node Callback) :
    (invoke env cb args n).1 = is_response cb := by
  cases cb with
  | Echo => cases h : extract3 env args <;> simp [invoke, Echo_callback, h, is_response]
  | Execute => cases h : extract3 env args <;> simp [invoke, Execute_callback, h, is_response]
  | Query => cases h : extract4 env args <;> simp [invoke, Query_callback, h, is_response]
  | Observe => cases h : extract4 env args <;> simp [invoke, Observe_callback, h, is_response]
  | Update =>
    cases h : extract3 env args with
    | none => simp [invoke, Update_callback, h, is_response]
    | some v =>
      simp only [invoke, Update_callback, h, is_response]
      split <;> rfl
  | Query_response =>
    cases h : extract3 env args <;> simp [invoke, Query_response, h, is_response]
  | Observe_response fq out =>
    cases h : extract4 env args with
    | none => simp [invoke, Observe_response, h, is_response]
    | some v =>
      simp only [invoke, Observe_response, h, is_response]
      split <;> rfl

/-- A closure whose extraction throws changes nothing in the node. -/
theorem invoke_deserialize_fails (env : Env) (cb : Callback) (args : Payload)
    (n : Node Callback) (hfail : deserialize_fails env cb args) :
    invoke env cb args n = (is_response cb, n) := by
  cases cb <;>
    simp only [deserialize_fails] at hfail <;>
    simp [invoke, Echo_callback, Execute_callback, Query_callback, Observe_callback,
      Update_callback, Query_response, Observe_response, hfail, is_response]

/-! ## Dispatch order -/

/-- C6. The dispatch queue is first in, first out, one entry per tick. For commands `cs`
enqueued in order with `queue_command` on an empty queue: before tick number `k + 1` the queue
holds the entries from position `k` on; tick number `k + 1` calls the handler that the registry
then holds for the name of entry `k`, with the stream of entry `k`, and calls nothing when the
name is not registered; after it the queue holds the entries from position `k + 1` on. Every
`do_next` on a non-empty queue shortens it by one, and `do_next` on an empty queue calls
nothing and changes nothing. -/
theorem do_next_fifo (env : Env) (n : Node Callback) (cs : List (String × Payload))
    (hn : n._command_queue = []) :
    (∀ (k : Nat) (hk : k < cs.length),
        (do_nexts (invoke env) k (queue_commands cs n))._command_queue = cs.drop k
        ∧ (do_next_call (invoke env) (do_nexts (invoke env) k (queue_commands cs n))).1
          = (StdMap.find (cs.get ⟨k, hk⟩).1
              (do_nexts (invoke env) k (queue_commands cs n))._command_map).map
              (fun h => (h, (cs.get ⟨k, hk⟩).2))
        ∧ (do_nexts (invoke env) (k + 1) (queue_commands cs n))._command_queue
          = cs.drop (k + 1))
    ∧ (∀ m : Node Callback, m._command_queue ≠ [] →
        (do_next (invoke env) m)._command_queue.length + 1 = m._command_queue.length)
    ∧ (∀ m : Node Callback, m._command_queue = [] →
        do_next (invoke env) m = m ∧ (do_next_call (invoke env) m).1 = none) := by
  have hinv : ∀ h p m, (invoke env h p m).2._command_queue = m._command_queue :=
    fun h p m => (invoke_frame env h p m).2
  have hqueue : ∀ k, (do_nexts (invoke env) k (queue_commands cs n))._command_queue
      = cs.drop k := by
    intro k
    rw [do_nexts_queue (invoke env) hinv, queue_commands_queue, hn, List.nil_append]
  refine ⟨?_, ?_, ?_⟩
  · intro k hk
    refine ⟨hqueue k, ?_, hqueue (k + 1)⟩
    have hdrop : cs.drop k = cs.get ⟨k, hk⟩ :: cs.drop (k + 1) :=
      List.drop_eq_getElem_cons hk
    exact do_next_call_front (invoke env) _ _ _ ((hqueue k).trans hdrop)
  · intro m hm
    rw [do_next_queue (invoke env) hinv]
    cases hq : m._command_queue with
    | nil => exact absurd hq hm
    | cons c rest => simp
  · intro m hm
    simp [do_next, do_next_call_nil (invoke env) m hm]

theorem do_next_fifo_witness :
    Node.sample._command_queue = []
    ∧ (do_nexts (invoke Env.sample) 1
        (queue_commands [("Echo", Payload.sample), ("gone", []), ("Update", [])]
          Node.sample))._command_queue = [("gone", []), ("Update", [])]
    ∧ (do_next_call (invoke Env.sample)
        (queue_commands [("Echo", Payload.sample), ("gone", []), ("Update", [])]
          Node.sample)).1 = some (Callback.Echo, Payload.sample)
    ∧ (do_next_call (invoke Env.sample) (do_nexts (invoke Env.sample) 1
        (queue_commands [("Echo", Payload.sample), ("gone", []), ("Update", [])]
          Node.sample))).1 = none :=
  ⟨by decide,
    ((do_next_fifo Env.sample Node.sample
      [("Echo", Payload.sample), ("gone", []), ("Update", [])] (by decide)).1 1
        (by decide)).1,
    by decide, by decide⟩

theorem do_next_one_shot_witness :
    StdMap.find "Echo" Node.sample._command_map = some Callback.Echo
    ∧ (invoke Env.sample Callback.Echo Payload.sample Node.sample).1 = false
    ∧ (do_next (invoke Env.sample)
        { Node.sample with _command_queue := [("Echo", Payload.sample)] })._command_map
      = Node.sample._command_map :=
  ⟨by decide, by decide,
    (do_next_one_shot (invoke Env.sample)
      { Node.sample with _command_queue := [("Echo", Payload.sample)] }
      "Echo" Payload.sample [] Callback.Echo rfl (by decide) (by decide)).2.1 (by decide)⟩

theorem do_next_discards_unregistered_witness :
    StdMap.find "response_9" Node.sample._command_map = none
    ∧ (do_next_call (invoke Env.sample)
        { Node.sample with _command_queue := [("response_9", Payload.sample)] }).1 = none
    ∧ (do_next (invoke Env.sample)
        { Node.sample with _command_queue := [("response_9", Payload.sample)] })._command_map
      = Node.sample._command_map :=
  ⟨by decide,
    (do_next_discards_unregistered (invoke Env.sample)
      { Node.sample with _command_queue := [("response_9", Payload.sample)] }
      "response_9" Payload.sample [] rfl (by decide)).1,
    by decide⟩

/-! ## Responses -/

/-- The function `Query::pack` enters its lambda under the key that `register_response` returns. -/
theorem Query_pack_registers (env : Env) (recipient request : String) (n : Node Callback) :
    StdMap.find (register_response env Callback.Query_response n).1
        (Query_pack env recipient request n).2._command_map = some Callback.Query_response :=
  StdMap.find_assign_self _ _ _

/-- The function `Observe::pack` for another recipient enters its lambda, with the trimmed query and the
output captured, under the key that `register_response` returns. -/
theorem Observe_pack_registers (env : Env) (recipient query output : String)
    (n : Node Callback) (hr : recipient ≠ n._node_name) :
    StdMap.find
        (register_response env (Callback.Observe_response (trim_query query) output) n).1
        (Observe_pack env recipient query output n).2._command_map
      = some (Callback.Observe_response (trim_query query) output) := by
  simp only [Observe_pack, hr, if_false]
  exact StdMap.find_assign_self _ _ _

/-- C9. At most one reply is processed per registered response key. When the registry maps
`k` to a response lambda (the one of `Query::pack` or the one of `Observe::pack`) and the two
front entries of the queue are both named `k`, the first `do_next` calls that lambda with the
stream of the first entry and leaves `k` unregistered, and the second `do_next` calls nothing
and only drops the second entry. -/
theorem response_processed_once (env : Env) (n : Node Callback) (k : String)
    (p1 p2 : Payload) (rest : List (String × Payload)) (h : Callback)
    (hresp : h = Callback.Query_response
      ∨ ∃ final_query output, h = Callback.Observe_response final_query output)
    (hq : n._command_queue = (k, p1) :: (k, p2) :: rest)
    (hf : StdMap.find k n._command_map = some h) :
    (do_next_call (invoke env) n).1 = some (h, p1)
    ∧ StdMap.find k (do_next (invoke env) n)._command_map = none
    ∧ (do_next_call (invoke env) (do_next (invoke env) n)).1 = none
    ∧ do_next (invoke env) (do_next (invoke env) n)
      = { do_next (invoke env) n with _command_queue := rest } := by
  have hcall := do_next_call_registered (invoke env) n k p1 ((k, p2) :: rest) h hq hf
  have hresp1 : is_response h = true := by
    rcases hresp with hr | ⟨fq, out, hr⟩ <;> rw [hr] <;> rfl
  have hres : (invoke env h p1 { n with _command_queue := (k, p2) :: rest }).1 = true := by
    rw [invoke_result, hresp1]
  have hfr := invoke_frame env h p1 { n with _command_queue := (k, p2) :: rest }
  rw [hres] at hcall
  simp only [if_true] at hcall
  have hq1 : (do_next (invoke env) n)._command_queue = (k, p2) :: rest := by
    rw [do_next, hcall]; exact hfr.2
  have hf1 : StdMap.find k (do_next (invoke env) n)._command_map = none := by
    rw [do_next, hcall]; exact StdMap.find_erase_self _ _
  have h2 := do_next_call_unregistered (invoke env) (do_next (invoke env) n) k p2 rest
    hq1 hf1
  refine ⟨?_, hf1, ?_, ?_⟩
  · rw [hcall]
  · rw [h2]
  · rw [do_next, h2]

theorem response_processed_once_witness :
    StdMap.find "response_8"
        (Query_pack Env.sample "bob" "Me.Level" Node.sample).2._command_map
      = some Callback.Query_response
    ∧ (do_next_call (invoke Env.sample)
        { (Query_pack Env.sample "bob" "Me.Level" Node.sample).2 with
          _command_queue := [("response_8", Payload.sample), ("response_8", Payload.sample)] }).1
      = some (Callback.Query_response, Payload.sample)
    ∧ (do_next_call (invoke Env.sample) (do_next (invoke Env.sample)
        { (Query_pack Env.sample "bob" "Me.Level" Node.sample).2 with
          _command_queue := [("response_8", Payload.sample), ("response_8", Payload.sample)] })).1
      = none :=
  ⟨by decide,
    (response_processed_once Env.sample
      { (Query_pack Env.sample "bob" "Me.Level" Node.sample).2 with
        _command_queue := [("response_8", Payload.sample), ("response_8", Payload.sample)] }
      "response_8" Payload.sample Payload.sample [] Callback.Query_response (Or.inl rfl) rfl
      (by decide)).1,
    (response_processed_once Env.sample
      { (Query_pack Env.sample "bob" "Me.Level" Node.sample).2 with
        _command_queue := [("response_8", Payload.sample), ("response_8", Payload.sample)] }
      "response_8" Payload.sample Payload.sample [] Callback.Query_response (Or.inl rfl) rfl
      (by decide)).2.2.1⟩

/-! ## Malformed payloads -/

/-- C10 (counterexample). The lambda that `Query::pack` registered under `response_8` is
dispatched with an empty stream: the extraction throws, the lambda still returns true, and
`do_next` removes `response_8`, so the registry is not as it was. -/
theorem malformed_response_unregisters :
    deserialize_fails Env.sample Callback.Query_response []
    ∧ StdMap.find "response_8"
        (Query_pack Env.sample "bob" "Me.Level" Node.sample).2._command_map
      = some Callback.Query_response
    ∧ (invoke Env.sample Callback.Query_response []
        (Query_pack Env.sample "bob" "Me.Level" Node.sample).2).1 = true
    ∧ (do_next (invoke Env.sample)
        { (Query_pack Env.sample "bob" "Me.Level" Node.sample).2 with
          _command_queue := [("response_8", [])] })._command_map
      ≠ (Query_pack Env.sample "bob" "Me.Level" Node.sample).2._command_map :=
  ⟨(by decide : extract3 Env.sample [] = none), by decide, by decide, by decide⟩

/-- C10 (amended). When the front entry names a registered closure of the program and the
extraction from its stream throws, the closure changes nothing in the node. The `Echo`,
`Execute`, `Query`, `Observe` and `Update` callbacks then return false and `do_next` leaves the
registry exactly as it was; the response lambdas of `Query::pack` and `Observe::pack` then
return true and `do_next` removes that one registration, every other name staying mapped as
before. In both cases `do_next` does nothing else than drop the front entry. -/
theorem malformed_payload_dispatch (env : Env) (n : Node Callback) (name : String)
    (args : Payload) (rest : List (String × Payload)) (cb : Callback)
    (hq : n._command_queue = (name, args) :: rest)
    (hf : StdMap.find name n._command_map = some cb)
    (hfail : deserialize_fails env cb args) :
    invoke env cb args { n with _command_queue := rest }
      = (is_response cb, { n with _command_queue := rest })
    ∧ (is_response cb = false →
        (cb = Callback.Echo ∨ cb = Callback.Execute ∨ cb = Callback.Query
          ∨ cb = Callback.Observe ∨ cb = Callback.Update)
        ∧ do_next (invoke env) n = { n with _command_queue := rest }
        ∧ (do_next (invoke env) n)._command_map = n._command_map)
    ∧ (is_response cb = true →
        (cb = Callback.Query_response ∨ ∃ fq out, cb = Callback.Observe_response fq out)
        ∧ do_next (invoke env) n
          = { n with _command_queue := rest,
                     _command_map := StdMap.erase name n._command_map }
        ∧ StdMap.find name (do_next (invoke env) n)._command_map = none
        ∧ ∀ other : String, other ≠ name →
            StdMap.find other (do_next (invoke env) n)._command_map
              = StdMap.find other n._command_map) := by
  have hinv := invoke_deserialize_fails env cb args { n with _command_queue := rest } hfail
  have hcall := do_next_call_registered (invoke env) n name args rest cb hq hf
  rw [hinv] at hcall
  refine ⟨hinv, ?_, ?_⟩
  · intro hr
    rw [hr] at hcall
    refine ⟨?_, ?_, ?_⟩
    · cases cb <;> simp [is_response] at hr ⊢
    · rw [do_next, hcall]; rfl
    · rw [do_next, hcall]; rfl
  · intro hr
    rw [hr] at hcall
    have hd : do_next (invoke env) n
        = { n with _command_queue := rest,
                   _command_map := StdMap.erase name n._command_map } := by
      rw [do_next, hcall]; rfl
    refine ⟨?_, hd, ?_, ?_⟩
    · cases cb <;> simp [is_response] at hr ⊢
    · rw [hd]; exact StdMap.find_erase_self _ _
    · intro other hother
      rw [hd]; exact StdMap.find_erase_ne _ _ _ hother

theorem malformed_payload_dispatch_witness :
    deserialize_fails Env.sample Callback.Echo [7, 98]
    ∧ StdMap.find "Echo" Node.sample._command_map = some Callback.Echo
    ∧ (do_next (invoke Env.sample)
        { Node.sample with _command_queue := [("Echo", [7, 98])] })._command_map
      = Node.sample._command_map :=
  ⟨(by decide : extract3 Env.sample [7, 98] = none), by decide,
    ((malformed_payload_dispatch Env.sample
      { Node.sample with _command_queue := [("Echo", [7, 98])] } "Echo" [7, 98] []
      Callback.Echo rfl (by decide)
      (by decide : extract3 Env.sample [7, 98] = none)).2.1 rfl).2.2⟩

/-! ## Query state -/

theorem query_current_query {H : Type} (o Q : String) (n : Node H) :
    (query o Q n).2._current_query = trim_query Q := by
  unfold query
  by_cases h : (trim_query Q).isEmpty = true ∨ trim_query Q ≠ n._current_query
  · simp only [h, if_true]
  · simp only [h, if_false]
    have h2 : ¬ trim_query Q ≠ n._current_query := fun c => h (Or.inr c)
    exact (not_not.mp h2).symm

theorem query_of_tracked {H : Type} (o Q : String) (m : Node H)
    (hQ : trim_query Q ≠ "") (hcur : trim_query Q = m._current_query) :
    query o Q m = (m._query_result, m) := by
  have hemp : ¬ (trim_query Q).isEmpty = true := fun c => hQ ((String.isEmpty_iff _).mp c)
  have hcond : ¬ ((trim_query Q).isEmpty = true ∨ trim_query Q ≠ m._current_query) := by
    intro c
    rcases c with c | c
    · exact hemp c
    · exact c hcur
  unfold query
  simp only [hcond, if_false]

/-- C17 (counterexample). The query string is the one character closing brace, which is not
empty; `trim_query` turns it into the empty string, so `query` resets the stored observation
on every call: after `query`, `query_result(obs)`, the next `query` with the same string does
not return `obs`. -/
theorem query_resets_when_trimmed_empty :
    "\x7d" ≠ ""
    ∧ trim_query "\x7d" = ""
    ∧ (query "out2" "\x7d"
        (query_result ⟨"out1", "5", 7⟩ (query "out1" "\x7d" (Node.fresh Callback)).2)).1
      = ⟨"out2", "NULL", 0⟩
    ∧ (query "out2" "\x7d"
        (query_result ⟨"out1", "5", 7⟩ (query "out1" "\x7d" (Node.fresh Callback)).2)).1
      ≠ ⟨"out1", "5", 7⟩ := by
  refine ⟨by decide, by decide, by decide, by decide⟩

/-- C17 (amended). For every output `o`, `o2`, every observation `obs` and every query string
`Q` whose normalized form `trim_query(Q)` is not empty: after `query(o, Q)` and
`query_result(obs)`, the call `query(o2, Q)` returns `obs` and leaves it stored, the tracked
query staying `trim_query(Q)`. -/
theorem query_keeps_result {H : Type} (o o2 Q : String) (obs : Observation) (n : Node H)
    (hQ : trim_query Q ≠ "") :
    (query o2 Q (query_result obs (query o Q n).2)).1 = obs
    ∧ (query o2 Q (query_result obs (query o Q n).2)).2._query_result = obs
    ∧ (query o2 Q (query_result obs (query o Q n).2)).2._current_query = trim_query Q := by
  have hcur : (query_result obs (query o Q n).2)._current_query = trim_query Q :=
    query_current_query o Q n
  have hsame := query_of_tracked o2 Q (query_result obs (query o Q n).2) hQ hcur.symm
  rw [hsame]
  exact ⟨rfl, rfl, hcur⟩

theorem query_keeps_result_witness :
    trim_query "$\x7bMe.Level\x7d" ≠ ""
    ∧ (query "out2" "$\x7bMe.Level\x7d"
        (query_result ⟨"out1", "65", 7⟩
          (query "out1" "$\x7bMe.Level\x7d" (Node.fresh Callback)).2)).1
      = ⟨"out1", "65", 7⟩ :=
  ⟨by decide,
    (query_keeps_result "out1" "out2" "$\x7bMe.Level\x7d" ⟨"out1", "65", 7⟩
      (Node.fresh Callback) (by decide)).1⟩

/-- C18. For every output `o` and every non-empty query string `Q` on which every step of
`trim_query` is defined and whose normalized form `trim_query(Q)` differs from the tracked
query, `query(o, Q)` returns `Observation{output = o, data = "NULL", received = 0}`, stores it
as the query result, sets the tracked query to `trim_query(Q)`, and changes nothing else in
the node. -/
theorem query_resets_on_new_query {H : Type} (o Q : String) (n : Node H)
    (_hQ : Q ≠ "") (_hdef : trim_query_defined Q = true)
    (hnew : trim_query Q ≠ n._current_query) :
    (query o Q n).1 = ⟨o, "NULL", 0⟩
    ∧ (query o Q n).2._query_result = ⟨o, "NULL", 0⟩
    ∧ (query o Q n).2._current_query = trim_query Q
    ∧ (query o Q n).2
      = { n with _current_query := trim_query Q, _query_result := ⟨o, "NULL", 0⟩ } := by
  have hcond : (trim_query Q).isEmpty = true ∨ trim_query Q ≠ n._current_query := Or.inr hnew
  unfold query
  simp only [hcond, if_true, Observation.ofOutput, and_self]

theorem query_resets_on_new_query_witness :
    "Me.Level" ≠ ""
    ∧ trim_query_defined "Me.Level" = true
    ∧ trim_query "Me.Level" ≠ (query_result ⟨"out1", "Bob", 7⟩
        (query "out1" "Me.Name" (Node.fresh Callback)).2)._current_query
    ∧ (query "out2" "Me.Level" (query_result ⟨"out1", "Bob", 7⟩
        (query "out1" "Me.Name" (Node.fresh Callback)).2)).1 = ⟨"out2", "NULL", 0⟩ :=
  ⟨by decide, by decide, by decide,
    (query_resets_on_new_query "out2" "Me.Level"
      (query_result ⟨"out1", "Bob", 7⟩ (query "out1" "Me.Name" (Node.fresh Callback)).2)
      (by decide) (by decide) (by decide)).1⟩

/-- C19 (the code at the failing input). The string `$Me.Name` is not empty, starts with
neither a double quote nor dollar and opening brace, ends with neither a double quote nor a
closing brace and holds no escape, yet `trim_query` removes its first two characters: the
test `find_first_of` holds as soon as the first character is a dollar or an opening brace. -/
theorem trim_query_eats_lone_dollar :
    trim_query "$Me.Name" = "e.Name"
    ∧ trim_query "$Me.Name" ≠ "$Me.Name"
    ∧ trim_query "\x7bx" = "" := by
  refine ⟨by decide, by decide, by decide⟩

/-! ## The key orders are strict total orders -/

theorem string_less_irrefl (s : List Char) : string_less s s = false := by
  induction s with
  | nil => rfl
  | cons a s ih => simp [string_less, ih]

theorem string_less_trans : ∀ (a b c : List Char),
    string_less a b = true → string_less b c = true → string_less a c = true := by
  intro a
  induction a with
  | nil =>
    intro b c hab hbc
    cases b with
    | nil => simp [string_less] at hab
    | cons y b =>
      cases c with
      | nil => simp [string_less] at hbc
      | cons z c => simp [string_less]
  | cons x a ih =>
    intro b c hab hbc
    cases b with
    | nil => simp [string_less] at hab
    | cons y b =>
      cases c with
      | nil => simp [string_less] at hbc
      | cons z c =>
        simp only [string_less] at hab hbc ⊢
        by_cases hxy : x.toNat < y.toNat
        · by_cases hyz : y.toNat < z.toNat
          · have : x.toNat < z.toNat := by omega
            simp [this]
          · by_cases hzy : z.toNat < y.toNat
            · simp [hyz, hzy] at hbc
            · have : x.toNat < z.toNat := by omega
              simp [this]
        · by_cases hyx : y.toNat < x.toNat
          · simp [hxy, hyx] at hab
          · simp only [hxy, hyx, if_false] at hab
            by_cases hyz : y.toNat < z.toNat
            · have : x.toNat < z.toNat := by omega
              simp [this]
            · by_cases hzy : z.toNat < y.toNat
              · simp [hyz, hzy] at hbc
              · simp only [hyz, hzy, if_false] at hbc
                have h1 : ¬ x.toNat < z.toNat := by omega
                have h2 : ¬ z.toNat < x.toNat := by omega
                simp only [h1, h2, if_false]
                exact ih b c hab hbc

theorem string_less_total : ∀ (a b : List Char),
    a ≠ b → string_less a b = false → string_less b a = true := by
  intro a
  induction a with
  | nil =>
    intro b hne hab
    cases b with
    | nil => exact absurd rfl hne
    | cons y b => simp [string_less] at hab
  | cons x a ih =>
    intro b hne hab
    cases b with
    | nil => simp [string_less]
    | cons y b =>
      simp only [string_less] at hab ⊢
      by_cases hxy : x.toNat < y.toNat
      · simp [hxy] at hab
      · by_cases hyx : y.toNat < x.toNat
        · simp [hyx]
        · simp only [hxy, hyx, if_false] at hab ⊢
          have hxy2 : x = y := Char.ext (UInt32.ext (by
            have : x.toNat = y.toNat := by omega
            exact this))
          subst hxy2
          exact ih b (fun c => hne (by rw [c])) hab

theorem lawful_nat : Compare.Lawful Nat := by
  refine ⟨?_, ?_, ?_⟩
  · intro a; simp [Compare.lt]
  · intro a b c hab hbc
    simp only [Compare.lt, decide_eq_true_eq] at hab hbc ⊢
    omega
  · intro a b hne hab
    simp only [Compare.lt, decide_eq_true_eq, decide_eq_false_iff_not] at hab ⊢
    omega

theorem lawful_string : Compare.Lawful String := by
  refine ⟨?_, ?_, ?_⟩
  · intro a; exact string_less_irrefl _
  · intro a b c; exact string_less_trans _ _ _
  · intro a b hne
    exact string_less_total _ _ (fun c => hne (String.ext c))

theorem lawful_observed : Compare.Lawful Observed := by
  obtain ⟨hirr, htr, htot⟩ := lawful_string
  refine ⟨?_, ?_, ?_⟩
  · intro a
    show ObservedCompare a a = false
    simp [ObservedCompare, hirr]
  · intro a b c hab hbc
    have hab1 : ObservedCompare a b = true := hab
    have hbc1 : ObservedCompare b c = true := hbc
    show ObservedCompare a c = true
    unfold ObservedCompare at hab1 hbc1 ⊢
    by_cases h1 : a.query = b.query
    · by_cases h2 : b.query = c.query
      · have h3 : a.query = c.query := h1.trans h2
        simp only [h1, h2, h3, ne_eq, not_true_eq_false, if_false] at hab1 hbc1 ⊢
        exact htr _ _ _ hab1 hbc1
      · have h3 : ¬ a.query = c.query := fun c3 => h2 (h1 ▸ c3)
        simp only [h2, h3, ne_eq, not_false_eq_true, if_true] at hbc1 ⊢
        rw [h1]; exact hbc1
    · simp only [h1, ne_eq, not_false_eq_true, if_true] at hab1
      by_cases h2 : b.query = c.query
      · have h3 : ¬ a.query = c.query := fun c3 => h1 (c3.trans h2.symm)
        simp only [h3, ne_eq, not_false_eq_true, if_true]
        rw [← h2]; exact hab1
      · simp only [h2, ne_eq, not_false_eq_true, if_true] at hbc1
        have h4 := htr _ _ _ hab1 hbc1
        have h3 : ¬ a.query = c.query := by
          intro c3
          rw [c3, hirr] at h4
          cases h4
        simp only [h3, ne_eq, not_false_eq_true, if_true]
        exact h4
  · intro a b hne hab
    have hab1 : ObservedCompare a b = false := hab
    show ObservedCompare b a = true
    unfold ObservedCompare at hab1 ⊢
    by_cases h1 : a.query = b.query
    · have h2 : ¬ a.name = b.name := by
        intro c
        apply hne
        cases a; cases b
        simp_all
      simp only [h1, ne_eq, not_true_eq_false, if_false] at hab1 ⊢
      exact htot _ _ h2 hab1
    · have h1s : ¬ b.query = a.query := fun c => h1 c.symm
      simp only [h1, h1s, ne_eq, not_false_eq_true, if_true] at hab1 ⊢
      exact htot _ _ h1 hab1

/-! ## Maps with ascending keys -/

theorem StdMap.find_eq_none_iff {κ α : Type} [DecidableEq κ] (k : κ) (m : List (κ × α)) :
    StdMap.find k m = none ↔ ∀ e ∈ m, e.1 ≠ k := by
  induction m with
  | nil => simp [StdMap.find]
  | cons e m ih =>
    obtain ⟨a, b⟩ := e
    by_cases h : a = k
    · simp [StdMap.find, h]
    · simp [StdMap.find, h, ih]

theorem StdMap.mem_of_find {κ α : Type} [DecidableEq κ] (k : κ) (v : α) (m : List (κ × α))
    (h : StdMap.find k m = some v) : (k, v) ∈ m := by
  induction m with
  | nil => simp [StdMap.find] at h
  | cons e m ih =>
    obtain ⟨a, b⟩ := e
    by_cases h1 : a = k
    · simp only [StdMap.find, h1, if_true, Option.some.injEq] at h
      simp [h1, h]
    · simp only [StdMap.find, h1, if_false] at h
      exact List.mem_cons_of_mem _ (ih h)

theorem StdMap.assign_cons_eq {κ α : Type} [Compare κ] [DecidableEq κ] (k : κ) (v b : α)
    (m : List (κ × α)) : StdMap.assign k v ((k, b) :: m) = (k, v) :: m := by
  simp [StdMap.assign]

theorem StdMap.assign_cons_lt {κ α : Type} [Compare κ] [DecidableEq κ] (k a : κ) (v b : α)
    (m : List (κ × α)) (h1 : ¬ a = k) (h2 : Compare.lt k a = true) :
    StdMap.assign k v ((a, b) :: m) = (k, v) :: (a, b) :: m := by
  simp [StdMap.assign, h1, h2]

theorem StdMap.assign_cons_gt {κ α : Type} [Compare κ] [DecidableEq κ] (k a : κ) (v b : α)
    (m : List (κ × α)) (h1 : ¬ a = k) (h2 : ¬ Compare.lt k a = true) :
    StdMap.assign k v ((a, b) :: m) = (a, b) :: StdMap.assign k v m := by
  simp [StdMap.assign, h1, h2]

theorem StdMap.mem_assign {κ α : Type} [Compare κ] [DecidableEq κ] (k : κ) (v : α)
    (m : List (κ × α)) (e : κ × α) (he : e ∈ StdMap.assign k v m) : e = (k, v) ∨ e ∈ m := by
  induction m with
  | nil => simpa [StdMap.assign] using he
  | cons x m ih =>
    obtain ⟨a, b⟩ := x
    by_cases h1 : a = k
    · subst h1
      rw [StdMap.assign_cons_eq, List.mem_cons] at he
      rcases he with he | he
      · exact Or.inl he
      · exact Or.inr (List.mem_cons_of_mem _ he)
    · by_cases h2 : Compare.lt k a = true
      · rw [StdMap.assign_cons_lt k a v b m h1 h2, List.mem_cons] at he
        rcases he with he | he
        · exact Or.inl he
        · exact Or.inr he
      · rw [StdMap.assign_cons_gt k a v b m h1 h2, List.mem_cons] at he
        rcases he with he | he
        · exact Or.inr (by simp [he])
        · rcases ih he with h3 | h3
          · exact Or.inl h3
          · exact Or.inr (List.mem_cons_of_mem _ h3)

theorem StdMap.mem_assign_self {κ α : Type} [Compare κ] [DecidableEq κ] (k : κ) (v : α)
    (m : List (κ × α)) : (k, v) ∈ StdMap.assign k v m :=
  StdMap.mem_of_find k v _ (StdMap.find_assign_self k v m)

theorem StdMap.sorted_cons {κ α : Type} [Compare κ] (x : κ × α) (m : List (κ × α)) :
    StdMap.Sorted (x :: m)
      ↔ (∀ e ∈ m, Compare.lt x.1 e.1 = true) ∧ StdMap.Sorted m := by
  simp [StdMap.Sorted, List.pairwise_cons]

theorem StdMap.sorted_assign {κ α : Type} [Compare κ] [DecidableEq κ]
    (hlaw : Compare.Lawful κ) (k : κ) (v : α) (m : List (κ × α)) (hm : StdMap.Sorted m) :
    StdMap.Sorted (StdMap.assign k v m) := by
  obtain ⟨_, htr, htot⟩ := hlaw
  induction m with
  | nil => simp [StdMap.assign, StdMap.Sorted]
  | cons x m ih =>
    obtain ⟨a, b⟩ := x
    have hm1 := (StdMap.sorted_cons (a, b) m).mp hm
    by_cases h1 : a = k
    · subst h1
      rw [StdMap.assign_cons_eq, StdMap.sorted_cons]
      exact hm1
    · by_cases h2 : Compare.lt k a = true
      · rw [StdMap.assign_cons_lt k a v b m h1 h2, StdMap.sorted_cons]
        refine ⟨?_, hm⟩
        intro e he
        rw [List.mem_cons] at he
        rcases he with he | he
        · rw [he]; exact h2
        · exact htr _ _ _ h2 (hm1.1 e he)
      · rw [StdMap.assign_cons_gt k a v b m h1 h2, StdMap.sorted_cons]
        refine ⟨?_, ih hm1.2⟩
        intro e he
        rcases StdMap.mem_assign k v m e he with h3 | h3
        · rw [h3]
          exact htot k a (fun c2 => h1 c2.symm) (by simpa using h2)
        · exact hm1.1 e h3

/-- In a map with ascending keys a key has one entry. -/
theorem StdMap.sorted_unique {κ α : Type} [Compare κ] (hlaw : Compare.Lawful κ)
    (m : List (κ × α)) (hm : StdMap.Sorted m) (k : κ) (v w : α)
    (hv : (k, v) ∈ m) (hw : (k, w) ∈ m) : v = w := by
  obtain ⟨hirr, _, _⟩ := hlaw
  induction m with
  | nil => cases hv
  | cons x m ih =>
    have hm1 := (StdMap.sorted_cons x m).mp hm
    have hnot : ∀ u : α, x.1 = k → (k, u) ∈ m → False := by
      intro u hx hu
      have h1 := hm1.1 (k, u) hu
      rw [hx, hirr] at h1
      cases h1
    rw [List.mem_cons] at hv hw
    rcases hv with hv | hv <;> rcases hw with hw | hw
    · exact (Prod.mk.inj (hv.trans hw.symm)).2
    · exact (hnot w (by rw [← hv]) hw).elim
    · exact (hnot v (by rw [← hw]) hv).elim
    · exact ih hm1.2 hv hw

theorem erase_group_subset (g : String) (m : List (Observed × String)) :
    ∀ e ∈ erase_group g m, e ∈ m := by
  induction m with
  | nil => intro e he; simp [erase_group] at he
  | cons x m ih =>
    obtain ⟨a, b⟩ := x
    intro e he
    by_cases h : b = g
    · simp only [erase_group, h, if_true] at he
      exact List.mem_cons_of_mem _ he
    · simp only [erase_group, h, if_false, List.mem_cons] at he
      rcases he with he | he
      · simp [he]
      · exact List.mem_cons_of_mem _ (ih e he)

/-- When the pair `k` is the only one mapped to `g`, `forget(g)` leaves `k` unmapped. -/
theorem find_erase_group_only (g : String) (k : Observed) (m : List (Observed × String))
    (hm : StdMap.Sorted m) (hk : (k, g) ∈ m) (honly : ∀ e ∈ m, e.2 = g → e.1 = k) :
    StdMap.find k (erase_group g m) = none := by
  obtain ⟨hirr, _, _⟩ := lawful_observed
  induction m with
  | nil => cases hk
  | cons x m ih =>
    obtain ⟨a, b⟩ := x
    have hm1 := (StdMap.sorted_cons (a, b) m).mp hm
    by_cases h : b = g
    · have ha : a = k := honly (a, b) (by simp) h
      simp only [erase_group, h, if_true]
      rw [StdMap.find_eq_none_iff]
      intro e he hek
      have h1 := hm1.1 e he
      rw [hek] at h1
      have h2 : Compare.lt k k = true := by rw [ha] at h1; exact h1
      rw [hirr] at h2
      cases h2
    · have hk1 : (k, g) ∈ m := by
        rw [List.mem_cons] at hk
        rcases hk with hk | hk
        · exact absurd (Prod.mk.inj hk).2.symm h
        · exact hk
      have hak : ¬ a = k := by
        intro c
        have h1 := hm1.1 (k, g) hk1
        have h2 : Compare.lt k k = true := by rw [c] at h1; exact h1
        rw [hirr] at h2
        cases h2
      simp only [erase_group, h, if_false, StdMap.find, hak]
      exact ih hm1.2 hk1 (fun e he => honly e (List.mem_cons_of_mem _ he))

/-! ## Forgetting an observation -/

theorem leave_eq {H : Type} (g : String) (m : Node H) :
    leave g m
      = { m with effects := m.effects ++ (if m._actor then [Effect.LEAVE g] else []) } := by
  cases m
  unfold leave
  split <;> simp_all

theorem join_eq {H : Type} (g : String) (m : Node H) :
    join g m
      = { m with effects := m.effects ++ (if m._actor then [Effect.JOIN g] else []) } := by
  cases m
  unfold join
  split <;> simp_all

/-- C13. For a pair `(q, name)` that the observed map sends to the group `g`,
`forget(name, q)` is `leave(g)` run after the mapping of the pair and the cached observation of
`g` were erased: the pair is unmapped, `g` has no cached observation, the `LEAVE` message for
`g` goes down the pipe of the running actor, and every other pair and every other group is
mapped as before. For a pair that is not mapped, `forget(name, q)` changes nothing, so it sends
no message. -/
theorem forget_query_frame {H : Type} (name q : String) (n : Node H) :
    (∀ g : String, StdMap.find (⟨q, name⟩ : Observed) n._observed_map = some g →
        forget_query name q n
          = leave g { n with
              _observed_data := StdMap.erase g n._observed_data,
              _observed_map := StdMap.erase (⟨q, name⟩ : Observed) n._observed_map }
        ∧ StdMap.find (⟨q, name⟩ : Observed) (forget_query name q n)._observed_map = none
        ∧ StdMap.find g (forget_query name q n)._observed_data = none
        ∧ (forget_query name q n).effects
          = n.effects ++ (if n._actor then [Effect.LEAVE g] else [])
        ∧ (∀ k : Observed, k ≠ ⟨q, name⟩ →
            StdMap.find k (forget_query name q n)._observed_map
              = StdMap.find k n._observed_map)
        ∧ (∀ g2 : String, g2 ≠ g →
            StdMap.find g2 (forget_query name q n)._observed_data
              = StdMap.find g2 n._observed_data))
    ∧ (StdMap.find (⟨q, name⟩ : Observed) n._observed_map = none →
        forget_query name q n = n
        ∧ (forget_query name q n).effects = n.effects) := by
  constructor
  · intro g hg
    have h1 : forget_query name q n
        = leave g { n with
            _observed_data := StdMap.erase g n._observed_data,
            _observed_map := StdMap.erase (⟨q, name⟩ : Observed) n._observed_map } := by
      simp only [forget_query, hg]
    refine ⟨h1, ?_, ?_, ?_, ?_, ?_⟩
    · rw [h1, leave_eq]; exact StdMap.find_erase_self _ _
    · rw [h1, leave_eq]; exact StdMap.find_erase_self _ _
    · rw [h1, leave_eq]
    · intro k hk
      rw [h1, leave_eq]; exact StdMap.find_erase_ne _ _ _ hk
    · intro g2 hg2
      rw [h1, leave_eq]; exact StdMap.find_erase_ne _ _ _ hg2
  · intro hnone
    have h1 : forget_query name q n = n := by simp only [forget_query, hnone]
    exact ⟨h1, by rw [h1]⟩

theorem forget_query_frame_witness :
    StdMap.find (⟨"Me.Name", "bob"⟩ : Observed)
        (update 1000 "bob_1" "Bob" "out" (observe "bob_1" "bob" "Me.Name" Node.sample))._observed_map
      = some "bob_1"
    ∧ StdMap.find (⟨"Me.Name", "bob"⟩ : Observed)
        (forget_query "bob" "Me.Name"
          (update 1000 "bob_1" "Bob" "out"
            (observe "bob_1" "bob" "Me.Name" Node.sample)))._observed_map = none
    ∧ (forget_query "bob" "Me.Name"
          (update 1000 "bob_1" "Bob" "out"
            (observe "bob_1" "bob" "Me.Name" Node.sample))).effects
      = [Effect.JOIN "bob_1", Effect.LEAVE "bob_1"]
    ∧ forget_query "bob" "Me.Level" Node.sample = Node.sample :=
  ⟨by decide,
    ((forget_query_frame "bob" "Me.Name"
      (update 1000 "bob_1" "Bob" "out" (observe "bob_1" "bob" "Me.Name" Node.sample))).1
        "bob_1" (by decide)).2.1,
    by decide,
    ((forget_query_frame "bob" "Me.Level" Node.sample).2 (by decide)).1⟩

/-- C12 (counterexample). On a node whose actor is not running (`_actor` is null, as before
`startup` and after `shutdown`), `observe(bob_1, bob, Me.Name)`, `update(bob_1, ..)` and
`forget(bob_1)` send nothing: `Node::leave` sends its `LEAVE` only under `if (_actor)`, so no
`LEAVE` request for `bob_1` has been issued. The other parts of the claim hold there. -/
theorem forget_without_actor_sends_nothing :
    ({ Node.sample with _actor := false } : Node Callback).effects = []
    ∧ (forget "bob_1" (update 1000 "bob_1" "Bob" "out" (observe "bob_1" "bob" "Me.Name"
        { Node.sample with _actor := false }))).effects = []
    ∧ Effect.LEAVE "bob_1"
        ∉ (forget "bob_1" (update 1000 "bob_1" "Bob" "out" (observe "bob_1" "bob" "Me.Name"
            { Node.sample with _actor := false }))).effects
    ∧ can_read "bob" "Me.Name"
        (forget "bob_1" (update 1000 "bob_1" "Bob" "out" (observe "bob_1" "bob" "Me.Name"
          { Node.sample with _actor := false }))) = false
    ∧ read "bob_1"
        (forget "bob_1" (update 1000 "bob_1" "Bob" "out" (observe "bob_1" "bob" "Me.Name"
          { Node.sample with _actor := false }))) = Observation.init := by
  refine ⟨by decide, by decide, by decide, by decide, by decide⟩

theorem forget_observed_map {H : Type} (t : Nat) (g name q d o : String) (n : Node H) :
    (forget g (update t g d o (observe g name q n)))._observed_map
      = erase_group g (StdMap.assign (⟨q, name⟩ : Observed) g n._observed_map) := by
  rw [forget, leave_eq]
  show erase_group g (update t g d o (observe g name q n))._observed_map = _
  have h1 : (update t g d o (observe g name q n))._observed_map
      = (observe g name q n)._observed_map := by
    unfold update; split <;> rfl
  rw [h1, observe, join_eq]

theorem forget_observed_data {H : Type} (g : String) (m : Node H) :
    StdMap.find g (forget g m)._observed_data = none := by
  rw [forget, leave_eq]
  exact StdMap.find_erase_self _ _

theorem forget_effects {H : Type} (t : Nat) (g name q d o : String) (n : Node H) :
    (forget g (update t g d o (observe g name q n))).effects
      = n.effects ++ (if n._actor then [Effect.JOIN g, Effect.LEAVE g] else []) := by
  have h1 : update t g d o (observe g name q n)
      = { observe g name q n with
          _observed_data := StdMap.assign g ⟨o, d, t⟩ (observe g name q n)._observed_data } := by
    unfold update; split <;> rfl
  rw [forget, leave_eq, h1, observe, join_eq]
  cases n._actor <;> simp

/-- C12 (amended). On a node whose observed map is a map (ascending keys), for every group
`g`, subject `name`, query `q`, data `d` and output `o`: after `observe(g, name, q)`,
`update(g, d, o)` and `forget(g)`, both `read(g)` and `read(name, q)` return the default
observation (`received = 0`); the actor, when it is running, has been sent `JOIN g` and then
`LEAVE g`, and nothing is sent when it is not; when no other pair was mapped to `g`,
`can_read(name, q)` is false. What `can_read` answers when another pair was mapped to `g` is
left out here. -/
theorem forget_after_observe {H : Type} (t : Nat) (g name q d o : String) (n : Node H)
    (hmap : StdMap.Sorted n._observed_map) :
    read g (forget g (update t g d o (observe g name q n))) = Observation.init
    ∧ read_query name q (forget g (update t g d o (observe g name q n))) = Observation.init
    ∧ Observation.init.received = 0
    ∧ (forget g (update t g d o (observe g name q n))).effects
      = n.effects ++ (if n._actor then [Effect.JOIN g, Effect.LEAVE g] else [])
    ∧ ((∀ e ∈ n._observed_map, e.2 = g → e.1 = (⟨q, name⟩ : Observed)) →
        can_read name q (forget g (update t g d o (observe g name q n))) = false) := by
  have hdata := forget_observed_data g (update t g d o (observe g name q n))
  have hread : read g (forget g (update t g d o (observe g name q n))) = Observation.init := by
    simp only [read, hdata]
  have hmapeq := forget_observed_map t g name q d o n
  have hsorted := StdMap.sorted_assign lawful_observed (⟨q, name⟩ : Observed) g
    n._observed_map hmap
  have hself := StdMap.mem_assign_self (⟨q, name⟩ : Observed) g n._observed_map
  refine ⟨hread, ?_, rfl, forget_effects t g name q d o n, ?_⟩
  · cases hf : StdMap.find (⟨q, name⟩ : Observed)
        (forget g (update t g d o (observe g name q n)))._observed_map with
    | none => simp only [read_query, hf]
    | some g2 =>
      have hmem := StdMap.mem_of_find _ _ _ hf
      rw [hmapeq] at hmem
      have hmem2 := erase_group_subset g _ _ hmem
      have hg2 : g2 = g :=
        StdMap.sorted_unique lawful_observed _ hsorted _ _ _ hmem2 hself
      simp only [read_query, hf, hg2]
      exact hread
  · intro honly
    have h1 : ∀ e ∈ StdMap.assign (⟨q, name⟩ : Observed) g n._observed_map,
        e.2 = g → e.1 = (⟨q, name⟩ : Observed) := by
      intro e he heg
      rcases StdMap.mem_assign _ _ _ e he with h2 | h2
      · rw [h2]
      · exact honly e h2 heg
    have h3 := find_erase_group_only g ⟨q, name⟩ _ hsorted hself h1
    simp only [can_read, hmapeq, h3, Option.isSome_none]

theorem forget_after_observe_witness :
    StdMap.Sorted [((⟨"Me.Level", "alice"⟩ : Observed), "alice_2")]
    ∧ read_query "bob" "Me.Name" (forget "bob_1" (update 1000 "bob_1" "Bob" "out"
        (observe "bob_1" "bob" "Me.Name"
          { Node.sample with _observed_map := [(⟨"Me.Level", "alice"⟩, "alice_2")] })))
      = Observation.init
    ∧ (forget "bob_1" (update 1000 "bob_1" "Bob" "out"
        (observe "bob_1" "bob" "Me.Name"
          { Node.sample with _observed_map := [(⟨"Me.Level", "alice"⟩, "alice_2")] }))).effects
      = [Effect.JOIN "bob_1", Effect.LEAVE "bob_1"]
    ∧ can_read "bob" "Me.Name" (forget "bob_1" (update 1000 "bob_1" "Bob" "out"
        (observe "bob_1" "bob" "Me.Name"
          { Node.sample with _observed_map := [(⟨"Me.Level", "alice"⟩, "alice_2")] })))
      = false :=
  ⟨by simp [StdMap.Sorted],
    (forget_after_observe 1000 "bob_1" "bob" "Me.Name" "Bob" "out"
      { Node.sample with _observed_map := [(⟨"Me.Level", "alice"⟩, "alice_2")] }
      (by simp [StdMap.Sorted])).2.1,
    by decide,
    (forget_after_observe 1000 "bob_1" "bob" "Me.Name" "Bob" "out"
      { Node.sample with _observed_map := [(⟨"Me.Level", "alice"⟩, "alice_2")] }
      (by simp [StdMap.Sorted])).2.2.2.2 (by decide)⟩

/-! ## Periodic publishing -/

theorem double_shift_small (fuel x : Nat) (hx : x < 2 ^ 53) : double_shift fuel x = 0 := by
  cases fuel with
  | zero => rfl
  | succ fuel => simp only [double_shift, hx, if_true]

theorem to_double_small (x : Nat) (hx : x < 2 ^ 53) : to_double x = x := by
  unfold to_double
  simp only [double_shift_small 11 x hx, if_true]

theorem sub64_of_le (a b : Nat) (hab : b ≤ a) (ha : a < 2 ^ 64) : sub64 a b = a - b := by
  unfold sub64
  have hb : b < 2 ^ 64 := by omega
  rw [Nat.mod_eq_of_lt ha, Nat.mod_eq_of_lt hb]
  have h1 : a + 2 ^ 64 - b = (a - b) + 2 ^ 64 := by omega
  rw [h1, Nat.add_mod_right]
  exact Nat.mod_eq_of_lt (by omega)

theorem mul64_of_lt (a b : Nat) (h : a * b < 2 ^ 64) : mul64 a b = a * b :=
  Nat.mod_eq_of_lt h

/-- C16. When an entry with benchmark `b` is re-broadcast and the measured processing time is
`e`, with `b + e < 2 ^ 53`: the new benchmark is `e` if `b = 0` and the floor of `(b + e) / 2`
otherwise; so for `b > 0` it lies between `min b e` and `max b e`, both included. -/
theorem new_benchmark_average (b e : Nat) (hbe : b + e < 2 ^ 53) :
    new_benchmark b e = (if b = 0 then e else (b + e) / 2)
    ∧ (0 < b → min b e ≤ new_benchmark b e ∧ new_benchmark b e ≤ max b e) := by
  have h64 : add64 b e = b + e := Nat.mod_eq_of_lt (by omega)
  have hval : new_benchmark b e = (if b = 0 then e else (b + e) / 2) := by
    unfold new_benchmark
    rw [h64, to_double_small _ hbe]
  refine ⟨hval, ?_⟩
  intro hb
  have hb0 : ¬ b = 0 := by omega
  rw [hval]
  simp only [hb0, if_false]
  omega

theorem new_benchmark_average_witness :
    100 + 51 < 2 ^ 53
    ∧ new_benchmark 100 51 = 75
    ∧ new_benchmark 0 51 = 51
    ∧ (min 100 51 ≤ new_benchmark 100 51 ∧ new_benchmark 100 51 ≤ max 100 51) :=
  ⟨by decide, by decide, by decide,
    (new_benchmark_average 100 51 (by decide)).2 (by decide)⟩

theorem shouts_append (xs ys : List Effect) : shouts (xs ++ ys) = shouts xs ++ shouts ys := by
  simp [shouts]

/-- What a publish pass relies on: the self-update of `Update::pack` leaves the name of the
node, the actor, the observe delay and the groups alone and sends no `SHOUT`. -/
theorem Update_callback_pass {H : Type} (env : Env) (args : Payload) (n : Node H) :
    (Update_callback env args n).2._actor = n._actor
    ∧ (Update_callback env args n).2._node_name = n._node_name
    ∧ (Update_callback env args n).2._observe_delay = n._observe_delay
    ∧ shouts (Update_callback env args n).2.effects = shouts n.effects := by
  cases h : extract3 env args with
  | none => simp [Update_callback, h]
  | some v =>
    obtain ⟨a, g, d⟩ := v
    simp only [Update_callback, h]
    split
    · unfold update
      split <;> exact ⟨rfl, rfl, rfl, rfl⟩
    · rw [forget, leave_eq]
      refine ⟨rfl, rfl, rfl, ?_⟩
      show shouts (n.effects ++ _) = _
      rw [shouts_append]
      cases n._actor <;> simp [shouts]

theorem publish_eq {H : Type} (g cmd : String) (args : Payload) (m : Node H) :
    publish g cmd args m
      = { m with effects := m.effects
            ++ (if m._actor then [Effect.SHOUT g cmd args] else []) } := by
  cases m
  unfold publish
  split <;> simp_all

theorem shouts_if_shout (c : Bool) (e : Effect) (he : shouts [e] = [e]) :
    shouts (if c then [e] else []) = (if c then [e] else []) := by
  cases c
  · rfl
  · exact he

theorem shout_Update_pass {H : Type} (env : Env) (g q : String) (n : Node H) :
    (shout_Update env g q n)._actor = n._actor
    ∧ (shout_Update env g q n)._node_name = n._node_name
    ∧ (shout_Update env g q n)._observe_delay = n._observe_delay
    ∧ shouts (shout_Update env g q n).effects
      = shouts n.effects
        ++ (if n._actor then [Effect.SHOUT g "Update" (env.put (parse_query env q) [])]
            else []) := by
  have hpack : (Update_pack env g q n).1 = env.put (parse_query env q) [] := by
    unfold Update_pack; split <;> rfl
  have hnode : (Update_pack env g q n).2._actor = n._actor
      ∧ (Update_pack env g q n).2._node_name = n._node_name
      ∧ (Update_pack env g q n).2._observe_delay = n._observe_delay
      ∧ shouts (Update_pack env g q n).2.effects = shouts n.effects := by
    unfold Update_pack
    split
    · exact Update_callback_pass env _ n
    · exact ⟨rfl, rfl, rfl, rfl⟩
  obtain ⟨h1, h2, h3, h4⟩ := hnode
  rw [shout_Update, publish_eq, hpack]
  refine ⟨h1, h2, h3, ?_⟩
  show shouts ((Update_pack env g q n).2.effects ++ _) = _
  rw [shouts_append, h4, h1,
    shouts_if_shout n._actor (Effect.SHOUT g "Update" (env.put (parse_query env q) [])) rfl]

/-- The loop of a publish pass, entry by entry. -/
theorem publish_loop_spec {H : Type} (env : Env) (tick after : Nat → Nat)
    (entries : List (Nat × Query)) :
    ∀ n : Node H,
      (publish_loop env tick after entries n).1
        = entries.map (publish_entry tick after n._observe_delay)
      ∧ (publish_loop env tick after entries n).2.1
        = (entries.filter (fun e => publish_due (tick e.1) n._observe_delay e.2)).map Prod.fst
      ∧ (publish_loop env tick after entries n).2.2._actor = n._actor
      ∧ (publish_loop env tick after entries n).2.2._node_name = n._node_name
      ∧ (publish_loop env tick after entries n).2.2._observe_delay = n._observe_delay
      ∧ shouts (publish_loop env tick after entries n).2.2.effects
        = shouts n.effects
          ++ (if n._actor then
                (entries.filter (fun e => publish_due (tick e.1) n._observe_delay e.2)).map
                  (fun e => Effect.SHOUT (observer_group n e.1) "Update"
                    (env.put (parse_query env e.2.query) []))
              else []) := by
  induction entries with
  | nil =>
    intro n
    simp [publish_loop]
  | cons x rest ih =>
    obtain ⟨key, q⟩ := x
    intro n
    by_cases hdue : publish_due (tick key) n._observe_delay q = true
    · obtain ⟨s1, s2, s3, s4⟩ := shout_Update_pass env (observer_group n key) q.query n
      have hgrp : ∀ k, observer_group (shout_Update env (observer_group n key) q.query n) k
          = observer_group n k := by
        intro k
        show (shout_Update env (observer_group n key) q.query n)._node_name ++ "_"
            ++ init_string (toString k) = n._node_name ++ "_" ++ init_string (toString k)
        rw [s2]
      have hih := ih (shout_Update env (observer_group n key) q.query n)
      simp only [s1, s2, s3, s4, hgrp] at hih
      obtain ⟨i1, i2, i3, i4, i5, i6⟩ := hih
      have hloop : publish_loop env tick after ((key, q) :: rest) n
          = ((key, publish_store (tick key) (after key) q)
              :: (publish_loop env tick after rest
                    (shout_Update env (observer_group n key) q.query n)).1,
            key :: (publish_loop env tick after rest
                    (shout_Update env (observer_group n key) q.query n)).2.1,
            (publish_loop env tick after rest
                    (shout_Update env (observer_group n key) q.query n)).2.2) := by
        simp only [publish_loop, hdue, if_true]
      have hfilter : ((key, q) :: rest).filter
            (fun e => publish_due (tick e.1) n._observe_delay e.2)
          = (key, q) :: rest.filter (fun e => publish_due (tick e.1) n._observe_delay e.2) := by
        simp only [List.filter_cons, hdue, if_true]
      rw [hloop, hfilter]
      refine ⟨?_, ?_, i3, i4, i5, ?_⟩
      · show _ :: _ = _
        rw [i1]
        simp only [List.map_cons, publish_entry, hdue, if_true]
      · show _ :: _ = _
        rw [i2]
        rfl
      · show shouts _ = _
        rw [i6]
        cases n._actor
        · simp
        · simp
    · obtain ⟨i1, i2, i3, i4, i5, i6⟩ := ih n
      have hloop : publish_loop env tick after ((key, q) :: rest) n
          = ((key, q) :: (publish_loop env tick after rest n).1,
            (publish_loop env tick after rest n).2.1,
            (publish_loop env tick after rest n).2.2) := by
        simp only [publish_loop, hdue, if_false, Bool.false_eq_true]
      have hfilter : ((key, q) :: rest).filter
            (fun e => publish_due (tick e.1) n._observe_delay e.2)
          = rest.filter (fun e => publish_due (tick e.1) n._observe_delay e.2) := by
        simp only [List.filter_cons, hdue, if_false, Bool.false_eq_true]
      rw [hloop, hfilter]
      refine ⟨?_, i2, i3, i4, i5, i6⟩
      show _ :: _ = _
      rw [i1]
      simp only [List.map_cons, publish_entry, hdue, if_false, Bool.false_eq_true]

theorem publish_due_iff (tick observe_delay : Nat) (q : Query)
    (hlast : q.last ≤ tick) (htick : tick < 2 ^ 64) (hbench : 10 * q.benchmark < 2 ^ 64) :
    publish_due tick observe_delay q = true
      ↔ max (10 * q.benchmark) observe_delay ≤ tick - q.last := by
  unfold publish_due
  rw [sub64_of_le tick q.last hlast htick, mul64_of_lt 10 q.benchmark hbench]
  exact decide_eq_true_iff

/-- C14 (counterexample). An entry holds benchmark `2 ^ 63` and last `1000`, the observe delay
is 1000, and the pass reaches the entry at clock value `2 ^ 63 + 2000`. The difference
`tick - last` is below `max(10 * benchmark, observe_delay)`, yet the entry is shouted for and
its last becomes the tick: the product `10 * benchmark` wrapped to 0 in 64 bits. -/
theorem publish_wraps_threshold :
    ¬ (max (10 * 2 ^ 63) 1000 ≤ (2 ^ 63 + 2000) - 1000)
    ∧ (publish_Update Env.sample (fun _ => 2 ^ 63 + 2000) (fun _ => 2 ^ 63 + 2050)
        { Node.sample with _observe_delay := 1000,
                           _observer_map := [(1, ⟨"Me.Level", 2 ^ 63, 1000⟩)] }).2 = [1]
    ∧ ((publish_Update Env.sample (fun _ => 2 ^ 63 + 2000) (fun _ => 2 ^ 63 + 2050)
        { Node.sample with _observe_delay := 1000,
                           _observer_map := [(1, ⟨"Me.Level", 2 ^ 63, 1000⟩)] }).1._observer_map.map
          (fun e => e.2.last)) = [2 ^ 63 + 2000] := by
  refine ⟨by decide, by decide, by decide⟩

/-- C14 (amended). One publish pass, the loop reaching the entry of key `k` at clock value
`tick k`. Every entry is left as `publish_entry` says: stored anew (its last becoming the
tick) when it is due, untouched otherwise; the keys shouted for are those of the due entries,
in key order, and with the actor running the `SHOUT` messages sent are exactly those for the
due entries, each to the derived group of its key. An entry is due when
`tick - last >= max(10 * benchmark, observe_delay)` holds in wrapping 64-bit arithmetic; for an
entry with `last <= tick < 2 ^ 64` and `10 * benchmark < 2 ^ 64` that is the plain
inequality. -/
theorem publish_pass {H : Type} (env : Env) (tick after : Nat → Nat) (n : Node H) :
    (publish_Update env tick after n).1._observer_map
      = n._observer_map.map (publish_entry tick after n._observe_delay)
    ∧ (publish_Update env tick after n).2
      = (n._observer_map.filter
          (fun e => publish_due (tick e.1) n._observe_delay e.2)).map Prod.fst
    ∧ shouts (publish_Update env tick after n).1.effects
      = shouts n.effects
        ++ (if n._actor then
              (n._observer_map.filter
                (fun e => publish_due (tick e.1) n._observe_delay e.2)).map
                (fun e => Effect.SHOUT (observer_group n e.1) "Update"
                  (env.put (parse_query env e.2.query) []))
            else [])
    ∧ ∀ e ∈ n._observer_map,
        (publish_due (tick e.1) n._observe_delay e.2 = true →
          (publish_entry tick after n._observe_delay e).1 = e.1
          ∧ (publish_entry tick after n._observe_delay e).2.query = e.2.query
          ∧ (publish_entry tick after n._observe_delay e).2.last = tick e.1)
        ∧ (publish_due (tick e.1) n._observe_delay e.2 = false →
          publish_entry tick after n._observe_delay e = e)
        ∧ (e.2.last ≤ tick e.1 → tick e.1 < 2 ^ 64 → 10 * e.2.benchmark < 2 ^ 64 →
          (publish_due (tick e.1) n._observe_delay e.2 = true
            ↔ max (10 * e.2.benchmark) n._observe_delay ≤ tick e.1 - e.2.last)) := by
  obtain ⟨h1, h2, _, _, _, h6⟩ := publish_loop_spec env tick after n._observer_map n
  refine ⟨h1, h2, h6, ?_⟩
  intro e _
  refine ⟨?_, ?_, ?_⟩
  · intro hdue
    simp only [publish_entry, hdue, if_true, publish_store, and_self]
  · intro hdue
    simp only [publish_entry, hdue, if_false, Bool.false_eq_true]
  · intro hlast htick hbench
    exact publish_due_iff (tick e.1) n._observe_delay e.2 hlast htick hbench

theorem publish_pass_witness :
    ((0 : Nat) ≤ 5000 ∧ (5000 : Nat) < 2 ^ 64 ∧ 10 * 0 < 2 ^ 64)
    ∧ (publish_due 5000 1000 ⟨"Me.Level", 0, 0⟩ = true
        ↔ max (10 * 0) 1000 ≤ 5000 - 0)
    ∧ (publish_Update Env.sample (fun _ => 5000) (fun _ => 5050)
        { Node.sample with
          _observe_delay := 1000,
          _observer_map := [(1, ⟨"Me.Level", 0, 0⟩), (2, ⟨"Me.Name", 600, 100⟩)] }).2 = [1]
    ∧ (publish_Update Env.sample (fun _ => 5000) (fun _ => 5050)
        { Node.sample with
          _observe_delay := 1000,
          _observer_map := [(1, ⟨"Me.Level", 0, 0⟩), (2, ⟨"Me.Name", 600, 100⟩)] }).1._observer_map
      = [(1, ⟨"Me.Level", 50, 5000⟩), (2, ⟨"Me.Name", 600, 100⟩)] :=
  ⟨by decide,
    ((publish_pass Env.sample (fun _ => 5000) (fun _ => 5050)
        { Node.sample with
          _observe_delay := 1000,
          _observer_map := [(1, ⟨"Me.Level", 0, 0⟩), (2, ⟨"Me.Name", 600, 100⟩)] }).2.2.2
      (1, ⟨"Me.Level", 0, 0⟩) (by decide)).2.2 (by decide) (by decide) (by decide),
    by decide, by decide⟩

theorem publish_entry_run_idle (delay : Nat) (q : Query) (passes : List (Nat × Nat))
    (hidle : ∀ p ∈ passes, publish_due p.1 delay q = false) :
    publish_entry_run delay passes q = q := by
  induction passes with
  | nil => rfl
  | cons p passes ih =>
    obtain ⟨t, a⟩ := p
    have h1 : publish_due t delay q = false := hidle (t, a) (by simp)
    have h2 : (publish_entry (fun _ => t) (fun _ => a) delay (0, q)).2 = q := by
      simp only [publish_entry, h1, if_false, Bool.false_eq_true]
    rw [publish_entry_run, h2]
    exact ih (fun p hp => hidle p (List.mem_cons_of_mem _ hp))

/-- C15 (counterexample). The clock never goes back. An entry is first shouted for at tick
1000 and the shout is measured to take `2 ^ 63`, which becomes the benchmark `b`; the next pass
comes at tick `2 ^ 63 + 2000` and the entry is shouted for again. The two broadcasts are
`2 ^ 63 + 1000` apart, which is less than `10 * b` although `b > 100`. -/
theorem publish_spacing_wraps :
    publish_due 1000 1000 ⟨"Me.Level", 0, 0⟩ = true
    ∧ publish_store 1000 (1000 + 2 ^ 63) ⟨"Me.Level", 0, 0⟩ = ⟨"Me.Level", 2 ^ 63, 1000⟩
    ∧ (1000 ≤ 1000 + 2 ^ 63 ∧ 1000 + 2 ^ 63 ≤ 2 ^ 63 + 2000 ∧ 2 ^ 63 + 2000 < 2 ^ 64)
    ∧ publish_due (2 ^ 63 + 2000) 1000
        (publish_store 1000 (1000 + 2 ^ 63) ⟨"Me.Level", 0, 0⟩) = true
    ∧ 100 < (publish_store 1000 (1000 + 2 ^ 63) ⟨"Me.Level", 0, 0⟩).benchmark
    ∧ ¬ (10 * (publish_store 1000 (1000 + 2 ^ 63) ⟨"Me.Level", 0, 0⟩).benchmark
          ≤ (2 ^ 63 + 2000) - 1000)
    ∧ ¬ (max (10 * (publish_store 1000 (1000 + 2 ^ 63) ⟨"Me.Level", 0, 0⟩).benchmark) 1000
          ≤ (2 ^ 63 + 2000) - 1000) := by
  refine ⟨by decide, by decide, by decide, by decide, by decide, by decide, by decide⟩

/-- C15 (amended). An entry is shouted for at tick `t1` (the clock reading `a1` after the
shout), then passes come in which it is not due, then it is shouted for again at tick `t2`,
with `t1 < t2 < 2 ^ 64`. Then `t2 - t1` is at least the observe delay, so at least 1000 when
the delay is 1000; and when `10 * b` is below `2 ^ 64`, for `b` the benchmark stored after the
broadcast at `t1`, then `t2 - t1` is at least `max(10 * b, observe_delay)`, so at least
`10 * b` whenever `b > 100`. -/
theorem publish_spacing (delay : Nat) (q0 : Query) (t1 a1 t2 : Nat)
    (mid : List (Nat × Nat))
    (_hfirst : publish_due t1 delay q0 = true)
    (hmid : ∀ p ∈ mid, publish_due p.1 delay (publish_store t1 a1 q0) = false)
    (hsecond : publish_due t2 delay
      (publish_entry_run delay mid (publish_store t1 a1 q0)) = true)
    (ht : t1 < t2) (ht2 : t2 < 2 ^ 64) :
    delay ≤ t2 - t1
    ∧ (delay = 1000 → 1000 ≤ t2 - t1)
    ∧ (10 * (publish_store t1 a1 q0).benchmark < 2 ^ 64 →
        max (10 * (publish_store t1 a1 q0).benchmark) delay ≤ t2 - t1
        ∧ (100 < (publish_store t1 a1 q0).benchmark →
            10 * (publish_store t1 a1 q0).benchmark ≤ t2 - t1)) := by
  rw [publish_entry_run_idle delay _ mid hmid] at hsecond
  have hlast : (publish_store t1 a1 q0).last = t1 := rfl
  have hsub : sub64 t2 (publish_store t1 a1 q0).last = t2 - t1 := by
    rw [hlast]; exact sub64_of_le t2 t1 (by omega) ht2
  have hcode : max (mul64 10 (publish_store t1 a1 q0).benchmark) delay ≤ t2 - t1 := by
    have h := hsecond
    unfold publish_due at h
    rw [hsub] at h
    exact of_decide_eq_true h
  have hdelay : delay ≤ t2 - t1 := le_trans (le_max_right _ _) hcode
  refine ⟨hdelay, ?_, ?_⟩
  · intro hd; rw [← hd]; exact hdelay
  · intro hb
    rw [mul64_of_lt 10 _ hb] at hcode
    exact ⟨hcode, fun _ => le_trans (le_max_left _ _) hcode⟩

theorem publish_spacing_witness :
    publish_due 1000 1000 ⟨"Me.Level", 0, 0⟩ = true
    ∧ publish_store 1000 1200 ⟨"Me.Level", 0, 0⟩ = ⟨"Me.Level", 200, 1000⟩
    ∧ publish_due 2500 1000 (publish_store 1000 1200 ⟨"Me.Level", 0, 0⟩) = false
    ∧ publish_due 3000 1000
        (publish_entry_run 1000 [(2500, 2500)] (publish_store 1000 1200 ⟨"Me.Level", 0, 0⟩))
      = true
    ∧ max (10 * (publish_store 1000 1200 ⟨"Me.Level", 0, 0⟩).benchmark) 1000 ≤ 3000 - 1000 :=
  ⟨by decide, by decide, by decide, by decide,
    ((publish_spacing 1000 ⟨"Me.Level", 0, 0⟩ 1000 1200 3000 [(2500, 2500)]
      (by decide) (by decide) (by decide) (by decide) (by decide)).2.2 (by decide)).1⟩

/-! ## The actor: a peer exits -/

theorem erase_from_copies_eq (name : String) (peer_groups : List (String × List String)) :
    erase_from_copies name peer_groups = peer_groups := by
  have h : ∀ (l acc : List (String × List String)),
      List.foldl
        (fun groups group =>
          let _group : String × List String := (group.1, StdSet.erase name group.2)
          groups) acc l = acc := by
    intro l
    induction l with
    | nil => intro acc; rfl
    | cons g gs ih => intro acc; exact ih acc
  exact h peer_groups peer_groups

/-- C20 (the code at the failing input). The peer `bob` is connected and is a member of the
group `all`. After the `EXIT` event for `bob`, `peer_address(bob)` is empty, but `_peer_groups`
is what it was and `get_peer_groups(bob)` still answers `all`: the loop of the `EXIT` branch
erases the name from a copy of each entry. -/
theorem exit_keeps_group_membership :
    peer_address "bob"
        (node_actor_event ⟨"EXIT", "bob", "", "", none⟩
          { Node.sample with _connected_peers := [("bob", "uuid-1")],
                             _peer_groups := [("all", ["bob", "carol"])] }).2 = ""
    ∧ (node_actor_event ⟨"EXIT", "bob", "", "", none⟩
          { Node.sample with _connected_peers := [("bob", "uuid-1")],
                             _peer_groups := [("all", ["bob", "carol"])] }).2._peer_groups
      = [("all", ["bob", "carol"])]
    ∧ get_peer_groups "bob"
        (node_actor_event ⟨"EXIT", "bob", "", "", none⟩
          { Node.sample with _connected_peers := [("bob", "uuid-1")],
                             _peer_groups := [("all", ["bob", "carol"])] }).2 = ["all"] := by
  refine ⟨by decide, by decide, by decide⟩

/-! ## Echo -/

theorem popstr_zstr (s : String) : popstr (zstr s) = s := by
  simp [popstr, zstr, Function.comp_def]

theorem codec_sample : Env.sample.Codec := by
  refine ⟨?_, ?_⟩
  · intro s p
    rfl
  · intro s rest
    cases s with
    | mk l =>
      have hlen : l.length ≤ (l.map Char.toNat ++ rest).length := by
        rw [List.length_append, List.length_map]; omega
      have htake : (l.map Char.toNat ++ rest).take l.length = l.map Char.toNat :=
        List.take_left' (List.length_map _ _)
      have hdrop : (l.map Char.toNat ++ rest).drop l.length = rest :=
        List.drop_left' (List.length_map _ _)
      have hback : (l.map Char.toNat).map Char.ofNat = l := by
        rw [List.map_map]
        have : (Char.ofNat ∘ Char.toNat) = id := by
          funext c; exact Char.ofNat_toNat c
        rw [this, List.map_id]
      show (if l.length ≤ (l.map Char.toNat ++ rest).length then
          some (String.mk (((l.map Char.toNat ++ rest).take l.length).map Char.ofNat),
            (l.map Char.toNat ++ rest).drop l.length)
        else none) = some (String.mk l, rest)
      rw [if_pos hlen, htake, hdrop, hback]

theorem node_actor_event_whisper {H : Type} (peer uuid group : String) (message : Zmsg)
    (n : Node H) (hpeer : init_string peer ≠ "") :
    node_actor_event ⟨"WHISPER", peer, uuid, group, some message⟩ n
      = (some (message ++ [zstr (init_string peer)]), n) := by
  have hname : ¬ (init_string peer).isEmpty = true :=
    fun h => hpeer ((String.isEmpty_iff _).mp h)
  have h0 : ¬ ("WHISPER" : String).isEmpty = true := by decide
  have h1 : ¬ ("WHISPER" : String) = "ENTER" := by decide
  have h2 : ¬ ("WHISPER" : String) = "EXIT" := by decide
  have h3 : ¬ ("WHISPER" : String) = "JOIN" := by decide
  have h4 : ¬ ("WHISPER" : String) = "LEAVE" := by decide
  simp only [node_actor_event, hname, h0, h1, h2, h3, h4, if_false, if_true, Bool.false_eq_true]

theorem node_actor_command_forward {H : Type} (env : Env) (command : String) (msg : Zmsg)
    (n : Node H)
    (hword : command ≠ "$TERM" ∧ command ≠ "JOIN" ∧ command ≠ "LEAVE" ∧ command ≠ "SHOUT"
      ∧ command ≠ "WHISPER" ∧ command ≠ "PEER" ∧ command ≠ "PEERS"
      ∧ command ≠ "PEER_GROUPS" ∧ command ≠ "OWN_GROUPS" ∧ command ≠ "PEERS_BY_GROUP"
      ∧ command ≠ "PEER_ADDRESS" ∧ command ≠ "PING" ∧ command ≠ "KEEPALIVE") :
    node_actor_command env (zstr command :: msg) n = node_actor_forward env command msg n := by
  obtain ⟨w1, w2, w3, w4, w5, w6, w7, w8, w9, w10, w11, w12, w13⟩ := hword
  simp only [node_actor_command, popstr_zstr, w1, w2, w3, w4, w5, w6, w7, w8, w9, w10, w11,
    w12, w13, if_false, or_self]

/-- With a lawful Archive, a stream that holds three strings and then `rest` gives the three
strings back in the order they were written. -/
theorem extract3_written (env : Env) (hc : env.Codec) (a b c : String) (rest : Payload) :
    extract3 env (env.put a [] ++ (env.put b [] ++ (env.put c [] ++ rest)))
      = some (a, b, c) := by
  simp only [extract3, hc.2]

theorem put3_eq (env : Env) (hc : env.Codec) (a b c : String) :
    env.put c (env.put b (env.put a []))
      = env.put a [] ++ (env.put b [] ++ (env.put c [] ++ [])) := by
  rw [hc.1 c, hc.1 b]
  simp

/-- C11. The `Echo` handler returns false on every stream, so a queue entry named `Echo` that
`do_next` dispatches while `Echo` is registered leaves `Echo` registered, the registry being
as before. With a lawful Archive, a stream written as `(from, group, text)` is read as those
three fields in that order, which the chat line shows. A `WHISPER` event from a named peer
that carries the command `Echo` and a packed text is forwarded to the pipe with the peer name
added; the actor then queues `Echo` with a stream of the name, the empty group and the text,
and the handler reads exactly that: for a whispered message the group is the empty string. -/
theorem Echo_keeps_registered (env : Env) :
    (∀ (args : Payload) (n : Node Callback), (invoke env Callback.Echo args n).1 = false)
    ∧ (∀ (n : Node Callback) (args : Payload) (rest : List (String × Payload)),
        n._command_queue = ("Echo", args) :: rest →
        StdMap.find "Echo" n._command_map = some Callback.Echo →
        StdMap.find "Echo" (do_next (invoke env) n)._command_map = some Callback.Echo
        ∧ (do_next (invoke env) n)._command_map = n._command_map)
    ∧ (env.Codec → ∀ (from_ group text : String) (n : Node Callback),
        extract3 env (env.put text (env.put group (env.put from_ [])))
          = some (from_, group, text)
        ∧ invoke env Callback.Echo (env.put text (env.put group (env.put from_ []))) n
          = (false, { n with effects := n.effects ++
              [Effect.WriteChatf
                (if group.isEmpty then [from_, text] else [from_, group, text])] }))
    ∧ (env.Codec → ∀ (peer uuid recipient text : String) (n : Node Callback),
        init_string peer ≠ "" →
        n._command_queue = [] →
        StdMap.find "Echo" n._command_map = some Callback.Echo →
        node_actor_event
            ⟨"WHISPER", peer, uuid, "", some [zstr "Echo", Echo_pack env recipient text]⟩ n
          = (some [zstr "Echo", Echo_pack env recipient text, zstr (init_string peer)], n)
        ∧ (node_actor_command env
            [zstr "Echo", Echo_pack env recipient text, zstr (init_string peer)]
            n)._command_queue
          = [("Echo", env.put "" (env.put (init_string peer) []) ++ Echo_pack env recipient text)]
        ∧ extract3 env
            (env.put "" (env.put (init_string peer) []) ++ Echo_pack env recipient text)
          = some (init_string peer, "", text)
        ∧ (do_next (invoke env) (node_actor_command env
            [zstr "Echo", Echo_pack env recipient text, zstr (init_string peer)] n)).effects
          = n.effects ++ [Effect.WriteChatf [init_string peer, text]]
        ∧ StdMap.find "Echo" (do_next (invoke env) (node_actor_command env
            [zstr "Echo", Echo_pack env recipient text, zstr (init_string peer)]
            n))._command_map = some Callback.Echo) := by
  have hfalse : ∀ (args : Payload) (n : Node Callback),
      (invoke env Callback.Echo args n).1 = false := by
    intro args n
    rw [invoke_result]; rfl
  have hkeep : ∀ (n : Node Callback) (args : Payload) (rest : List (String × Payload)),
      n._command_queue = ("Echo", args) :: rest →
      StdMap.find "Echo" n._command_map = some Callback.Echo →
      (do_next (invoke env) n)._command_map = n._command_map := by
    intro n args rest hq hf
    rw [do_next, do_next_call_registered (invoke env) n "Echo" args rest Callback.Echo hq hf,
      hfalse]
    exact (invoke_frame env Callback.Echo args _).1
  have hread : env.Codec → ∀ (a b c : String) (n : Node Callback),
      invoke env Callback.Echo (env.put a [] ++ (env.put b [] ++ (env.put c [] ++ []))) n
        = (false, { n with effects := n.effects ++
            [Effect.WriteChatf (if b.isEmpty then [a, c] else [a, b, c])] }) := by
    intro hc a b c n
    simp only [invoke, Echo_callback, extract3_written env hc]
  refine ⟨hfalse, ?_, ?_, ?_⟩
  · intro n args rest hq hf
    have h := hkeep n args rest hq hf
    exact ⟨by rw [h]; exact hf, h⟩
  · intro hc from_ group text n
    rw [put3_eq env hc]
    exact ⟨extract3_written env hc _ _ _ _, hread hc _ _ _ n⟩
  · intro hc peer uuid recipient text n hpeer hq hf
    have hstream : env.put "" (env.put (init_string peer) []) ++ Echo_pack env recipient text
        = env.put (init_string peer) [] ++ (env.put "" [] ++ (env.put text [] ++ [])) := by
      rw [hc.1 "", Echo_pack]
      simp
    have hcmd : node_actor_command env
        [zstr "Echo", Echo_pack env recipient text, zstr (init_string peer)] n
        = queue_command "Echo"
            (env.put "" (env.put (init_string peer) []) ++ Echo_pack env recipient text) n := by
      rw [node_actor_command_forward env "Echo" _ n (by decide)]
      simp [node_actor_forward, popstr_zstr]
    have hqueue : (queue_command "Echo"
        (env.put "" (env.put (init_string peer) []) ++ Echo_pack env recipient text)
        n)._command_queue
        = [("Echo", env.put "" (env.put (init_string peer) []) ++ Echo_pack env recipient text)] := by
      simp [queue_command, hq]
    have hdo : do_next (invoke env) (queue_command "Echo"
          (env.put "" (env.put (init_string peer) []) ++ Echo_pack env recipient text) n)
        = (invoke env Callback.Echo
            (env.put "" (env.put (init_string peer) []) ++ Echo_pack env recipient text)
            { queue_command "Echo"
                (env.put "" (env.put (init_string peer) []) ++ Echo_pack env recipient text) n
              with _command_queue := [] }).2 := by
      rw [do_next, do_next_call_registered (invoke env) _ "Echo" _ [] Callback.Echo hqueue hf,
        hfalse]
      rfl
    refine ⟨?_, ?_, ?_, ?_, ?_⟩
    · exact node_actor_event_whisper peer uuid "" _ n hpeer
    · rw [hcmd, hqueue]
    · rw [hstream]; exact extract3_written env hc _ _ _ _
    · rw [hcmd, hdo, hstream, hread hc]
      rfl
    · rw [hcmd]
      exact (hkeep _ _ [] hqueue hf).symm ▸ hf

theorem Echo_keeps_registered_witness :
    Env.sample.Codec
    ∧ init_string "Bob" ≠ ""
    ∧ Node.sample._command_queue = []
    ∧ StdMap.find "Echo" Node.sample._command_map = some Callback.Echo
    ∧ (do_next (invoke Env.sample) (node_actor_command Env.sample
        [zstr "Echo", Echo_pack Env.sample "alice" "hi", zstr (init_string "Bob")]
        Node.sample)).effects
      = Node.sample.effects ++ [Effect.WriteChatf [init_string "Bob", "hi"]]
    ∧ init_string "Bob" = "bob" :=
  ⟨codec_sample, by decide, rfl, by decide,
    ((Echo_keeps_registered Env.sample).2.2.2 codec_sample "Bob" "uuid-1" "alice" "hi"
      Node.sample (by decide) rfl (by decide)).2.2.2.1,
    by decide⟩

/-! ## The actor: groups without members -/

theorem StdSet.insert_nonempty {κ : Type} [Compare κ] [DecidableEq κ] (k : κ) (s : List κ) :
    StdSet.insert k s ≠ [] := by
  cases s with
  | nil => simp [StdSet.insert]
  | cons a s =>
    unfold StdSet.insert
    split
    · simp
    · split <;> simp

theorem StdMap.mem_of_mem_erase {κ α : Type} [DecidableEq κ] (k : κ) (m : List (κ × α))
    (e : κ × α) (he : e ∈ StdMap.erase k m) : e ∈ m ∧ e.1 ≠ k := by
  induction m with
  | nil => simp [StdMap.erase] at he
  | cons x m ih =>
    obtain ⟨a, b⟩ := x
    by_cases h1 : a = k
    · rw [StdMap.erase, if_pos h1] at he
      exact ⟨List.mem_cons_of_mem _ (ih he).1, (ih he).2⟩
    · rw [StdMap.erase, if_neg h1] at he
      rcases List.mem_cons.mp he with h | h
      · subst h
        exact ⟨List.mem_cons_self _ _, h1⟩
      · exact ⟨List.mem_cons_of_mem _ (ih h).1, (ih h).2⟩

theorem node_actor_event_peer_groups {H : Type} (ev : ZyreEvent) (n : Node H)
    (h : ∀ group ∈ n._peer_groups, group.2 ≠ []) :
    ∀ group ∈ (node_actor_event ev n).2._peer_groups, group.2 ≠ [] := by
  unfold node_actor_event
  simp only []
  by_cases h1 : ev.event_type.isEmpty = true
  · rw [if_pos h1]; exact h
  rw [if_neg h1]
  by_cases h2 : (init_string ev.peer_name).isEmpty = true
  · rw [if_pos h2]; exact h
  rw [if_neg h2]
  by_cases h3 : ev.event_type = "ENTER"
  · rw [if_pos h3]
    by_cases h4 : (init_string ev.peer_uuid).isEmpty = true
    · rw [if_pos h4]; exact h
    · rw [if_neg h4]; exact h
  rw [if_neg h3]
  by_cases h5 : ev.event_type = "EXIT"
  · rw [if_pos h5]
    show ∀ group ∈ erase_from_copies (init_string ev.peer_name) n._peer_groups, group.2 ≠ []
    rw [erase_from_copies_eq]; exact h
  rw [if_neg h5]
  by_cases h6 : ev.event_type = "JOIN"
  · rw [if_pos h6]
    by_cases h7 : (init_string ev.group).isEmpty = true
    · rw [if_pos h7]; exact h
    · rw [if_neg h7]
      intro group hg
      rcases StdMap.mem_assign _ _ _ _ hg with he | he
      · rw [he]; exact StdSet.insert_nonempty (init_string ev.peer_name) _
      · exact h group he
  rw [if_neg h6]
  by_cases h8 : ev.event_type = "LEAVE"
  · rw [if_pos h8]
    by_cases h9 : (init_string ev.group).isEmpty = true
    · rw [if_pos h9]; exact h
    · rw [if_neg h9]
      split
      · rename_i peers hfind
        by_cases h10 : (StdSet.erase (init_string ev.peer_name) peers).isEmpty = true
        · rw [if_pos h10]
          intro group hg
          exact h group (StdMap.mem_of_mem_erase _ _ _ hg).1
        · rw [if_neg h10]
          intro group hg
          rcases StdMap.mem_assign _ _ _ _ hg with he | he
          · rw [he]
            intro hnil
            apply h10
            have hnil2 : StdSet.erase (init_string ev.peer_name) peers = [] := hnil
            rw [hnil2]; rfl
          · exact h group he
      · exact h
  rw [if_neg h8]
  by_cases h11 : ev.event_type = "WHISPER"
  · rw [if_pos h11]
    split <;> exact h
  rw [if_neg h11]
  by_cases h12 : ev.event_type = "SHOUT"
  · rw [if_pos h12]
    by_cases h13 : (init_string ev.group).isEmpty = true
    · rw [if_pos h13]; exact h
    · rw [if_neg h13]
      split <;> exact h
  rw [if_neg h12]
  exact h

theorem node_actor_command_peer_groups {H : Type} (env : Env) (message : Zmsg) (n : Node H) :
    (node_actor_command env message n)._peer_groups = n._peer_groups := by
  unfold node_actor_command
  split
  · rfl
  · simp only []
    split_ifs <;> first | rfl | (split <;> first | rfl | (split_ifs <;> rfl))

theorem node_actor_turn_peer_groups {H : Type} (env : Env) (turn : Turn) (n : Node H)
    (h : ∀ group ∈ n._peer_groups, group.2 ≠ []) :
    ∀ group ∈ (node_actor_turn env turn n)._peer_groups, group.2 ≠ [] := by
  cases turn with
  | pipe message =>
    show ∀ group ∈ (node_actor_command env message n)._peer_groups, group.2 ≠ []
    rw [node_actor_command_peer_groups]; exact h
  | event ev => exact node_actor_event_peer_groups ev n h

/-- C21. Starting from an empty `_peer_groups`, after any turns of the actor loop, zyre events
of every type and pipe messages alike, no group in `_peer_groups` has an empty member set. -/
theorem peer_groups_have_members {H : Type} (env : Env) (turns : List Turn) (n : Node H)
    (h0 : n._peer_groups = []) :
    ∀ group ∈ (node_actor_turns env turns n)._peer_groups, group.2 ≠ [] := by
  have hinv : ∀ (turns : List Turn) (m : Node H), (∀ group ∈ m._peer_groups, group.2 ≠ []) →
      ∀ group ∈ (node_actor_turns env turns m)._peer_groups, group.2 ≠ [] := by
    intro turns
    induction turns with
    | nil => intro m hm; exact hm
    | cons turn turns ih =>
      intro m hm
      exact ih _ (node_actor_turn_peer_groups env turn m hm)
  apply hinv
  rw [h0]
  intro group hg
  cases hg

theorem peer_groups_have_members_witness :
    Node.sample._peer_groups = []
    ∧ (∀ group ∈ (node_actor_turns Env.sample
          [Turn.event ⟨"JOIN", "bob", "", "all", none⟩,
           Turn.event ⟨"JOIN", "carol", "", "all", none⟩,
           Turn.event ⟨"JOIN", "bob", "", "raid", none⟩,
           Turn.event ⟨"LEAVE", "bob", "", "raid", none⟩,
           Turn.event ⟨"EXIT", "carol", "", "", none⟩]
          Node.sample)._peer_groups, group.2 ≠ [])
    ∧ (node_actor_turns Env.sample
          [Turn.event ⟨"JOIN", "bob", "", "all", none⟩,
           Turn.event ⟨"JOIN", "carol", "", "all", none⟩,
           Turn.event ⟨"JOIN", "bob", "", "raid", none⟩,
           Turn.event ⟨"LEAVE", "bob", "", "raid", none⟩,
           Turn.event ⟨"EXIT", "carol", "", "", none⟩]
          Node.sample)._peer_groups = [("all", ["bob", "carol"])] :=
  ⟨rfl, peer_groups_have_members Env.sample _ Node.sample rfl, by decide⟩

/-! ## The actor: events without a peer name or a group -/

theorem init_string_empty : init_string "" = "" := rfl

/-- C22. A zyre event whose peer name is empty, a `JOIN`, `LEAVE` or `SHOUT` event whose group
is empty, and an `ENTER` event whose uuid is empty, each leave the whole node as it was (so
`_connected_peers`, `_peer_groups`, `_own_groups`, both callback lists and the command queue
among the rest), send no message to the pipe and call no callback. -/
theorem event_without_name_or_group {H : Type} (ev : ZyreEvent) (n : Node H)
    (h : ev.peer_name = ""
      ∨ ((ev.event_type = "JOIN" ∨ ev.event_type = "LEAVE" ∨ ev.event_type = "SHOUT")
          ∧ ev.group = "")
      ∨ (ev.event_type = "ENTER" ∧ ev.peer_uuid = "")) :
    node_actor_event ev n = (none, n) ∧ node_actor_event_calls ev n = [] := by
  have hempty : (init_string "").isEmpty = true := rfl
  by_cases h1 : ev.event_type.isEmpty = true
  · simp only [node_actor_event, node_actor_event_calls, h1, if_true, ite_self, and_self]
  by_cases h2 : (init_string ev.peer_name).isEmpty = true
  · simp only [node_actor_event, node_actor_event_calls, h1, h2, if_true, if_false, ite_self, Bool.false_eq_true, and_self]
  rcases h with h | ⟨ht, hg⟩ | ⟨ht, hu⟩
  · rw [h] at h2
    exact absurd hempty h2
  · rcases ht with ht | ht | ht
    · have e1 : ¬ ("JOIN" : String) = "ENTER" := by decide
      have e2 : ¬ ("JOIN" : String) = "EXIT" := by decide
      simp only [node_actor_event, node_actor_event_calls, h1, h2, ht, hg, hempty, e1, e2,
        if_true, if_false, ite_self, Bool.false_eq_true, and_self]
    · have e1 : ¬ ("LEAVE" : String) = "ENTER" := by decide
      have e2 : ¬ ("LEAVE" : String) = "EXIT" := by decide
      have e3 : ¬ ("LEAVE" : String) = "JOIN" := by decide
      simp only [node_actor_event, node_actor_event_calls, h1, h2, ht, hg, hempty, e1, e2, e3,
        if_true, if_false, ite_self, Bool.false_eq_true, and_self]
    · have e1 : ¬ ("SHOUT" : String) = "ENTER" := by decide
      have e2 : ¬ ("SHOUT" : String) = "EXIT" := by decide
      have e3 : ¬ ("SHOUT" : String) = "JOIN" := by decide
      have e4 : ¬ ("SHOUT" : String) = "LEAVE" := by decide
      have e5 : ¬ ("SHOUT" : String) = "WHISPER" := by decide
      simp only [node_actor_event, node_actor_event_calls, h1, h2, ht, hg, hempty, e1, e2, e3,
        e4, e5, if_true, if_false, ite_self, Bool.false_eq_true, and_self]
  · have e3 : ¬ ("ENTER" : String) = "JOIN" := by decide
    have e4 : ¬ ("ENTER" : String) = "LEAVE" := by decide
    simp only [node_actor_event, node_actor_event_calls, h1, h2, ht, hu, hempty, e3, e4,
      if_true, if_false, ite_self, Bool.false_eq_true, and_self]

theorem event_without_name_or_group_witness :
    (node_actor_event ⟨"JOIN", "bob", "uuid-1", "", none⟩
        { Node.sample with _join_callbacks := [fun _ _ => true],
                           _peer_groups := [("all", ["carol"])] }).1 = none
    ∧ (node_actor_event ⟨"JOIN", "bob", "uuid-1", "", none⟩
        { Node.sample with _join_callbacks := [fun _ _ => true],
                           _peer_groups := [("all", ["carol"])] }).2._peer_groups
      = [("all", ["carol"])]
    ∧ (node_actor_event_calls ⟨"JOIN", "bob", "uuid-1", "", none⟩
        { Node.sample with _join_callbacks := [fun _ _ => true],
                           _peer_groups := [("all", ["carol"])] }).length = 0
    ∧ (node_actor_event_calls ⟨"JOIN", "bob", "uuid-1", "all", none⟩
        { Node.sample with _join_callbacks := [fun _ _ => true],
                           _peer_groups := [("all", ["carol"])] }).length = 1 :=
  ⟨congrArg Prod.fst (event_without_name_or_group ⟨"JOIN", "bob", "uuid-1", "", none⟩
      { Node.sample with _join_callbacks := [fun _ _ => true],
                         _peer_groups := [("all", ["carol"])] }
      (Or.inr (Or.inl ⟨Or.inl rfl, rfl⟩))).1,
    by decide, by decide, by decide⟩

/-! ## The actor: command words that come from the network -/

/-- C23 (the code at the failing input). The peer `bob` whispers a message whose command frame
is the word `JOIN` and whose body is `secret`. The `WHISPER` branch sends the message to the
pipe with the peer name added, and the pipe branch takes its first frame for the command
`JOIN`: `secret` enters `_own_groups`, zyre is told to join it, and nothing is queued. A
command frame `$TERM` ends the loop the same way: `_own_groups` is cleared and zyre is
stopped. -/
theorem whispered_word_is_obeyed :
    (node_actor_event ⟨"WHISPER", "bob", "uuid-1", "", some [zstr "JOIN", zstr "secret"]⟩
        Node.sample)
      = (some [zstr "JOIN", zstr "secret", zstr "bob"], Node.sample)
    ∧ Node.sample._own_groups = []
    ∧ Node.sample.effects = []
    ∧ (node_actor_command Env.sample [zstr "JOIN", zstr "secret", zstr "bob"]
        Node.sample)._own_groups = ["secret"]
    ∧ (node_actor_command Env.sample [zstr "JOIN", zstr "secret", zstr "bob"]
        Node.sample).effects = [Effect.zyre_join "secret"]
    ∧ (node_actor_command Env.sample [zstr "JOIN", zstr "secret", zstr "bob"]
        Node.sample)._command_queue = []
    ∧ (node_actor_event ⟨"WHISPER", "bob", "uuid-1", "", some [zstr "$TERM", []]⟩
        { Node.sample with _own_groups := ["all"] }).1
      = some [zstr "$TERM", [], zstr "bob"]
    ∧ node_actor_command Env.sample [zstr "$TERM", [], zstr "bob"]
        { Node.sample with _own_groups := ["all"] }
      = node_actor_stop { Node.sample with _own_groups := ["all"] }
    ∧ (node_actor_command Env.sample [zstr "$TERM", [], zstr "bob"]
        { Node.sample with _own_groups := ["all"] })._own_groups = []
    ∧ (node_actor_command Env.sample [zstr "$TERM", [], zstr "bob"]
        { Node.sample with _own_groups := ["all"] })._command_queue = [] := by
  refine ⟨?_, by decide, by decide, by decide, by decide, by decide, by decide, ?_, by decide,
    by decide⟩
  · exact node_actor_event_whisper "bob" "uuid-1" "" _ Node.sample (by decide)
  · rfl

/-! ## Decimal names of keys -/

theorem digitChar_value (k : Nat) (hk : k < 10) : (Nat.digitChar k).toNat - 48 = k := by
  interval_cases k <;> decide

theorem digitChar_toLower (k : Nat) (hk : k < 10) :
    Char.toLower (Nat.digitChar k) = Nat.digitChar k := by
  interval_cases k <;> decide

theorem toDigitsCore_value : ∀ (fuel n : Nat) (ds : List Char), n < fuel →
    List.foldl (fun a c => 10 * a + (Char.toNat c - 48)) 0 (Nat.toDigitsCore 10 fuel n ds)
      = List.foldl (fun a c => 10 * a + (Char.toNat c - 48)) n ds := by
  intro fuel
  induction fuel with
  | zero => intro n ds h; omega
  | succ fuel ih =>
    intro n ds h
    unfold Nat.toDigitsCore
    simp only []
    by_cases h0 : n / 10 = 0
    · rw [if_pos h0]
      have hn : n < 10 := by omega
      simp only [List.foldl_cons, Nat.mul_zero, Nat.zero_add]
      rw [Nat.mod_eq_of_lt hn, digitChar_value n hn]
    · rw [if_neg h0, ih (n / 10) _ (by omega)]
      simp only [List.foldl_cons]
      rw [digitChar_value (n % 10) (Nat.mod_lt _ (by decide))]
      congr 1
      omega

theorem toDigitsCore_lower : ∀ (fuel n : Nat) (ds : List Char),
    (∀ c ∈ ds, Char.toLower c = c) →
    ∀ c ∈ Nat.toDigitsCore 10 fuel n ds, Char.toLower c = c := by
  intro fuel
  induction fuel with
  | zero => intro n ds h; exact h
  | succ fuel ih =>
    intro n ds h
    have hcons : ∀ c ∈ Nat.digitChar (n % 10) :: ds, Char.toLower c = c := by
      intro c hc
      rcases List.mem_cons.mp hc with hc | hc
      · rw [hc]; exact digitChar_toLower _ (Nat.mod_lt _ (by decide))
      · exact h c hc
    unfold Nat.toDigitsCore
    simp only []
    by_cases h0 : n / 10 = 0
    · rw [if_pos h0]; exact hcons
    · rw [if_neg h0]; exact ih _ _ hcons

/-- The decimal numeral of a key has no letter to put in lower case. -/
theorem init_string_decimal (k : Nat) : init_string (toString k) = toString k := by
  show String.mk ((Nat.toDigits 10 k).map Char.toLower) = String.mk (Nat.toDigits 10 k)
  congr 1
  have h := toDigitsCore_lower (k + 1) k [] (fun c hc => by cases hc)
  calc (Nat.toDigits 10 k).map Char.toLower
      = (Nat.toDigits 10 k).map id := List.map_congr_left h
    _ = Nat.toDigits 10 k := List.map_id _

theorem decimal_injective (a b : Nat) (h : toString a = toString b) : a = b := by
  have hd : Nat.toDigits 10 a = Nat.toDigits 10 b := by
    have h2 : String.mk (Nat.toDigits 10 a) = String.mk (Nat.toDigits 10 b) := h
    exact congrArg String.data h2
  have ha := toDigitsCore_value (a + 1) a [] (Nat.lt_succ_self a)
  have hb := toDigitsCore_value (b + 1) b [] (Nat.lt_succ_self b)
  simp only [List.foldl_nil] at ha hb
  have hd2 : Nat.toDigitsCore 10 (a + 1) a [] = Nat.toDigitsCore 10 (b + 1) b [] := hd
  rw [hd2] at ha
  exact ha.symm.trans hb

theorem observer_group_decimal {H : Type} (n : Node H) (key : Nat) :
    observer_group n key = n._node_name ++ "_" ++ toString key := by
  rw [observer_group, init_string_decimal]

theorem observer_group_injective {H : Type} (n : Node H) (a b : Nat)
    (h : observer_group n a = observer_group n b) : a = b := by
  rw [observer_group_decimal, observer_group_decimal] at h
  apply decimal_injective
  have h2 := congrArg String.data h
  simp only [String.data_append] at h2
  exact String.ext (List.append_cancel_left h2)

/-! ## The observer map under `register_observer` and `unregister_observer` -/

theorem find_observer_eq_none_iff (query : String) (m : List (Nat × Query)) :
    find_observer query m = none ↔ ∀ e ∈ m, e.2.query ≠ query := by
  induction m with
  | nil => simp [find_observer]
  | cons x m ih =>
    obtain ⟨a, q⟩ := x
    by_cases h : q.query = query
    · simp [find_observer, h]
    · simp [find_observer, h, ih]

theorem find_observer_some (query : String) (key : Nat) (m : List (Nat × Query))
    (h : find_observer query m = some key) : ∃ q, (key, q) ∈ m ∧ q.query = query := by
  induction m with
  | nil => simp [find_observer] at h
  | cons x m ih =>
    obtain ⟨a, q⟩ := x
    by_cases hq : q.query = query
    · simp only [find_observer, hq, if_true, Option.some.injEq] at h
      exact ⟨q, by rw [h]; exact List.mem_cons_self _ _, hq⟩
    · simp only [find_observer, hq, if_false] at h
      obtain ⟨q2, hmem, hq2⟩ := ih h
      exact ⟨q2, List.mem_cons_of_mem _ hmem, hq2⟩

theorem StdMap.erase_sublist {κ α : Type} [DecidableEq κ] (k : κ) (m : List (κ × α)) :
    List.Sublist (StdMap.erase k m) m := by
  induction m with
  | nil => simp [StdMap.erase]
  | cons x m ih =>
    obtain ⟨a, b⟩ := x
    by_cases h1 : a = k
    · rw [StdMap.erase, if_pos h1]
      exact List.Sublist.cons _ ih
    · rw [StdMap.erase, if_neg h1]
      exact List.Sublist.cons₂ _ ih

theorem StdMap.sorted_erase {κ α : Type} [Compare κ] [DecidableEq κ] (k : κ)
    (m : List (κ × α)) (hm : StdMap.Sorted m) : StdMap.Sorted (StdMap.erase k m) :=
  List.Pairwise.sublist ((StdMap.erase_sublist k m).map Prod.fst) hm

theorem distinct_queries_erase (k : Nat) (m : List (Nat × Query)) (hm : DistinctQueries m) :
    DistinctQueries (StdMap.erase k m) :=
  List.Nodup.sublist ((StdMap.erase_sublist k m).map _) hm

theorem distinct_queries_assign (k : Nat) (v : Query) (m : List (Nat × Query))
    (hm : DistinctQueries m) (hv : ∀ e ∈ m, e.2.query ≠ v.query) :
    DistinctQueries (StdMap.assign k v m) := by
  induction m with
  | nil => simp [StdMap.assign, DistinctQueries]
  | cons x m ih =>
    obtain ⟨a, b⟩ := x
    have hm' : b.query ∉ m.map (fun e => e.2.query) ∧ DistinctQueries m := by
      simpa [DistinctQueries] using hm
    have hvm : ∀ e ∈ m, e.2.query ≠ v.query := fun e he => hv e (List.mem_cons_of_mem _ he)
    have hvb : b.query ≠ v.query := hv (a, b) (List.mem_cons_self _ _)
    have hvnot : v.query ∉ m.map (fun e => e.2.query) := by
      intro hmem
      obtain ⟨e, he, heq⟩ := List.mem_map.mp hmem
      exact hvm e he heq
    by_cases h1 : a = k
    · subst h1
      rw [StdMap.assign_cons_eq]
      show (v.query :: m.map (fun e => e.2.query)).Nodup
      exact List.nodup_cons.mpr ⟨hvnot, hm'.2⟩
    · by_cases h2 : Compare.lt k a = true
      · rw [StdMap.assign_cons_lt k a v b m h1 h2]
        show (v.query :: b.query :: m.map (fun e => e.2.query)).Nodup
        refine List.nodup_cons.mpr ⟨?_, hm⟩
        intro hmem
        rcases List.mem_cons.mp hmem with h | h
        · exact hvb h.symm
        · exact hvnot h
      · rw [StdMap.assign_cons_gt k a v b m h1 h2]
        show (b.query :: (StdMap.assign k v m).map (fun e => e.2.query)).Nodup
        refine List.nodup_cons.mpr ⟨?_, ih hm'.2 hvm⟩
        intro hmem
        obtain ⟨e, he, heq⟩ := List.mem_map.mp hmem
        rcases StdMap.mem_assign k v m e he with h | h
        · rw [h] at heq
          exact hvb heq.symm
        · exact hm'.1 (List.mem_map.mpr ⟨e, h, heq⟩)

theorem register_observer_inv {H : Type} (env : Env) (name query : String) (n : Node H)
    (h : StdMap.Sorted n._observer_map ∧ DistinctQueries n._observer_map) :
    StdMap.Sorted (register_observer env name query n).2._observer_map
      ∧ DistinctQueries (register_observer env name query n).2._observer_map := by
  cases hf : find_observer query n._observer_map with
  | some key =>
    simp only [register_observer, hf]
    exact h
  | none =>
    simp only [register_observer, hf]
    exact ⟨StdMap.sorted_assign lawful_nat _ _ _ h.1,
      distinct_queries_assign _ _ _ h.2 ((find_observer_eq_none_iff query _).mp hf)⟩

theorem unregister_observer_inv {H : Type} (query : String) (n : Node H)
    (h : StdMap.Sorted n._observer_map ∧ DistinctQueries n._observer_map) :
    StdMap.Sorted (unregister_observer query n)._observer_map
      ∧ DistinctQueries (unregister_observer query n)._observer_map := by
  cases hf : find_observer query n._observer_map with
  | some key =>
    simp only [unregister_observer, hf]
    exact ⟨StdMap.sorted_erase _ _ h.1, distinct_queries_erase _ _ h.2⟩
  | none =>
    simp only [unregister_observer, hf]
    exact h

theorem observer_calls_inv {H : Type} (env : Env) (calls : List ObserverCall) :
    ∀ (n : Node H), StdMap.Sorted n._observer_map ∧ DistinctQueries n._observer_map →
      StdMap.Sorted (observer_calls env calls n)._observer_map
        ∧ DistinctQueries (observer_calls env calls n)._observer_map := by
  induction calls with
  | nil => intro n h; exact h
  | cons call calls ih =>
    intro n h
    cases call with
    | register name query => exact ih _ (register_observer_inv env name query n h)
    | unregister query => exact ih _ (unregister_observer_inv query n h)

theorem unregister_observer_removes {H : Type} (query : String) (n : Node H)
    (h : StdMap.Sorted n._observer_map ∧ DistinctQueries n._observer_map) :
    ∀ e ∈ (unregister_observer query n)._observer_map, e.2.query ≠ query := by
  cases hf : find_observer query n._observer_map with
  | none =>
    simp only [unregister_observer, hf]
    exact (find_observer_eq_none_iff query _).mp hf
  | some key =>
    simp only [unregister_observer, hf]
    intro e he heq
    obtain ⟨hmem, hne⟩ := StdMap.mem_of_mem_erase _ _ _ he
    obtain ⟨q, hq, hqq⟩ := find_observer_some query key _ hf
    have hsame : e = (key, q) :=
      List.inj_on_of_nodup_map h.2 hmem hq (heq.trans hqq.symm)
    exact hne (by rw [hsame])

theorem register_observer_registered {H : Type} (env : Env) (name query : String) (n : Node H)
    (hreg : ∃ e ∈ n._observer_map, e.2.query = query) :
    ∃ key q, (key, q) ∈ n._observer_map ∧ q.query = query
      ∧ (register_observer env name query n).1 = observer_group n key := by
  cases hf : find_observer query n._observer_map with
  | none =>
    obtain ⟨e, he, heq⟩ := hreg
    exact absurd heq ((find_observer_eq_none_iff query _).mp hf e he)
  | some key =>
    obtain ⟨q, hq, hqq⟩ := find_observer_some query key _ hf
    exact ⟨key, q, hq, hqq, by simp only [register_observer, hf]⟩

/-- On a non-empty observer map `register_observer` does not depend on what a read of the
empty map would give. -/
theorem register_observer_of_nonempty {H : Type} (env env2 : Env) (name query : String)
    (n : Node H) (hne : n._observer_map ≠ []) :
    register_observer env2 name query n = register_observer env name query n := by
  unfold register_observer
  cases hl : n._observer_map.getLast? with
  | none => exact absurd (List.getLast?_eq_none_iff.mp hl) hne
  | some x => rfl

theorem observer_calls_of_defined {H : Type} (env env2 : Env) (calls : List ObserverCall) :
    ∀ (n : Node H), observer_calls_defined env calls n = true →
      observer_calls env2 calls n = observer_calls env calls n := by
  induction calls with
  | nil => intro n _; rfl
  | cons call calls ih =>
    intro n hdef
    cases call with
    | register name query =>
      simp only [observer_calls_defined, Bool.and_eq_true, Bool.not_eq_true',
        List.isEmpty_eq_false] at hdef
      have hne : n._observer_map ≠ [] := by
        intro h
        rw [h] at hdef
        simp at hdef
      simp only [observer_calls]
      rw [register_observer_of_nonempty env env2 name query n hne]
      exact ih _ hdef.2
    | unregister query =>
      simp only [observer_calls_defined] at hdef
      simp only [observer_calls]
      exact ih _ hdef

/-- C25. From an observer map whose keys ascend strictly and whose entries hold different
query strings, after any calls of `register_observer` and `unregister_observer` of which
each `register_observer` finds the map non-empty (so that no call reads `crbegin()` of an
empty map): the keys of the map ascend strictly and no two entries hold the same query
string; after `unregister_observer(Q)` no entry holds `Q`; and for two different queries that
both have an entry, `register_observer` returns two different group names. Nothing in the
run depends on what a read of an empty map would give. -/
theorem observer_map_queries_distinct {H : Type} (env : Env) (calls : List ObserverCall)
    (n : Node H) (hinit : StdMap.Sorted n._observer_map ∧ DistinctQueries n._observer_map)
    (hdef : observer_calls_defined env calls n = true) :
    StdMap.Sorted (observer_calls env calls n)._observer_map
    ∧ (∀ e1 ∈ (observer_calls env calls n)._observer_map,
        ∀ e2 ∈ (observer_calls env calls n)._observer_map,
          e1.2.query = e2.2.query → e1.1 = e2.1)
    ∧ (∀ (Q : String),
        ∀ e ∈ (unregister_observer Q (observer_calls env calls n))._observer_map,
          e.2.query ≠ Q)
    ∧ (∀ (S1 S2 Q1 Q2 : String), Q1 ≠ Q2 →
        (∃ e ∈ (observer_calls env calls n)._observer_map, e.2.query = Q1) →
        (∃ e ∈ (observer_calls env calls n)._observer_map, e.2.query = Q2) →
        (register_observer env S1 Q1 (observer_calls env calls n)).1
          ≠ (register_observer env S2 Q2 (observer_calls env calls n)).1)
    ∧ (∀ env2 : Env, observer_calls env2 calls n = observer_calls env calls n) := by
  have hinv := observer_calls_inv env calls n hinit
  refine ⟨hinv.1, ?_, ?_, ?_, fun env2 => observer_calls_of_defined env env2 calls n hdef⟩
  · intro e1 h1 e2 h2 heq
    rw [List.inj_on_of_nodup_map hinv.2 h1 h2 heq]
  · intro Q
    exact unregister_observer_removes Q _ hinv
  · intro S1 S2 Q1 Q2 hne hr1 hr2 hsame
    obtain ⟨k1, q1, hm1, hq1, hg1⟩ := register_observer_registered env S1 Q1 _ hr1
    obtain ⟨k2, q2, hm2, hq2, hg2⟩ := register_observer_registered env S2 Q2 _ hr2
    rw [hg1, hg2] at hsame
    have hk : k1 = k2 := observer_group_injective _ k1 k2 hsame
    subst hk
    have hq : q1 = q2 := StdMap.sorted_unique lawful_nat _ hinv.1 k1 q1 q2 hm1 hm2
    exact hne (by rw [← hq1, ← hq2, hq])

theorem observer_map_queries_distinct_witness :
    (StdMap.Sorted
        ({ Node.sample with _observer_map := [(1, ⟨"Me.Level", 0, 0⟩)] } : Node Callback)._observer_map
      ∧ DistinctQueries
        ({ Node.sample with _observer_map := [(1, ⟨"Me.Level", 0, 0⟩)] } : Node Callback)._observer_map)
    ∧ observer_calls_defined Env.sample
        [ObserverCall.register "bob" "Me.Name", ObserverCall.register "bob" "Me.Class",
         ObserverCall.unregister "Me.Name", ObserverCall.register "carol" "Me.Race"]
        { Node.sample with _observer_map := [(1, ⟨"Me.Level", 0, 0⟩)] } = true
    ∧ (observer_calls Env.sample
        [ObserverCall.register "bob" "Me.Name", ObserverCall.register "bob" "Me.Class",
         ObserverCall.unregister "Me.Name", ObserverCall.register "carol" "Me.Race"]
        { Node.sample with _observer_map := [(1, ⟨"Me.Level", 0, 0⟩)] })._observer_map
      = [(1, ⟨"Me.Level", 0, 0⟩), (3, ⟨"Me.Class", 0, 0⟩), (4, ⟨"Me.Race", 0, 0⟩)]
    ∧ (register_observer Env.sample "dave" "Me.Level"
        (observer_calls Env.sample
          [ObserverCall.register "bob" "Me.Name", ObserverCall.register "bob" "Me.Class",
           ObserverCall.unregister "Me.Name", ObserverCall.register "carol" "Me.Race"]
          { Node.sample with _observer_map := [(1, ⟨"Me.Level", 0, 0⟩)] })).1
      ≠ (register_observer Env.sample "dave" "Me.Class"
        (observer_calls Env.sample
          [ObserverCall.register "bob" "Me.Name", ObserverCall.register "bob" "Me.Class",
           ObserverCall.unregister "Me.Name", ObserverCall.register "carol" "Me.Race"]
          { Node.sample with _observer_map := [(1, ⟨"Me.Level", 0, 0⟩)] })).1 :=
  ⟨⟨by simp [StdMap.Sorted], by simp [DistinctQueries]⟩, by decide, by decide,
    (observer_map_queries_distinct Env.sample
      [ObserverCall.register "bob" "Me.Name", ObserverCall.register "bob" "Me.Class",
       ObserverCall.unregister "Me.Name", ObserverCall.register "carol" "Me.Race"]
      { Node.sample with _observer_map := [(1, ⟨"Me.Level", 0, 0⟩)] }
      ⟨by simp [StdMap.Sorted], by simp [DistinctQueries]⟩ (by decide)).2.2.2.1
      "dave" "dave" "Me.Level" "Me.Class" (by decide)
      ⟨(1, ⟨"Me.Level", 0, 0⟩), by decide, rfl⟩ ⟨(3, ⟨"Me.Class", 0, 0⟩), by decide, rfl⟩⟩

/-! ## Observer keys -/

theorem crbegin_key_cons_cons (env : Env) (x y : Nat × Query) (m : List (Nat × Query)) :
    crbegin_key env (x :: y :: m) = crbegin_key env (y :: m) := by
  simp [crbegin_key, List.getLast?_cons_cons]

theorem crbegin_key_mem (env : Env) (x : Nat × Query) (m : List (Nat × Query)) :
    ∃ q, (crbegin_key env (x :: m), q) ∈ x :: m := by
  induction m generalizing x with
  | nil => exact ⟨x.2, by simp [crbegin_key]⟩
  | cons y m ih =>
    obtain ⟨q, hq⟩ := ih y
    rw [crbegin_key_cons_cons]
    exact ⟨q, List.mem_cons_of_mem _ hq⟩

/-- In a map with ascending keys `crbegin()` holds the greatest key. -/
theorem crbegin_key_greatest (env : Env) (m : List (Nat × Query)) (hm : StdMap.Sorted m) :
    ∀ e ∈ m, e.1 ≤ crbegin_key env m := by
  induction m with
  | nil => intro e he; cases he
  | cons x m ih =>
    cases m with
    | nil =>
      intro e he
      rw [List.mem_singleton.mp he]
      simp [crbegin_key]
    | cons y m =>
      have hs := (StdMap.sorted_cons x (y :: m)).mp hm
      intro e he
      rw [crbegin_key_cons_cons]
      rcases List.mem_cons.mp he with h | h
      · obtain ⟨q, hq⟩ := crbegin_key_mem env y m
        have hlt := hs.1 _ hq
        simp only [Compare.lt, decide_eq_true_eq] at hlt
        rw [h]
        omega
      · exact ih hs.2 e h

theorem StdMap.assign_greatest {α : Type} (k : Nat) (v : α) (m : List (Nat × α))
    (h : ∀ e ∈ m, e.1 < k) : StdMap.assign k v m = m ++ [(k, v)] := by
  induction m with
  | nil => rfl
  | cons x m ih =>
    obtain ⟨a, b⟩ := x
    have ha : a < k := h (a, b) (List.mem_cons_self _ _)
    have h1 : ¬ a = k := by omega
    have h2 : ¬ Compare.lt k a = true := by
      simp only [Compare.lt, decide_eq_true_eq]; omega
    rw [StdMap.assign_cons_gt k a v b m h1 h2, ih (fun e he => h e (List.mem_cons_of_mem _ he))]
    rfl

theorem crbegin_key_append (env : Env) (m : List (Nat × Query)) (e : Nat × Query) :
    crbegin_key env (m ++ [e]) = e.1 := by
  simp [crbegin_key]

/-- A call of `register_observer` for a query without an entry, on a map with ascending keys
whose greatest key is not the last `unsigned int`: the new entry goes to the end of the
map, under the key after the greatest. -/
theorem register_observer_new {H : Type} (env : Env) (name query : String) (n : Node H)
    (hs : StdMap.Sorted n._observer_map)
    (hnew : find_observer query n._observer_map = none)
    (hb : crbegin_key env n._observer_map + 1 < 2 ^ 32) :
    register_observer env name query n
      = (observer_group n (crbegin_key env n._observer_map + 1),
          { n with _observer_map :=
              n._observer_map ++ [(crbegin_key env n._observer_map + 1, ⟨query, 0, 0⟩)] }) := by
  have hpos : ((n._observer_map.getLast?.map Prod.fst).getD env.rbegin_observer_map + 1)
      % 2 ^ 32 = crbegin_key env n._observer_map + 1 := Nat.mod_eq_of_lt hb
  have hlt : ∀ e ∈ n._observer_map, e.1 < crbegin_key env n._observer_map + 1 :=
    fun e he => Nat.lt_succ_of_le (crbegin_key_greatest env _ hs e he)
  simp only [register_observer, hnew, hpos, StdMap.assign_greatest _ _ _ hlt]

theorem register_observers_cons {H : Type} (env : Env) (call : String × String)
    (calls : List (String × String)) (n : Node H) :
    register_observers env (call :: calls) n
      = ((register_observer env call.1 call.2 n).1
          :: (register_observers env calls (register_observer env call.1 call.2 n).2).1,
        (register_observers env calls (register_observer env call.1 call.2 n).2).2) := rfl

theorem register_observers_spec {H : Type} (env : Env) (calls : List (String × String)) :
    ∀ (n : Node H), StdMap.Sorted n._observer_map →
      crbegin_key env n._observer_map + calls.length < 2 ^ 32 →
      StdMap.Sorted (register_observers env calls n).2._observer_map
      ∧ n._observer_map <+: (register_observers env calls n).2._observer_map
      ∧ ∀ p ∈ List.zip calls (register_observers env calls n).1,
          ∃ key q, (key, q) ∈ (register_observers env calls n).2._observer_map
            ∧ q.query = p.1.2 ∧ p.2 = observer_group n key := by
  induction calls with
  | nil =>
    intro n hs _
    exact ⟨hs, List.prefix_refl _, fun p hp => by cases hp⟩
  | cons call calls ih =>
    intro n hs hb
    rw [register_observers_cons]
    simp only [List.length_cons] at hb
    cases hf : find_observer call.2 n._observer_map with
    | some key =>
      have hr : register_observer env call.1 call.2 n = (observer_group n key, n) := by
        simp only [register_observer, hf]
      rw [hr]
      obtain ⟨h1, h2, h3⟩ := ih n hs (by omega)
      refine ⟨h1, h2, ?_⟩
      intro p hp
      rcases List.mem_cons.mp hp with h | h
      · obtain ⟨q, hq, hqq⟩ := find_observer_some _ _ _ hf
        exact ⟨key, q, h2.subset hq, by rw [h]; exact hqq, by rw [h]⟩
      · exact h3 p h
    | none =>
      have hr := register_observer_new env call.1 call.2 n hs hf (by omega)
      rw [hr]
      have hsorted : StdMap.Sorted
          (n._observer_map ++ [(crbegin_key env n._observer_map + 1, (⟨call.2, 0, 0⟩ : Query))]) := by
        have hlt : ∀ e ∈ n._observer_map, e.1 < crbegin_key env n._observer_map + 1 :=
          fun e he => Nat.lt_succ_of_le (crbegin_key_greatest env _ hs e he)
        rw [← StdMap.assign_greatest _ _ _ hlt]
        exact StdMap.sorted_assign lawful_nat _ _ _ hs
      obtain ⟨h1, h2, h3⟩ := ih
        { n with _observer_map :=
            n._observer_map ++ [(crbegin_key env n._observer_map + 1, ⟨call.2, 0, 0⟩)] }
        hsorted (by rw [crbegin_key_append]; omega)
      refine ⟨h1, (List.prefix_append _ _).trans h2, ?_⟩
      intro p hp
      rcases List.mem_cons.mp hp with h | h
      · refine ⟨crbegin_key env n._observer_map + 1, ⟨call.2, 0, 0⟩, ?_, by rw [h], by rw [h]⟩
        exact h2.subset (List.mem_append_right _ (List.mem_singleton.mpr rfl))
      · exact h3 p h

/-- C24 (counterexample). On `alice` with one observer under key 1: `register_observer` for
`Me.Name` creates the entry of key 2 and returns `alice_2`; after
`unregister_observer("Me.Name")` a call for the different query `Me.Class` creates an entry
under key 2 again, no greater than the key assigned before, and returns `alice_2` again. -/
theorem observer_key_assigned_again :
    (register_observer Env.sample "bob" "Me.Name"
        { Node.sample with _observer_map := [(1, ⟨"Me.Level", 0, 0⟩)] })
      = ("alice_2", { Node.sample with
          _observer_map := [(1, ⟨"Me.Level", 0, 0⟩), (2, ⟨"Me.Name", 0, 0⟩)] })
    ∧ unregister_observer "Me.Name"
        { Node.sample with
          _observer_map := [(1, ⟨"Me.Level", 0, 0⟩), (2, ⟨"Me.Name", 0, 0⟩)] }
      = { Node.sample with _observer_map := [(1, ⟨"Me.Level", 0, 0⟩)] }
    ∧ (register_observer Env.sample "bob" "Me.Class"
        { Node.sample with _observer_map := [(1, ⟨"Me.Level", 0, 0⟩)] })
      = ("alice_2", { Node.sample with
          _observer_map := [(1, ⟨"Me.Level", 0, 0⟩), (2, ⟨"Me.Class", 0, 0⟩)] })
    ∧ "Me.Name" ≠ "Me.Class"
    ∧ ¬ (∀ (calls : List ObserverCall) (name1 name2 query1 query2 : String),
          query1 ≠ query2 →
          (register_observer Env.sample name1 query1
              { Node.sample with _observer_map := [(1, ⟨"Me.Level", 0, 0⟩)] }).1
            ≠ (register_observer Env.sample name2 query2
                (observer_calls Env.sample calls
                  (register_observer Env.sample name1 query1
                    { Node.sample with _observer_map := [(1, ⟨"Me.Level", 0, 0⟩)] }).2)).1) := by
  refine ⟨rfl, rfl, rfl, by decide, ?_⟩
  intro h
  exact h [ObserverCall.unregister "Me.Name"] "bob" "bob" "Me.Name" "Me.Class" (by decide) rfl

/-- C24 (amended). On a non-empty observer map with ascending keys whose greatest key is not
the last `unsigned int`, a call of `register_observer` that creates an entry uses the key
after the greatest key of the map, which is strictly greater than every key in the map, puts
the entry at the end of the map, and returns the node name, an underscore and the decimal
numeral of that key. Over any sequence of `register_observer` calls with no
`unregister_observer` between them, short enough for the keys not to wrap, no entry is dropped
or overwritten, and two calls for different query strings never return the same group
name. -/
theorem register_observer_keys_ascend {H : Type} (env : Env) (n : Node H)
    (_hne : n._observer_map ≠ []) (hs : StdMap.Sorted n._observer_map) :
    (∀ (name query : String), find_observer query n._observer_map = none →
      crbegin_key env n._observer_map + 1 < 2 ^ 32 →
      (∀ e ∈ n._observer_map, e.1 < crbegin_key env n._observer_map + 1)
      ∧ (register_observer env name query n).1
          = n._node_name ++ "_" ++ toString (crbegin_key env n._observer_map + 1)
      ∧ (register_observer env name query n).2._observer_map
          = n._observer_map ++ [(crbegin_key env n._observer_map + 1, ⟨query, 0, 0⟩)])
    ∧ (∀ (calls : List (String × String)),
      crbegin_key env n._observer_map + calls.length < 2 ^ 32 →
      n._observer_map <+: (register_observers env calls n).2._observer_map
      ∧ ∀ p1 ∈ List.zip calls (register_observers env calls n).1,
          ∀ p2 ∈ List.zip calls (register_observers env calls n).1,
            p1.1.2 ≠ p2.1.2 → p1.2 ≠ p2.2) := by
  refine ⟨?_, ?_⟩
  · intro name query hnew hb
    rw [register_observer_new env name query n hs hnew hb, observer_group_decimal]
    exact ⟨fun e he => Nat.lt_succ_of_le (crbegin_key_greatest env _ hs e he), rfl, rfl⟩
  · intro calls hb
    obtain ⟨h1, h2, h3⟩ := register_observers_spec env calls n hs hb
    refine ⟨h2, ?_⟩
    intro p1 hp1 p2 hp2 hne hsame
    obtain ⟨k1, q1, hm1, hq1, hg1⟩ := h3 p1 hp1
    obtain ⟨k2, q2, hm2, hq2, hg2⟩ := h3 p2 hp2
    rw [hg1, hg2] at hsame
    have hk : k1 = k2 := observer_group_injective _ k1 k2 hsame
    subst hk
    have hq : q1 = q2 := StdMap.sorted_unique lawful_nat _ h1 k1 q1 q2 hm1 hm2
    exact hne (by rw [← hq1, ← hq2, hq])

theorem register_observer_keys_ascend_witness :
    StdMap.Sorted ({ Node.sample with
        _observer_map := [(1, ⟨"Me.Level", 0, 0⟩)] } : Node Callback)._observer_map
    ∧ (register_observer Env.sample "bob" "Me.Name"
        { Node.sample with _observer_map := [(1, ⟨"Me.Level", 0, 0⟩)] }).1
      = "alice" ++ "_" ++ toString (1 + 1)
    ∧ (register_observers Env.sample
        [("bob", "Me.Name"), ("carol", "Me.Class"), ("dave", "Me.Name")]
        { Node.sample with _observer_map := [(1, ⟨"Me.Level", 0, 0⟩)] }).1
      = ["alice_2", "alice_3", "alice_2"] :=
  ⟨by simp [StdMap.Sorted],
    ((register_observer_keys_ascend Env.sample
      { Node.sample with _observer_map := [(1, ⟨"Me.Level", 0, 0⟩)] }
      (by decide) (by simp [StdMap.Sorted])).1 "bob" "Me.Name" (by decide) (by decide)).2.1,
    by decide⟩

/-! ## Forgetting a group that two pairs are mapped to -/

/-- C26 (the code at the failing input). On `alice`, `observe(bob_1, bob, Me.Level)` and
`observe(bob_1, bob, Me.Name)` record two pairs under the group `bob_1`. `forget(bob_1)` drops
the pair that comes first in key order, erases the data of the group and asks to leave it;
the pair `(Me.Name, bob)` is still mapped to `bob_1`, so `can_read(bob, Me.Name)` is true,
and `read(bob, Me.Name)` finds no data. -/
theorem forget_group_drops_one_pair :
    (observe "bob_1" "bob" "Me.Name" (observe "bob_1" "bob" "Me.Level" Node.sample))._observed_map
      = [(⟨"Me.Level", "bob"⟩, "bob_1"), (⟨"Me.Name", "bob"⟩, "bob_1")]
    ∧ (forget "bob_1" (observe "bob_1" "bob" "Me.Name"
        (observe "bob_1" "bob" "Me.Level" Node.sample)))._observed_map
      = [(⟨"Me.Name", "bob"⟩, "bob_1")]
    ∧ can_read "bob" "Me.Level" (forget "bob_1" (observe "bob_1" "bob" "Me.Name"
        (observe "bob_1" "bob" "Me.Level" Node.sample))) = false
    ∧ can_read "bob" "Me.Name" (forget "bob_1" (observe "bob_1" "bob" "Me.Name"
        (observe "bob_1" "bob" "Me.Level" Node.sample))) = true
    ∧ read_query "bob" "Me.Name" (forget "bob_1" (observe "bob_1" "bob" "Me.Name"
        (observe "bob_1" "bob" "Me.Level" Node.sample))) = Observation.init
    ∧ (forget "bob_1" (observe "bob_1" "bob" "Me.Name"
        (observe "bob_1" "bob" "Me.Level" Node.sample))).effects
      = [Effect.JOIN "bob_1", Effect.JOIN "bob_1", Effect.LEAVE "bob_1"] := by
  refine ⟨by decide, by decide, by decide, by decide, by decide, by decide⟩

/-! ## The query as typed and the query as stored -/

/-- C27 (the code at the failing input). On `alice`, which already has an observer,
`Observe::pack(alice, "${Me.Name}", "")` takes the self-observe path and records the
observation under the trimmed query `Me.Name`. With the query as it was typed,
`can_read(alice, "${Me.Name}")` is false and `forget(alice, "${Me.Name}")` changes nothing;
with the trimmed query `can_read` is true and `forget` drops the mapping. The same happens
with the opener typed in its escaped form. -/
theorem typed_query_is_not_the_stored_key :
    trim_query "$\x7bMe.Name\x7d" = "Me.Name"
    ∧ (Observe_pack Env.sample "alice" "$\x7bMe.Name\x7d" ""
        { Node.sample with _observer_map := [(1, ⟨"Me.Level", 0, 0⟩)] }).2._observed_map
      = [(⟨"Me.Name", "alice"⟩, "alice_2")]
    ∧ can_read "alice" "$\x7bMe.Name\x7d"
        (Observe_pack Env.sample "alice" "$\x7bMe.Name\x7d" ""
          { Node.sample with _observer_map := [(1, ⟨"Me.Level", 0, 0⟩)] }).2 = false
    ∧ (forget_query "alice" "$\x7bMe.Name\x7d"
        (Observe_pack Env.sample "alice" "$\x7bMe.Name\x7d" ""
          { Node.sample with _observer_map := [(1, ⟨"Me.Level", 0, 0⟩)] }).2)._observed_map
      = [(⟨"Me.Name", "alice"⟩, "alice_2")]
    ∧ can_read "alice" "Me.Name"
        (Observe_pack Env.sample "alice" "$\x7bMe.Name\x7d" ""
          { Node.sample with _observer_map := [(1, ⟨"Me.Level", 0, 0⟩)] }).2 = true
    ∧ (forget_query "alice" "Me.Name"
        (Observe_pack Env.sample "alice" "$\x7bMe.Name\x7d" ""
          { Node.sample with _observer_map := [(1, ⟨"Me.Level", 0, 0⟩)] }).2)._observed_map
      = []
    ∧ trim_query "$\x5c\x7bMe.Name\x7d" = "Me.Name"
    ∧ can_read "alice" "$\x5c\x7bMe.Name\x7d"
        (Observe_pack Env.sample "alice" "$\x5c\x7bMe.Name\x7d" ""
          { Node.sample with _observer_map := [(1, ⟨"Me.Level", 0, 0⟩)] }).2 = false := by
  refine ⟨by decide, by decide, by decide, by decide, by decide, by decide, by decide,
    by decide⟩

/-! ## Trimming a trimmed query -/

theorem unescape_head (a : Char) (l : List Char) : ∃ t, unescape (a :: l) = a :: t := by
  match l with
  | [] => exact ⟨[], rfl⟩
  | [d] => exact ⟨[d], rfl⟩
  | d :: e :: rest =>
    by_cases h : a = '$' ∧ d = '\x5c' ∧ e = '\x7b'
    · refine ⟨'\x7b' :: unescape rest, ?_⟩
      rw [unescape, if_pos h, h.1]
    · exact ⟨unescape (d :: e :: rest), by rw [unescape, if_neg h]⟩

theorem unescape_cons_of_ne (a : Char) (l : List Char) (ha : a ≠ '$') :
    unescape (a :: l) = a :: unescape l := by
  match l with
  | [] => rfl
  | [d] => rfl
  | d :: e :: rest =>
    have h : ¬ (a = '$' ∧ d = '\x5c' ∧ e = '\x7b') := fun h => ha h.1
    rw [unescape, if_neg h]

/-- The text that `unescape` leaves has no escaped opener in it. -/
theorem unescape_no_escape : ∀ (l : List Char), ¬ ['$', '\x5c', '\x7b'] <:+: unescape l := by
  intro l
  induction l using unescape.induct with
  | case1 =>
    intro h
    have := h.length_le
    simp [unescape] at this
  | case2 c =>
    intro h
    have := h.length_le
    simp [unescape] at this
  | case3 c d =>
    intro h
    have := h.length_le
    simp [unescape] at this
  | case4 c d e rest hm ih =>
    rw [unescape, if_pos hm]
    intro h
    rcases List.infix_cons_iff.mp h with h1 | h1
    · have h2 := (List.cons_prefix_cons.mp h1).2
      have h3 := (List.cons_prefix_cons.mp h2).1
      exact absurd h3 (by decide)
    · rcases List.infix_cons_iff.mp h1 with h2 | h2
      · exact absurd (List.cons_prefix_cons.mp h2).1 (by decide)
      · exact ih h2
  | case5 c d e rest hm ih =>
    rw [unescape, if_neg hm]
    intro h
    rcases List.infix_cons_iff.mp h with h1 | h1
    · obtain ⟨hc, h2⟩ := List.cons_prefix_cons.mp h1
      obtain ⟨t, ht⟩ := unescape_head d (e :: rest)
      rw [ht] at h2
      obtain ⟨hd, h3⟩ := List.cons_prefix_cons.mp h2
      have hd2 : d ≠ '$' := by rw [← hd]; decide
      rw [unescape_cons_of_ne d (e :: rest) hd2] at ht
      have ht2 : t = unescape (e :: rest) := (List.cons.inj ht).2.symm
      obtain ⟨t3, ht3⟩ := unescape_head e rest
      rw [ht2, ht3] at h3
      have he := (List.cons_prefix_cons.mp h3).1
      exact hm ⟨hc.symm, hd.symm, he.symm⟩
    · exact ih h1

/-- The function `unescape` changes nothing in a text without an escaped opener. -/
theorem unescape_fixed : ∀ (l : List Char), ¬ ['$', '\x5c', '\x7b'] <:+: l → unescape l = l := by
  intro l
  induction l using unescape.induct with
  | case1 => intro _; rfl
  | case2 c => intro _; rfl
  | case3 c d => intro _; rfl
  | case4 c d e rest hm ih =>
    intro h
    exfalso
    apply h
    rw [hm.1, hm.2.1, hm.2.2]
    exact (List.prefix_append ['$', '\x5c', '\x7b'] rest).isInfix
  | case5 c d e rest hm ih =>
    intro h
    rw [unescape, if_neg hm, ih (fun h2 => h (h2.trans (List.suffix_cons c _).isInfix))]

theorem trim_query_within (query : String) :
    (trim_query query).toList <:+: unescape query.toList := by
  have hd : ∀ (l : List Char) (k : Nat), l.drop k <:+: l :=
    fun l k => (List.drop_suffix k l).isInfix
  have hl : ∀ (l : List Char), l.dropLast <:+: l :=
    fun l => (List.dropLast_prefix l).isInfix
  have hstep : ∀ (c : Prop) [Decidable c] (a b l : List Char),
      a <:+: b → b <:+: l → (if c then a else b) <:+: l := by
    intro c _ a b l hab hbl
    split
    · exact hab.trans hbl
    · exact hbl
  unfold trim_query
  simp only []
  apply hstep _ _ _ _ (hl _)
  apply hstep _ _ _ _ (hd _ 2)
  apply hstep _ _ _ _ (hl _)
  exact hstep _ _ _ _ (hd _ 1) (List.infix_refl _)

theorem trim_query_no_escape (query : String) :
    ¬ ['$', '\x5c', '\x7b'] <:+: (trim_query query).toList :=
  fun h => unescape_no_escape query.toList (h.trans (trim_query_within query))

/-- A text that has no escaped opener, starts with none of the characters that `trim_query`
takes from the front and ends with none of those it takes from the back is left as it is. -/
theorem trim_query_fixed (l : List Char) (hesc : ¬ ['$', '\x5c', '\x7b'] <:+: l)
    (h1 : l.head? ≠ some '\x22') (h2 : l.head? ≠ some '$') (h3 : l.head? ≠ some '\x7b')
    (h4 : l.getLast? ≠ some '\x22') (h5 : l.getLast? ≠ some '\x7d') :
    trim_query (String.mk l) = String.mk l := by
  have hl : (String.mk l).toList = l := rfl
  unfold trim_query
  simp only [hl, unescape_fixed l hesc, h1, h2, h3, h4, h5, if_false, or_self]

theorem ne_nil_of_drop_ne_nil {α : Type} (k : Nat) (l : List α) (h : l.drop k ≠ []) :
    l ≠ [] ∧ k < l.length := by
  constructor
  · intro hl; rw [hl] at h; simp at h
  · by_contra hk
    exact h (List.drop_eq_nil_of_le (by omega))

theorem ne_nil_of_dropLast_ne_nil {α : Type} (l : List α) (h : l.dropLast ≠ []) : l ≠ [] := by
  intro hl; rw [hl] at h; simp at h

theorem isEmpty_false_of_ne_nil {α : Type} (l : List α) (h : l ≠ []) : (!l.isEmpty) = true := by
  cases l with
  | nil => exact absurd rfl h
  | cons a l => rfl

theorem trim_steps_defined (q0 : List Char) (c1 c2 c3 c4 : Prop) [Decidable c1] [Decidable c2]
    [Decidable c3] [Decidable c4]
    (h : (if c4 then
            (if c3 then
              (if c2 then (if c1 then q0.drop 1 else q0).dropLast
                else (if c1 then q0.drop 1 else q0)).drop 2
              else (if c2 then (if c1 then q0.drop 1 else q0).dropLast
                else (if c1 then q0.drop 1 else q0))).dropLast
          else
            (if c3 then
              (if c2 then (if c1 then q0.drop 1 else q0).dropLast
                else (if c1 then q0.drop 1 else q0)).drop 2
              else (if c2 then (if c1 then q0.drop 1 else q0).dropLast
                else (if c1 then q0.drop 1 else q0)))) ≠ []) :
    (!q0.isEmpty && !(if c1 then q0.drop 1 else q0).isEmpty
      && (if c3 then
            decide (2 ≤ (if c2 then (if c1 then q0.drop 1 else q0).dropLast
              else (if c1 then q0.drop 1 else q0)).length)
          else true)
      && !(if c3 then
            (if c2 then (if c1 then q0.drop 1 else q0).dropLast
              else (if c1 then q0.drop 1 else q0)).drop 2
            else (if c2 then (if c1 then q0.drop 1 else q0).dropLast
              else (if c1 then q0.drop 1 else q0))).isEmpty) = true := by
  generalize hq1 : (if c1 then q0.drop 1 else q0) = q1 at h ⊢
  generalize hq2 : (if c2 then q1.dropLast else q1) = q2 at h ⊢
  generalize hq3 : (if c3 then q2.drop 2 else q2) = q3 at h ⊢
  have h3 : q3 ≠ [] := by
    by_cases h4 : c4
    · rw [if_pos h4] at h; exact ne_nil_of_dropLast_ne_nil _ h
    · rw [if_neg h4] at h; exact h
  have h2 : q2 ≠ [] ∧ (c3 → 2 ≤ q2.length) := by
    by_cases hc : c3
    · rw [if_pos hc] at hq3
      rw [← hq3] at h3
      have := ne_nil_of_drop_ne_nil 2 q2 h3
      exact ⟨this.1, fun _ => by omega⟩
    · rw [if_neg hc] at hq3
      rw [← hq3] at h3
      exact ⟨h3, fun h => absurd h hc⟩
  have h1 : q1 ≠ [] := by
    by_cases hc : c2
    · rw [if_pos hc] at hq2
      rw [← hq2] at h2
      exact ne_nil_of_dropLast_ne_nil _ h2.1
    · rw [if_neg hc] at hq2
      rw [← hq2] at h2
      exact h2.1
  have h0 : q0 ≠ [] := by
    by_cases hc : c1
    · rw [if_pos hc] at hq1
      rw [← hq1] at h1
      exact (ne_nil_of_drop_ne_nil 1 q0 h1).1
    · rw [if_neg hc] at hq1
      rw [← hq1] at h1
      exact h1
  have hlen : (if c3 then decide (2 ≤ q2.length) else true) = true := by
    by_cases hc : c3
    · rw [if_pos hc]; exact decide_eq_true (h2.2 hc)
    · rw [if_neg hc]
  rw [isEmpty_false_of_ne_nil _ h0, isEmpty_false_of_ne_nil _ h1, isEmpty_false_of_ne_nil _ h3,
    hlen]
  rfl

/-- A query that `trim_query` does not trim to the empty string passes no undefined step. -/
theorem trim_query_defined_of_nonempty (query : String) (h : trim_query query ≠ "") :
    trim_query_defined query = true := by
  have h4 : (trim_query query).toList ≠ [] := fun hnil => h (String.ext hnil)
  exact trim_steps_defined _ _ _ _ _ h4

/-- C28 (counterexample). A query in two pairs of double quotes, and a query whose macro
begins with a macro: both are non-empty with a non-empty trimmed form, no step of
`trim_query` is undefined on them or on their trimmed forms, and trimming the trimmed form
takes off one more layer. -/
theorem trim_query_twice_differs :
    trim_query_defined "\x22\x22Me.Name\x22\x22" = true
    ∧ trim_query_defined "\x22Me.Name\x22" = true
    ∧ trim_query_defined "$\x7b$\x7bTarget\x7d.Name\x7d" = true
    ∧ trim_query_defined "$\x7bTarget\x7d.Name" = true
    ∧ trim_query "\x22\x22Me.Name\x22\x22" = "\x22Me.Name\x22"
    ∧ trim_query (trim_query "\x22\x22Me.Name\x22\x22") = "Me.Name"
    ∧ trim_query (trim_query "\x22\x22Me.Name\x22\x22")
        ≠ trim_query "\x22\x22Me.Name\x22\x22"
    ∧ trim_query "$\x7b$\x7bTarget\x7d.Name\x7d" = "$\x7bTarget\x7d.Name"
    ∧ trim_query (trim_query "$\x7b$\x7bTarget\x7d.Name\x7d") = "Target\x7d.Name"
    ∧ trim_query (trim_query "$\x7b$\x7bTarget\x7d.Name\x7d")
        ≠ trim_query "$\x7b$\x7bTarget\x7d.Name\x7d" := by
  refine ⟨by decide, by decide, by decide, by decide, by decide, by decide, by decide,
    by decide, by decide, by decide⟩

/-- C28 (amended). For every non-empty query string whose trimmed form is non-empty, starts
with none of a double quote, a dollar and an opening brace and ends with neither a double
quote nor a closing brace: no step of `trim_query` is undefined on the query or on its
trimmed form, and trimming the trimmed form gives the trimmed form. -/
theorem trim_query_idempotent (query : String)
    (_hquery : query ≠ "") (htrim : trim_query query ≠ "")
    (hfront : (trim_query query).toList.head? ≠ some '\x22'
      ∧ (trim_query query).toList.head? ≠ some '$'
      ∧ (trim_query query).toList.head? ≠ some '\x7b')
    (hback : (trim_query query).toList.getLast? ≠ some '\x22'
      ∧ (trim_query query).toList.getLast? ≠ some '\x7d') :
    trim_query_defined query = true
    ∧ trim_query_defined (trim_query query) = true
    ∧ trim_query (trim_query query) = trim_query query := by
  have hidem : trim_query (trim_query query) = trim_query query :=
    trim_query_fixed (trim_query query).toList (trim_query_no_escape query)
      hfront.1 hfront.2.1 hfront.2.2 hback.1 hback.2
  exact ⟨trim_query_defined_of_nonempty query htrim,
    trim_query_defined_of_nonempty _ (by rw [hidem]; exact htrim), hidem⟩

theorem trim_query_idempotent_witness :
    "\x22$\x5c\x7bMe.Name\x7d\x22" ≠ ""
    ∧ trim_query "\x22$\x5c\x7bMe.Name\x7d\x22" = "Me.Name"
    ∧ trim_query (trim_query "\x22$\x5c\x7bMe.Name\x7d\x22")
        = trim_query "\x22$\x5c\x7bMe.Name\x7d\x22" :=
  ⟨by decide, by decide,
    (trim_query_idempotent "\x22$\x5c\x7bMe.Name\x7d\x22" (by decide) (by decide)
      ⟨by decide, by decide, by decide⟩ ⟨by decide, by decide⟩).2.2⟩

/-! ## Arrays of names: parsing what was created -/

theorem takeWhile_token (t rest : List Char) (ht : '|' ∉ t) :
    (t ++ '|' :: rest).takeWhile (fun c => decide (c ≠ '|')) = t
    ∧ (t ++ '|' :: rest).dropWhile (fun c => decide (c ≠ '|')) = '|' :: rest := by
  induction t with
  | nil => simp [List.takeWhile, List.dropWhile]
  | cons a t ih =>
    have ha : a ≠ '|' := fun h => ht (by rw [h]; exact List.mem_cons_self _ _)
    have ht2 : '|' ∉ t := fun h => ht (List.mem_cons_of_mem _ h)
    have hd : decide (a ≠ '|') = true := decide_eq_true ha
    simp only [List.cons_append, List.takeWhile_cons, List.dropWhile_cons, hd, if_true,
      (ih ht2).1, (ih ht2).2, and_self]

theorem takeWhile_last_token (t : List Char) (ht : '|' ∉ t) :
    t.takeWhile (fun c => decide (c ≠ '|')) = t
    ∧ t.dropWhile (fun c => decide (c ≠ '|')) = [] := by
  induction t with
  | nil => simp
  | cons a t ih =>
    have ha : a ≠ '|' := fun h => ht (by rw [h]; exact List.mem_cons_self _ _)
    have ht2 : '|' ∉ t := fun h => ht (List.mem_cons_of_mem _ h)
    have hd : decide (a ≠ '|') = true := decide_eq_true ha
    simp only [List.cons_append, List.takeWhile_cons, List.dropWhile_cons, hd, if_true,
      (ih ht2).1, (ih ht2).2, and_self]

/-- A token that a delimiter follows is read up to the delimiter. -/
theorem getline_token (t rest : List Char) (ht : '|' ∉ t) :
    getline '|' (t ++ '|' :: rest) = some (t, rest) := by
  have h := takeWhile_token t rest ht
  cases hs : t ++ '|' :: rest with
  | nil => cases t <;> simp at hs
  | cons a l =>
    rw [hs] at h
    simp only [getline, h.1, h.2, List.drop_succ_cons, List.drop_zero]

/-- A last token that no delimiter follows is read to the end of the stream. -/
theorem getline_last_token (t : List Char) (hne : t ≠ []) (ht : '|' ∉ t) :
    getline '|' t = some (t, []) := by
  have h := takeWhile_last_token t ht
  cases t with
  | nil => exact absurd rfl hne
  | cons a l => simp only [getline, h.1, h.2, List.drop_nil]

theorem ParseArray_loop_nil (turns : Nat) (tokens : List String) :
    ParseArray_loop turns [] tokens = tokens := by
  cases turns <;> rfl

/-- The loop of `ParseArray` on members that are each followed by a delimiter. -/
theorem ParseArray_loop_back (members : List String)
    (hclean : ∀ s ∈ members, s ≠ "" ∧ '|' ∉ s.toList) :
    ∀ (tokens : List String) (turns : Nat),
      (members.foldr (fun s acc => s.toList ++ '|' :: acc) []).length < turns →
      ParseArray_loop turns (members.foldr (fun s acc => s.toList ++ '|' :: acc) []) tokens
        = members.foldl (fun acc s => StdSet.insert s acc) tokens := by
  induction members with
  | nil => intro tokens turns _; exact ParseArray_loop_nil _ _
  | cons s rest ih =>
    intro tokens turns hlen
    have hs := hclean s (List.mem_cons_self _ _)
    have hrest : ∀ p ∈ rest, p ≠ "" ∧ '|' ∉ p.toList :=
      fun p hp => hclean p (List.mem_cons_of_mem _ hp)
    cases turns with
    | zero => omega
    | succ turns =>
      simp only [List.foldr_cons] at hlen ⊢
      rw [ParseArray_loop, getline_token _ _ hs.2]
      simp only [List.foldl_cons]
      have hmk : String.mk s.toList = s := rfl
      rw [hmk]
      apply ih hrest
      simp only [List.length_append, List.length_cons] at hlen
      omega

/-- The loop of `ParseArray` on a member and then members that a delimiter each precedes. -/
theorem ParseArray_loop_front (rest : List String)
    (hclean : ∀ s ∈ rest, s ≠ "" ∧ '|' ∉ s.toList) :
    ∀ (s : String) (tokens : List String) (turns : Nat), s ≠ "" → '|' ∉ s.toList →
      (s.toList ++ rest.foldr (fun p acc => '|' :: (p.toList ++ acc)) []).length < turns →
      ParseArray_loop turns (s.toList ++ rest.foldr (fun p acc => '|' :: (p.toList ++ acc)) [])
          tokens
        = (s :: rest).foldl (fun acc p => StdSet.insert p acc) tokens := by
  induction rest with
  | nil =>
    intro s tokens turns hne hbar hlen
    have hl : s.toList ≠ [] := fun h => hne (String.ext h)
    cases turns with
    | zero => omega
    | succ turns =>
      simp only [List.foldr_nil, List.append_nil]
      rw [ParseArray_loop, getline_last_token _ hl hbar]
      simp only [ParseArray_loop_nil, List.foldl_cons, List.foldl_nil]
      rfl
  | cons p rest ih =>
    intro s tokens turns hne hbar hlen
    have hp := hclean p (List.mem_cons_self _ _)
    have hrest : ∀ p ∈ rest, p ≠ "" ∧ '|' ∉ p.toList :=
      fun p hp => hclean p (List.mem_cons_of_mem _ hp)
    cases turns with
    | zero => omega
    | succ turns =>
      simp only [List.foldr_cons] at hlen ⊢
      rw [ParseArray_loop, getline_token _ _ hbar]
      simp only []
      have hmk : String.mk s.toList = s := rfl
      rw [hmk, ih hrest p _ turns hp.1 hp.2]
      · rfl
      · simp only [List.length_append, List.length_cons] at hlen ⊢
        omega

theorem getline_consumes (delim : Char) (stream token rest : List Char)
    (h : getline delim stream = some (token, rest)) : rest.length < stream.length := by
  cases stream with
  | nil => simp [getline] at h
  | cons a l =>
    simp only [getline, Option.some.injEq, Prod.mk.injEq] at h
    rw [← h.2, List.length_drop]
    have hle := (List.dropWhile_suffix (fun c => decide (c ≠ delim)) (l := a :: l)).length_le
    simp only [List.length_cons] at hle ⊢
    omega

/-- The loop of `ParseArray` ends before its turns run out: any number of turns above the
length of the stream gives the same tokens. -/
theorem ParseArray_loop_turns : ∀ (turns1 turns2 : Nat) (stream : List Char)
    (tokens : List String), stream.length < turns1 → stream.length < turns2 →
    ParseArray_loop turns1 stream tokens = ParseArray_loop turns2 stream tokens := by
  intro turns1
  induction turns1 with
  | zero => intro turns2 stream tokens h1 _; omega
  | succ a ih =>
    intro turns2 stream tokens h1 h2
    cases turns2 with
    | zero => omega
    | succ b =>
      rw [ParseArray_loop, ParseArray_loop]
      cases hg : getline '|' stream with
      | none => rfl
      | some r =>
        obtain ⟨token, rest⟩ := r
        have hlt := getline_consumes '|' stream token rest hg
        exact ih b rest _ (by omega) (by omega)

theorem accumulate_chars (rest : List String) : ∀ (acc : String), acc ≠ "" →
    (rest.foldl (fun s p => s ++ (if s.isEmpty then "" else "|") ++ p) acc).toList
      = acc.toList ++ rest.foldr (fun p out => '|' :: (p.toList ++ out)) [] := by
  induction rest with
  | nil => intro acc _; simp
  | cons p rest ih =>
    intro acc hacc
    have hfalse : ¬ acc.isEmpty = true := fun h => hacc ((String.isEmpty_iff _).mp h)
    have hne : acc ++ "|" ++ p ≠ "" := by
      intro h
      have h2 := congrArg String.data h
      simp at h2
    simp only [List.foldl_cons, List.foldr_cons, hfalse, Bool.false_eq_true, if_false]
    rw [ih _ hne]
    simp [String.data_append]

theorem delimiter_moves_back (rest : List String) :
    rest.foldr (fun p out => '|' :: (p.toList ++ out)) [] ++ ['|']
      = '|' :: rest.foldr (fun s acc => s.toList ++ '|' :: acc) [] := by
  induction rest with
  | nil => rfl
  | cons p rest ih =>
    simp only [List.foldr_cons, List.cons_append, List.append_assoc, ih]

/-- The characters of `CreateArray(members)` for members of which the first is not empty. -/
theorem CreateArray_chars (front_delimiter : Bool) (s : String) (rest : List String)
    (hs : s ≠ "") :
    (CreateArray front_delimiter (s :: rest)).toList
      = if front_delimiter then
          (s :: rest).foldr (fun p out => '|' :: (p.toList ++ out)) []
        else (s :: rest).foldr (fun s acc => s.toList ++ '|' :: acc) [] := by
  have hfirst : ("" : String) ++ (if ("" : String).isEmpty then "" else "|") ++ s = s := by
    have he : ("" : String).isEmpty = true := rfl
    apply String.ext
    simp [String.data_append, he]
  have hacc := accumulate_chars rest s hs
  cases front_delimiter with
  | true =>
    simp only [CreateArray, List.isEmpty_cons, Bool.not_false, if_true, List.foldl_cons,
      hfirst, List.foldr_cons]
    rw [String.toList, String.data_append]
    show '|' :: _ = _
    rw [← String.toList, hacc]
    rfl
  | false =>
    simp only [CreateArray, List.isEmpty_cons, Bool.not_false, if_true, List.foldl_cons,
      hfirst, List.foldr_cons, Bool.false_eq_true, if_false]
    rw [String.toList, String.data_append, ← String.toList, hacc, List.append_assoc]
    show _ ++ (_ ++ ['|']) = _
    rw [delimiter_moves_back]

theorem StdSet.insert_greatest {κ : Type} [Compare κ] [DecidableEq κ]
    (hlaw : Compare.Lawful κ) (k : κ) (s : List κ) (h : ∀ a ∈ s, Compare.lt a k = true) :
    StdSet.insert k s = s ++ [k] := by
  obtain ⟨hirr, htr, _⟩ := hlaw
  induction s with
  | nil => rfl
  | cons a s ih =>
    have ha : Compare.lt a k = true := h a (List.mem_cons_self _ _)
    have h1 : ¬ a = k := by
      intro heq
      rw [heq, hirr] at ha
      exact Bool.false_ne_true ha
    have h2 : ¬ Compare.lt k a = true := by
      intro hka
      have haa := htr a k a ha hka
      rw [hirr] at haa
      exact Bool.false_ne_true haa
    rw [StdSet.insert, if_neg h1, if_neg h2, ih (fun b hb => h b (List.mem_cons_of_mem _ hb))]
    rfl

/-- Elements that arrive in ascending order, each above what the set holds, make the set
grow at its end. -/
theorem StdSet.foldl_insert_sorted {κ : Type} [Compare κ] [DecidableEq κ]
    (hlaw : Compare.Lawful κ) (l : List κ) :
    ∀ (acc : List κ), StdSet.Sorted (acc ++ l) →
      l.foldl (fun acc s => StdSet.insert s acc) acc = acc ++ l := by
  induction l with
  | nil => intro acc _; simp
  | cons k l ih =>
    intro acc hs
    have hlt : ∀ a ∈ acc, Compare.lt a k = true := by
      intro a ha
      have h := List.pairwise_append.mp hs
      exact h.2.2 a ha k (List.mem_cons_self _ _)
    simp only [List.foldl_cons]
    rw [StdSet.insert_greatest hlaw k acc hlt, ih]
    · simp
    · have : acc ++ [k] ++ l = acc ++ k :: l := by simp
      rw [this]; exact hs

theorem StdSet.erase_of_not_mem {κ : Type} [DecidableEq κ] (k : κ) (s : List κ) (h : k ∉ s) :
    StdSet.erase k s = s := by
  induction s with
  | nil => rfl
  | cons a s ih =>
    have h1 : ¬ a = k := fun heq => h (by rw [heq]; exact List.mem_cons_self _ _)
    rw [StdSet.erase, if_neg h1, ih (fun hk => h (List.mem_cons_of_mem _ hk))]

/-- C29. For a set of strings each of which is non-empty and has no delimiter in it, and for
either setting of the front delimiter, `ParseArray(CreateArray(members))` is the set again;
`CreateArray` of the empty set is the empty string, and `ParseArray` of the empty string is
the empty set. -/
theorem ParseArray_CreateArray (front_delimiter : Bool) (members : List String)
    (hset : StdSet.Sorted members) (hclean : ∀ s ∈ members, s ≠ "" ∧ '|' ∉ s.toList) :
    ParseArray (CreateArray front_delimiter members) = members
    ∧ CreateArray front_delimiter [] = ""
    ∧ ParseArray "" = [] := by
  refine ⟨?_, rfl, rfl⟩
  cases members with
  | nil => rfl
  | cons s rest =>
    have hs := hclean s (List.mem_cons_self _ _)
    have hrest : ∀ p ∈ rest, p ≠ "" ∧ '|' ∉ p.toList :=
      fun p hp => hclean p (List.mem_cons_of_mem _ hp)
    have hnot : "" ∉ s :: rest := fun h => (hclean "" h).1 rfl
    have hchars := CreateArray_chars front_delimiter s rest hs.1
    have hlen : (CreateArray front_delimiter (s :: rest)).length
        = (CreateArray front_delimiter (s :: rest)).toList.length := rfl
    rw [ParseArray, hlen, hchars]
    cases front_delimiter with
    | false =>
      simp only [Bool.false_eq_true, if_false]
      rw [ParseArray_loop_back (s :: rest) hclean [] _ (Nat.lt_succ_self _),
        StdSet.foldl_insert_sorted lawful_string (s :: rest) [] hset]
      exact StdSet.erase_of_not_mem _ _ hnot
    | true =>
      simp only [if_true, List.foldr_cons]
      have hg : ∀ (rest : List Char), getline '|' ('|' :: rest) = some ([], rest) :=
        fun rest => getline_token [] rest (List.not_mem_nil _)
      rw [ParseArray_loop, hg]
      simp only []
      rw [ParseArray_loop_front rest hrest s _ _ hs.1 hs.2 (by simp)]
      have hsorted : StdSet.Sorted ([""] ++ (s :: rest)) := by
        refine List.pairwise_cons.mpr ⟨?_, hset⟩
        intro p hp
        have hp2 : p.toList ≠ [] := fun h => (hclean p hp).1 (String.ext h)
        show string_less [] p.toList = true
        cases hl : p.toList with
        | nil => exact absurd hl hp2
        | cons c cs => rfl
      have hins : StdSet.insert (String.mk []) ([] : List String) = [""] := rfl
      rw [hins, StdSet.foldl_insert_sorted lawful_string (s :: rest) [""] hsorted]
      show StdSet.erase "" ("" :: (s :: rest)) = s :: rest
      rw [StdSet.erase, if_pos rfl]
      exact StdSet.erase_of_not_mem _ _ hnot

theorem ParseArray_CreateArray_witness :
    StdSet.Sorted ["all", "raid", "zone_1"]
    ∧ CreateArray true ["all", "raid", "zone_1"] = "|all|raid|zone_1"
    ∧ CreateArray false ["all", "raid", "zone_1"] = "all|raid|zone_1|"
    ∧ ParseArray (CreateArray true ["all", "raid", "zone_1"]) = ["all", "raid", "zone_1"]
    ∧ ParseArray (CreateArray false ["all", "raid", "zone_1"]) = ["all", "raid", "zone_1"] :=
  ⟨by simp [StdSet.Sorted, Compare.lt, string_less], by decide, by decide,
    (ParseArray_CreateArray true ["all", "raid", "zone_1"]
      (by simp [StdSet.Sorted, Compare.lt, string_less]) (by decide)).1,
    (ParseArray_CreateArray false ["all", "raid", "zone_1"]
      (by simp [StdSet.Sorted, Compare.lt, string_less]) (by decide)).1⟩

/-! ## The member `JoinedCount` -/

theorem GetMember_JoinedCount {H : Type} (n : Node H) (t : MQ2DanNetType) :
    (GetMember Members.JoinedCount n t).1 = some (t._groups.length % 2 ^ 32) := rfl

/-- C30 (the code at the failing input). `alice` has joined the groups `all` and `raid`. On a
new `MQ2DanNetType` object `JoinedCount` answers 0; after a `GroupCount`, which has stored
the three groups that `alice` knows of, `JoinedCount` answers 3. The size of
`get_own_groups()` is 2: the case stores the own groups in `_joined` and then reads the size
of `_groups`. -/
theorem JoinedCount_reads_groups :
    (get_own_groups ({ Node.sample with
          _own_groups := ["all", "raid"], _peer_groups := [("chat", ["bob"])] } : Node Callback)).length = 2
    ∧ GetMember Members.JoinedCount
        ({ Node.sample with
          _own_groups := ["all", "raid"], _peer_groups := [("chat", ["bob"])] } : Node Callback) ⟨"", [], [], []⟩
      = (some 0, ⟨"", [], [], ["all", "raid"]⟩)
    ∧ GetMember Members.GroupCount
        ({ Node.sample with
          _own_groups := ["all", "raid"], _peer_groups := [("chat", ["bob"])] } : Node Callback) ⟨"", [], [], []⟩
      = (some 3, ⟨"", [], ["all", "chat", "raid"], []⟩)
    ∧ GetMember Members.JoinedCount
        ({ Node.sample with
          _own_groups := ["all", "raid"], _peer_groups := [("chat", ["bob"])] } : Node Callback)
        ⟨"", [], ["all", "chat", "raid"], []⟩
      = (some 3, ⟨"", [], ["all", "chat", "raid"], ["all", "raid"]⟩) := by
  refine ⟨by decide, by decide, by decide, by decide⟩

end MQ2DanNet
